import Mathlib

/-!
Verification of the metrics accumulation engine of `parlai/core/metrics.py`
(KBRD repository).  The Python code is shallowly embedded: pure helper
functions become Lean functions over `String`/`List`/`ℚ`, the mutable
metrics dictionary becomes an association list threaded through an
`Except` monad (Python exceptions become `Except.error`), and `Counter`
objects are represented by the list of their elements (occurrence counts
are multiplicities in the list; `len` of a counter is the number of
distinct elements, `sum` of its values is the length of the list).
All definitions are written with structural recursion so that concrete
runs evaluate inside the kernel.
-/

set_option linter.unusedVariables false

namespace KBRD

/-- Python exceptions that the embedded code can raise.  `typeError` also
stands in for `AttributeError` (both arise from applying an operation to a
value of the wrong runtime type and are never caught by this module). -/
inductive PyErr where
  | keyError
  | typeError
  | valueError
  deriving DecidableEq, Repr

/-- A value stored in the metrics dictionary: either a numeric scalar or a
`Counter` of n-grams (an n-gram is a list of tokens); the counter is the
list of its elements with multiplicity. -/
inductive MVal where
  | scalar (q : ℚ)
  | table (t : List (List String))
  deriving DecidableEq, Repr

/-- Decidable equality of `Except` results, for evaluating concrete runs. -/
instance {ε α : Type} [DecidableEq ε] [DecidableEq α] :
    DecidableEq (Except ε α) := fun
  | .ok a, .ok b =>
      if h : a = b then .isTrue (by rw [h]) else .isFalse (by simp [h])
  | .error e, .error e' =>
      if h : e = e' then .isTrue (by rw [h]) else .isFalse (by simp [h])
  | .ok _, .error _ => .isFalse (by simp)
  | .error _, .ok _ => .isFalse (by simp)

/-- Python-dict lookup on an association list. -/
def dlook : List (String × MVal) → String → Option MVal
  | [], _ => none
  | (k', v) :: rest, k => if k = k' then some v else dlook rest k

/-- Python-dict assignment: replace the binding if the key is present
(keeping its position), append it otherwise. -/
def dset : List (String × MVal) → String → MVal → List (String × MVal)
  | [], k, v => [(k, v)]
  | (k', v') :: rest, k, v =>
      if k = k' then (k', v) :: rest else (k', v') :: dset rest k v

/-- `d[k] += v` for a numeric `v`: `KeyError` if absent, `TypeError` if the
stored value is a counter (`Counter += number` raises in Python). -/
def addScalar (d : List (String × MVal)) (k : String) (v : ℚ) :
    Except PyErr (List (String × MVal)) :=
  match dlook d k with
  | none => .error .keyError
  | some (.scalar q) => .ok (dset d k (.scalar (q + v)))
  | some (.table _) => .error .typeError

/-- `d[k] += c` for a counter `c` (`Counter.update` adds multiplicities,
modelled by list append): `KeyError` if absent, `TypeError` if the stored
value is a number. -/
def addTable (d : List (String × MVal)) (k : String) (c : List (List String)) :
    Except PyErr (List (String × MVal)) :=
  match dlook d k with
  | none => .error .keyError
  | some (.scalar _) => .error .typeError
  | some (.table t) => .ok (dset d k (.table (t ++ c)))

/-- Read `d[k]` expecting a number (`KeyError` if absent, `TypeError` when a
counter is used where a number is required). -/
def getScalar (d : List (String × MVal)) (k : String) : Except PyErr ℚ :=
  match dlook d k with
  | none => .error .keyError
  | some (.scalar q) => .ok q
  | some (.table _) => .error .typeError

/-! ## Text normalization (`normalize_answer` and friends) -/

/-- The character class of `re_punc`:
`!"#$%&()*+,-./:;<=>?@[]\^` backquote `{|}~_'`. -/
def isPunc (c : Char) : Bool :=
  c ∈ ['!', '"', '#', '$', '%', '&', '(', ')', '*', '+', ',', '-', '.', '/',
       ':', ';', '<', '=', '>', '?', '@', '[', ']', '\\', '^', '`', '{', '|',
       '}', '~', '_', '\'']

/-- Word characters for the `\b` boundaries of `re_art` (ASCII reading of
`\w`: letters, digits, underscore). -/
def isWordC (c : Char) : Bool := c.isAlphanum || c = '_'

/-- Python `str.split()` whitespace (ASCII reading). -/
def isWS (c : Char) : Bool :=
  c = ' ' || c = '\t' || c = '\n' || c = '\r' || c = '\x0b' || c = '\x0c'

/-- A maximal word-character run matched by `\b(a|an|the)\b` is replaced by
a single space; `run` arrives reversed. -/
def artFlush (run : List Char) : List Char :=
  let w := run.reverse
  if w = ['a'] || w = ['a', 'n'] || w = ['t', 'h', 'e'] then [' '] else w

/-- One pass of `re_art.sub(' ', text)`: accumulate the current word run
(reversed) and flush it at run boundaries. -/
def artGo (run : List Char) : List Char → List Char
  | [] => artFlush run
  | c :: cs =>
      if isWordC c then artGo (c :: run) cs
      else artFlush run ++ c :: artGo [] cs

/-- `remove_articles` on a character list. -/
def removeArticles (l : List Char) : List Char := artGo [] l

/-- Python `str.split()`: split on whitespace runs, dropping empty pieces;
`cur` is the current (reversed) token. -/
def psplitGo (cur : List Char) : List Char → List (List Char)
  | [] => if cur = [] then [] else [cur.reverse]
  | c :: cs =>
      if isWS c then
        (if cur = [] then psplitGo [] cs else cur.reverse :: psplitGo [] cs)
      else psplitGo (c :: cur) cs

/-- Python `str.split()` on a character list. -/
def psplitL (l : List Char) : List (List Char) := psplitGo [] l

/-- `' '.join(pieces)`. -/
def joinSp : List (List Char) → List Char
  | [] => []
  | [p] => p
  | p :: ps => p ++ ' ' :: joinSp ps

/-- `normalize_answer`: lower-case, convert punctuation to spaces, remove
the articles a/an/the, collapse whitespace. -/
def normalize_answer (s : String) : String :=
  ⟨joinSp (psplitL (removeArticles ((s.data.map Char.toLower).map
      (fun c => if isPunc c then ' ' else c))))⟩

/-- `normalize_answer(s).split()` — the token list used by F1 and the
distinct-n metrics. -/
def normSplit (s : String) : List String :=
  (psplitL (normalize_answer s).data).map (fun l => ⟨l⟩)

/-- Python `str.split(" ")`: split on each single space, keeping empty
pieces (used by `_bleu`). -/
def splitSpGo (cur : List Char) : List Char → List (List Char)
  | [] => [cur.reverse]
  | c :: cs => if c = ' ' then cur.reverse :: splitSpGo [] cs
               else splitSpGo (c :: cur) cs

/-- `s.split(" ")` as a list of strings. -/
def splitSp (s : String) : List String :=
  (splitSpGo [] s.data).map (fun l => ⟨l⟩)

/-! ## Scorer functions -/

/-- `_exact_match(guess, answers)`; `answers = none` models Python `None`. -/
def exact_match (guess : String) (answers : Option (List String)) : Bool :=
  match answers with
  | none => false
  | some as' => as'.any (fun a => normalize_answer guess = normalize_answer a)

/-- `sum((Counter(gold_items) & Counter(pred_items)).values())`. -/
def numSame (pred gold : List String) : ℕ :=
  (gold.dedup.map (fun x => min (gold.count x) (pred.count x))).sum

/-- `_prec_recall_f1_score` returning `(precision, recall, f1)`. -/
def prec_recall_f1_score (pred gold : List String) : ℚ × ℚ × ℚ :=
  let ns := numSame pred gold
  if ns = 0 then (0, 0, 0)
  else
    let p : ℚ := (ns : ℚ) / (pred.length : ℚ)
    let r : ℚ := (ns : ℚ) / (gold.length : ℚ)
    (p, r, 2 * p * r / (p + r))

/-- `max` over a list of rationals; Python `max` raises `ValueError` on an
empty sequence. -/
def pymax : List ℚ → Except PyErr ℚ
  | [] => .error .valueError
  | x :: xs => .ok (xs.foldl max x)

/-- `_f1_score(guess, answers)`: `0` when `answers` is `None`, otherwise the
maximum F1 against any answer — which raises `ValueError` when the answer
list is empty. -/
def f1_score (guess : String) (answers : Option (List String)) :
    Except PyErr ℚ :=
  match answers with
  | none => .ok 0
  | some as' =>
      pymax (as'.map (fun a =>
        (prec_recall_f1_score (normSplit guess) (normSplit a)).2.2))

/-- `_ngram(seq, n)`: the list of n-gram windows of `seq`. -/
def ngramL (seq : List String) (n : ℕ) : List (List String) :=
  match seq with
  | [] => []
  | _ :: rest =>
      if n ≤ seq.length then seq.take n :: ngramL rest n else []

/-- `1e-12` and `1e-5`, the guards of the distinct-n ratios (the power is
computed in `ℕ`, which the kernel evaluates directly). -/
def eps12 : ℚ := 1 / ((10 ^ 12 : ℕ) : ℚ)

/-- The denominator guard `1e-5`. -/
def eps5 : ℚ := 1 / ((10 ^ 5 : ℕ) : ℚ)

/-- `_intra_distinct(guess, ngram)`: per-example distinct ratio. -/
def intra_distinct (guess : String) (n : ℕ) : ℚ :=
  let counts := ngramL (normSplit guess) n
  max ((counts.dedup.length : ℚ)) eps12 / max ((counts.length : ℚ)) eps5

/-- `_inter_distinct(guess, ngram)`: the per-example n-gram counter, to be
folded into the running table. -/
def inter_distinct (guess : String) (n : ℕ) : List (List String) :=
  ngramL (normSplit guess) n

/-! ## Significant-figure rounding

`round_sigfigs` is imported from `parlai.core.utils`, which is not part of
the sources at hand; it is modelled from the spec.  The base-10 exponent is
computed by fuel-based structural recursion so the kernel can evaluate it. -/

/-- Number of base-10 digits of `n` (`0` for `n = 0`); the first argument
is fuel, sufficient whenever `n ≤ fuel`. -/
def dCount : ℕ → ℕ → ℕ
  | 0, _ => 0
  | _ + 1, 0 => 0
  | f + 1, n + 1 => dCount f ((n + 1) / 10) + 1

/-- Least `k` with `a * 10 ^ k ≥ b`, searched with fuel. -/
def findScale : ℕ → ℕ → ℕ → ℕ
  | 0, _, _ => 0
  | f + 1, a, b => if b ≤ a then 0 else findScale f (a * 10) b + 1

/-- Floor of the base-10 logarithm of the fraction `a / b`
(for `a, b ≥ 1`). -/
def qExpN (a b : ℕ) : ℤ :=
  if b ≤ a then (dCount (a / b) (a / b) : ℤ) - 1
  else -(findScale b a b : ℤ)

/-- Floor of the base-10 logarithm of `|q|` for nonzero `q`. -/
def qExp (q : ℚ) : ℤ := qExpN q.num.natAbs q.den

/-- `10 ^ s` as a rational, for an integer exponent `s` (the power is
computed in `ℕ`). -/
def qpow10 (s : ℤ) : ℚ :=
  if 0 ≤ s then ((10 ^ s.natAbs : ℕ) : ℚ) else 1 / ((10 ^ s.natAbs : ℕ) : ℚ)

/-- Round-half-up to the nearest integer, computed on the numerator and
denominator (equal to Mathlib's `round`, see `qRound_eq`). -/
def qRound (q : ℚ) : ℤ := Int.fdiv (2 * q.num + (q.den : ℤ)) (2 * (q.den : ℤ))

/-- Modelled from the spec: `round_sigfigs(x, sigfigs)` from
`parlai.core.utils` (not among the given sources) rounds `x` to `sigfigs`
significant figures (the exponent is taken on `|x|`). -/
def round_sigfigs (x : ℚ) (sigfigs : ℕ) : ℚ :=
  if x = 0 then 0
  else
    let s : ℤ := (sigfigs : ℤ) - 1 - qExp x
    (qRound (x * qpow10 s) : ℚ) * qpow10 (-s)

/-! ## Cross-task aggregation (`aggregate_metrics`) -/

/-- Whether the BLEU library is importable (`nltkbleu is not None`) and
whether the ROUGE library is importable. -/
structure Cfg where
  bleuAvail : Bool
  rougeAvail : Bool
  deriving DecidableEq, Repr

/-- A reporter, as consumed by `aggregate_metrics`: `getID()` and the
`report()` dictionary (string keys to numbers). -/
structure Reporter where
  id : String
  rep : List (String × ℚ)
  deriving DecidableEq, Repr

/-- Association-list lookup for plain numeric dictionaries. -/
def qlook : List (String × ℚ) → String → Option ℚ
  | [], _ => none
  | (k', v) :: rest, k => if k = k' then some v else qlook rest k

/-- Association-list assignment for plain numeric dictionaries. -/
def qset : List (String × ℚ) → String → ℚ → List (String × ℚ)
  | [], k, v => [(k, v)]
  | (k', v') :: rest, k, v =>
      if k = k' then (k', v) :: rest else (k', v') :: qset rest k v

/-- `while tid in m['tasks']: tid += '_'` — append underscores until the
identifier is fresh; the fuel (one more than the number of tasks) is enough
by pigeonhole. -/
def freshTid (existing : List String) : ℕ → String → String
  | 0, tid => tid
  | f + 1, tid => if tid ∈ existing then freshTid existing f (tid ++ "_") else tid

/-- The headline keys summed by `aggregate_metrics`: accuracy, f1, loss,
ppl, and bleu when the BLEU library is available. -/
def sumsKeys (cfg : Cfg) : List String :=
  ["accuracy", "f1", "loss", "ppl"] ++ (if cfg.bleuAvail then ["bleu"] else [])

/-- Result of `aggregate_metrics`: the per-task sub-reports stored under
`'tasks'` and the numeric entries of the combined dictionary (in insertion
order: `exs`, `accuracy`, then the headline means). -/
structure Agg where
  tasks : List (String × List (String × ℚ))
  nums : List (String × ℚ)
  deriving DecidableEq, Repr

/-- The loop body state of `aggregate_metrics`. -/
structure AggSt where
  tasks : List (String × List (String × ℚ))
  sums : List (String × ℚ)
  num_tasks : ℕ
  total : ℚ
  deriving DecidableEq, Repr

/-- One iteration of the `aggregate_metrics` loop. -/
def aggStep (cfg : Cfg) (st : AggSt) (r : Reporter) : Except PyErr AggSt := do
  let tid := freshTid (st.tasks.map Prod.fst) (st.tasks.length + 1) r.id
  let tasks := st.tasks ++ [(tid, r.rep)]
  let exs ← match qlook r.rep "exs" with
    | none => .error PyErr.keyError
    | some e => .ok e
  let total := st.total + exs
  let sums := (sumsKeys cfg).foldl (fun acc k =>
    match qlook r.rep k with
    | none => acc
    | some v => qset acc k ((qlook acc k).getD 0 + v)) st.sums
  let found_any := (sumsKeys cfg).any (fun k => (qlook r.rep k).isSome)
  .ok ⟨tasks, sums, st.num_tasks + (if found_any then 1 else 0), total⟩

/-- `aggregate_metrics(reporters)`. -/
def aggregate_metrics (cfg : Cfg) (reporters : List Reporter) :
    Except PyErr Agg := do
  let sums0 := ((sumsKeys cfg).map (fun k => (k, (0 : ℚ))))
  let st ← reporters.foldlM (aggStep cfg) (⟨[], sums0, 0, 0⟩ : AggSt)
  let m := qset (qset [] "exs" st.total) "accuracy" 0
  let m := if 0 < st.num_tasks then
      (sumsKeys cfg).foldl (fun acc k =>
        qset acc k (round_sigfigs ((qlook st.sums k).getD 0 / st.num_tasks) 4)) m
    else m
  .ok ⟨st.tasks, m⟩

/-! ## The `Metrics` accumulator -/

/-- `s.startswith(p)`, on character lists. -/
def startsWL : List Char → List Char → Bool
  | [], _ => true
  | _ :: _, [] => false
  | p :: ps, c :: cs => p = c && startsWL ps cs

/-- Python `s.startswith(p)`. -/
def startswith (s p : String) : Bool := startsWL p.data s.data

/-- Drop characters of the reversed string up to and including the first
`'-'`; `none` when there is no dash. -/
def cutDash : List Char → Option (List Char)
  | [] => none
  | c :: cs => if c = '-' then some cs else cutDash cs

/-- `k.rsplit('-', 1)[0]`: everything before the last dash (`k` itself when
there is none). -/
def rsplitBase (k : String) : String :=
  match cutDash k.data.reverse with
  | none => k
  | some rest => ⟨rest.reverse⟩

/-- `self.metrics_list` as built by `__init__` (BLEU and ROUGE keys only
when the corresponding library is importable). -/
def initList (cfg : Cfg) : List String :=
  ["mean_rank", "loss", "correct", "f1", "ppl"]
    ++ (if cfg.bleuAvail then ["bleu-1", "bleu-2", "bleu-3", "bleu-4"] else [])
    ++ (if cfg.rougeAvail then ["rouge-1", "rouge-2", "rouge-l"] else [])
    ++ ["intra-distinct-1", "inter-distinct-1", "intra-distinct-2",
        "inter-distinct-2", "intra-distinct-3", "inter-distinct-3",
        "intra-distinct-4", "inter-distinct-4"]

/-- `self.crs_metrics`. -/
def crsMetrics : List String := ["bleu", "rouge", "intra-distinct", "inter-distinct"]

/-- `any(k.startswith(prefix) for prefix in self.crs_metrics)`. -/
def isCrs (k : String) : Bool := crsMetrics.any (fun p => startswith k p)

/-- `self.eval_pr`. -/
def eval_pr : List ℕ := [1, 5, 10, 100]

/-- `'hits@' + str(k)`. -/
def hitsKey (k : ℕ) : String := "hits@" ++ toString k

/-- The four hit keys, spelled out. -/
@[simp] theorem hitsKey_one : hitsKey 1 = "hits@1" := rfl

/-- `hits@5`. -/
@[simp] theorem hitsKey_five : hitsKey 5 = "hits@5" := rfl

/-- `hits@10`. -/
@[simp] theorem hitsKey_ten : hitsKey 10 = "hits@10" := rfl

/-- `hits@100`. -/
@[simp] theorem hitsKey_hundred : hitsKey 100 = "hits@100" := rfl

/-- The metrics dictionary as built by `__init__`. -/
def initMd (cfg : Cfg) : List (String × MVal) :=
  let d := dset [] "cnt" (.scalar 0)
  let d := (initList cfg).foldl (fun d k =>
    let d := if startswith k "inter-distinct" then dset d k (.table [])
             else dset d k (.scalar 0)
    if ¬ isCrs k then dset d (k ++ "_cnt") (.scalar 0) else d) d
  let d := dset (dset (dset d "bleu_cnt" (.scalar 0)) "rouge_cnt" (.scalar 0))
      "intra-distinct_cnt" (.scalar 0)
  let d := (eval_pr.map hitsKey).foldl (fun d k => dset d k (.scalar 0)) d
  dset d "hits@_cnt" (.scalar 0)

/-- The state of a `Metrics` object: the metrics dictionary, the key list,
the two flags, and whether the dictionary is a cross-process `SharedTable`
(`numthreads > 1`). -/
structure MState where
  md : List (String × MVal)
  metrics_list : List String
  ppm : Bool
  htc : Bool
  shared : Bool
  deriving DecidableEq, Repr

/-- `Metrics(opt)`: the freshly constructed accumulator. -/
def metricsInit (cfg : Cfg) (shared : Bool) : MState :=
  ⟨initMd cfg, initList cfg, false, false, shared⟩

/-- An observation: optional prediction text, optional ranked candidate
list, optional user-supplied metrics dictionary. -/
structure Obs where
  text : Option String := none
  text_candidates : Option (List String) := none
  metrics : Option (List (String × ℚ)) := none

/-- The external scoring libraries (`nltkbleu.sentence_bleu`, applied to
normalized reference token lists, the normalized hypothesis tokens and the
n-gram order; and `rouge`'s evaluator returning the ROUGE-1/2/L recalls,
`none` modelling a `LookupError`). -/
structure Ext where
  sentence_bleu : List (List String) → List String → ℕ → ℚ
  rouge_scores : String → String → Option (ℚ × ℚ × ℚ)

/-- `_bleu(guess, answers, k)` when the BLEU library is available;
iterating over `None` answers raises `TypeError`. -/
def bleuM (ext : Ext) (guess : String) (answers : Option (List String))
    (k : ℕ) : Except PyErr ℚ :=
  match answers with
  | none => .error .typeError
  | some as' =>
      .ok (ext.sentence_bleu (as'.map (fun a => splitSp (normalize_answer a)))
        (splitSp (normalize_answer guess)) k)

/-- `max` of a nonempty list (total helper for `_rouge`). -/
def maxD : List ℚ → ℚ
  | [] => 0
  | x :: xs => xs.foldl max x

/-- `_rouge(guess, answers)`: `TypeError` on `None` answers, `ValueError`
(from `max` of an empty sequence) on an empty answer list, the list
`[None] * 5` when the evaluator raises `LookupError`, and the three
component-wise maxima otherwise. -/
def rougeM (ext : Ext) (guess : String) (answers : Option (List String)) :
    Except PyErr (List (Option ℚ)) :=
  match answers with
  | none => .error .typeError
  | some [] => .error .valueError
  | some (a :: as') =>
      let scores := (a :: as').map (fun a' =>
        ext.rouge_scores (normalize_answer guess) (normalize_answer a'))
      if scores.all Option.isSome then
        let s := scores.filterMap id
        .ok [some (maxD (s.map (·.1))), some (maxD (s.map (·.2.1))),
             some (maxD (s.map (·.2.2)))]
      else .ok [none, none, none, none, none]

/-- `d[k] += v` where `v` may be `None` (adding `None` raises). -/
def addOpt (d : List (String × MVal)) (k : String) (v : Option ℚ) :
    Except PyErr (List (String × MVal)) :=
  match v with
  | none => .error .typeError
  | some q => addScalar d k q

/-- Lock region 1 of `update`: `self.metrics['cnt'] += 1`. -/
def updCntBlock (s : MState) : Except PyErr MState := do
  let md ← addScalar s.md "cnt" 1
  .ok { s with md }

/-- Lock region 2 of `update` (prediction present): set the
`print_prediction_metrics` flag and fold the exact-match outcome. -/
def updExactBlock (s : MState) (correct : ℚ) : Except PyErr MState := do
  let md ← addScalar s.md "correct" correct
  let md ← addScalar md "correct_cnt" 1
  .ok { s with md, ppm := true }

/-- The BLEU part of the scoring lock region (`if nltkbleu is not None`). -/
def bleuFold (cfg : Cfg) (ext : Ext) (prediction : String)
    (labels : Option (List String)) (md : List (String × MVal)) :
    Except PyErr (List (String × MVal)) :=
  if cfg.bleuAvail then do
    let md ← [1, 2, 3, 4].foldlM (fun md i => do
        let b ← bleuM ext prediction labels i
        addScalar md ("bleu-" ++ toString i) b) md
    addScalar md "bleu_cnt" 1
  else pure md

/-- The ROUGE part of the scoring lock region (`if rouge is not None`). -/
def rougeFold (cfg : Cfg) (ext : Ext) (prediction : String)
    (labels : Option (List String)) (md : List (String × MVal)) :
    Except PyErr (List (String × MVal)) :=
  if cfg.rougeAvail then do
    let rs ← rougeM ext prediction labels
    let md ← addOpt md "rouge-1" (rs.getD 0 none)
    let md ← addOpt md "rouge-2" (rs.getD 1 none)
    let md ← addOpt md "rouge-l" (rs.getD 2 none)
    addScalar md "rouge_cnt" 1
  else pure md

/-- The distinct-n part of the scoring lock region. -/
def distinctFold (prediction : String) (md : List (String × MVal)) :
    Except PyErr (List (String × MVal)) := do
  let md ← [1, 2, 3, 4].foldlM (fun md i => do
      let md ← addScalar md ("intra-distinct-" ++ toString i)
        (intra_distinct prediction i)
      addTable md ("inter-distinct-" ++ toString i)
        (inter_distinct prediction i)) md
  addScalar md "intra-distinct_cnt" 1

/-- Lock region 3 of `update` (prediction present): fold F1, BLEU, ROUGE
and the distinct-n metrics. -/
def updScoreBlock (cfg : Cfg) (ext : Ext) (s : MState) (prediction : String)
    (labels : Option (List String)) (f1 : ℚ) : Except PyErr MState := do
  let md ← addScalar s.md "f1" f1
  let md ← addScalar md "f1_cnt" 1
  let md ← bleuFold cfg ext prediction labels md
  let md ← rougeFold cfg ext prediction labels md
  let md ← distinctFold prediction md
  .ok { s with md }

/-- `cnts[k]` of `update_ranking_metrics`: how many of the first `k`
candidates normalize to a member of the normalized label set. -/
def hitCnt (text_cands ls : List String) (k : ℕ) : ℕ :=
  ((text_cands.take k).filter
    (fun c => (ls.map normalize_answer).contains (normalize_answer c))).length

/-- `update_ranking_metrics(observation, labels)`; its single lock region
covers the flag and the `hits@K` folds; iterating `None` labels raises. -/
def update_ranking_metrics (s : MState) (obs : Obs)
    (labels : Option (List String)) : Except PyErr MState :=
  match obs.text_candidates with
  | none => .ok s
  | some text_cands =>
    match labels with
    | none => .error .typeError
    | some ls => do
        let md ← eval_pr.foldlM (fun md k =>
            if 0 < hitCnt text_cands ls k then addScalar md (hitsKey k) 1
            else pure md) s.md
        let md ← addScalar md "hits@_cnt" 1
        .ok { s with md, htc := true }

/-- The reserved keys skipped by the user-metrics fold. -/
def reservedKeys : List String := ["correct", "f1", "hits@k", "bleu"]

/-- One entry of the user-supplied metrics dictionary: known keys fold into
the table; unknown keys register (non-shared accumulators only), or add
into an existing non-listed dictionary entry. -/
def userMetricOne (s : MState) (kv : String × ℚ) : Except PyErr MState :=
  let (k, v) := kv
  if k ∈ reservedKeys then .ok s
  else if k ∈ s.metrics_list then do
    let md ← addScalar s.md k v
    let md ← addScalar md (k ++ "_cnt") 1
    .ok { s with md }
  else if s.shared then .ok s
  else match dlook s.md k with
    | some _ => do
        let md ← addScalar s.md k v
        .ok { s with md }
    | none =>
        .ok { s with
              md := dset (dset s.md k (.scalar v)) (k ++ "_cnt") (.scalar 1),
              metrics_list := s.metrics_list ++ [k] }

/-- The user-metrics section of `update`. -/
def updUserBlock (s : MState) (obs : Obs) : Except PyErr MState :=
  match obs.metrics with
  | none => .ok s
  | some entries => entries.foldlM userMetricOne s

/-- The prediction-dependent part of `update` (`if prediction is not
None`): the exact-match lock region, the F1 computation, and the scoring
lock region, returning the state and `correct`. -/
def updPredBlock (cfg : Cfg) (ext : Ext) (s : MState) (prediction : String)
    (labels : Option (List String)) : Except PyErr (MState × ℚ) := do
  let correct : ℚ := if exact_match prediction labels then 1 else 0
  let s ← updExactBlock s correct
  let f1 ← f1_score prediction labels
  let s ← updScoreBlock cfg ext s prediction labels f1
  pure (s, correct)

/-- `update(observation, labels)`, returning the new state and the
per-example result `loss['correct']`. -/
def update (cfg : Cfg) (ext : Ext) (s : MState) (obs : Obs)
    (labels : Option (List String)) : Except PyErr (MState × ℚ) := do
  let s ← updCntBlock s
  let (s, correct) ← (match obs.text with
    | none => pure (s, (0 : ℚ))
    | some prediction => updPredBlock cfg ext s prediction labels)
  let s ← update_ranking_metrics s obs labels
  let s ← updUserBlock s obs
  pure (s, correct)

/-- The body of the `report` loop over `metrics_list`: the value (if any)
that the iteration for key `k` writes into the report. -/
def reportEmit (s : MState) (k : String) : Except PyErr (Option ℚ) :=
  if ¬ startswith k "inter-distinct" then do
    let c ← getScalar s.md (rsplitBase k ++ "_cnt")
    if 0 < c then
      if k ≠ "correct" then
        if k ≠ "f1" then do
          let v ← getScalar s.md k
          pure (some (round_sigfigs (v / max 1 c) 4))
        else pure none
      else pure none
    else pure none
  else
    match dlook s.md k with
    | none => .error .keyError
    | some (.scalar _) => .error .typeError
    | some (.table t) =>
        if t.dedup.length ≠ 0 then
          pure (some (round_sigfigs
            (max ((t.dedup.length : ℚ)) eps12 / max ((t.length : ℚ)) eps5) 4))
        else pure none

/-- The `report` loop over `metrics_list`. -/
def reportLoop (s : MState) (m : List (String × ℚ)) :
    List String → Except PyErr (List (String × ℚ))
  | [] => .ok m
  | k :: ks => do
      let e ← reportEmit s k
      match e with
      | some v => reportLoop s (qset m k v) ks
      | none => reportLoop s m ks

/-- `report()`: the normalized snapshot. -/
def report (s : MState) : Except PyErr (List (String × ℚ)) := do
  let total ← getScalar s.md "cnt"
  let m := qset [] "exs" total
  if 0 < total then do
    let m ← if s.ppm then do
        let c ← getScalar s.md "correct"
        let cc ← getScalar s.md "correct_cnt"
        let f ← getScalar s.md "f1"
        let fc ← getScalar s.md "f1_cnt"
        pure (qset (qset m "accuracy" (round_sigfigs (c / max 1 cc) 4)) "f1"
          (round_sigfigs (f / max 1 fc) 4))
      else pure m
    let m ← if s.htc then do
        eval_pr.foldlM (fun m k => do
          let h ← getScalar s.md (hitsKey k)
          let hc ← getScalar s.md "hits@_cnt"
          pure (qset m (hitsKey k) (round_sigfigs (h / max 1 hc) 3))) m
      else pure m
    reportLoop s m s.metrics_list
  else pure m

/-- One iteration of the `clear` loop (the stored value is looked up for
the tensor check; the model stores no tensors). -/
def clearOne (md : List (String × MVal)) (k : String) :
    Except PyErr (List (String × MVal)) :=
  match dlook md k with
  | none => .error .keyError
  | some _ =>
      let md := if startswith k "inter-distinct" then dset md k (.table [])
                else dset md k (.scalar 0)
      .ok (if ¬ isCrs k then dset md (k ++ "_cnt") (.scalar 0) else md)

/-- `clear()`: reset every accumulator (the flags are not reset). -/
def clear (s : MState) : Except PyErr MState := do
  let md := dset s.md "cnt" (.scalar 0)
  let md ← s.metrics_list.foldlM clearOne md
  let md := dset (dset (dset md "bleu_cnt" (.scalar 0)) "rouge_cnt" (.scalar 0))
      "intra-distinct_cnt" (.scalar 0)
  let md := (eval_pr.map hitsKey).foldl (fun md k => dset md k (.scalar 0)) md
  .ok { s with md := dset md "hits@_cnt" (.scalar 0) }

/-- A sequence of `update` calls. -/
def runUpdates (cfg : Cfg) (ext : Ext) :
    MState → List (Obs × Option (List String)) → Except PyErr MState
  | s, [] => .ok s
  | s, (obs, ls) :: rest => do
      let (s', _) ← update cfg ext s obs ls
      runUpdates cfg ext s' rest

/-- An operation on the accumulator: an `update` call or a `clear` call. -/
inductive MOp where
  | upd (obs : Obs) (labels : Option (List String))
  | clr

/-- A sequence of `update`/`clear` calls. -/
def runOps (cfg : Cfg) (ext : Ext) : MState → List MOp → Except PyErr MState
  | s, [] => .ok s
  | s, MOp.upd obs ls :: rest => do
      let (s', _) ← update cfg ext s obs ls
      runOps cfg ext s' rest
  | s, MOp.clr :: rest => do
      let s' ← clear s
      runOps cfg ext s' rest

/-! ## Evaluation toolkit -/

/-- Bind of a successful computation. -/
@[simp] theorem bind_ok {α β : Type} (a : α) (f : α → Except PyErr β) :
    (Except.ok a : Except PyErr α) >>= f = f a := rfl

/-- Bind of a raised exception. -/
@[simp] theorem bind_error {α β : Type} (e : PyErr) (f : α → Except PyErr β) :
    (Except.error e : Except PyErr α) >>= f = .error e := rfl

/-- `pure` in the exception monad. -/
@[simp] theorem pure_ok {α : Type} (a : α) :
    (pure a : Except PyErr α) = .ok a := rfl

/-- `Except.map` over a success. -/
@[simp] theorem emap_ok {α β : Type} (f : α → β) (a : α) :
    (Except.ok a : Except PyErr α).map f = .ok (f a) := rfl

/-- Unfolding `round_sigfigs x 4` by supplied component computations, used
to evaluate concrete roundings. -/
theorem round_sigfigs_eval (x : ℚ) (a : ℤ) (b : ℕ) (e r : ℤ) (v : ℚ)
    (hx0 : ¬ x = 0) (hx : x.num = a) (hb : x.den = b)
    (he : qExpN a.natAbs b = e)
    (hr : qRound (x * qpow10 (3 - e)) = r)
    (hv : (r : ℚ) * qpow10 (e - 3) = v) :
    round_sigfigs x 4 = v := by
  rw [round_sigfigs, if_neg hx0]
  have hq : qExp x = e := by rw [qExp, hx, hb, he]
  simp only [hq]
  have h1 : ((4 : ℕ) : ℤ) - 1 - e = 3 - e := by push_cast; ring
  rw [h1]
  have h2 : -((3 : ℤ) - e) = e - 3 := by ring
  rw [h2, hr, hv]

/-- `round_sigfigs` of zero. -/
@[simp] theorem round_sigfigs_zero (n : ℕ) : round_sigfigs 0 n = 0 := by
  rw [round_sigfigs]; simp

/-! ## Association-list lemmas -/

/-- Lookup after setting the same key. -/
@[simp] theorem qlook_qset_self (m : List (String × ℚ)) (k : String) (v : ℚ) :
    qlook (qset m k v) k = some v := by
  induction m with
  | nil => simp [qset, qlook]
  | cons p rest ih =>
      by_cases h : k = p.1
      · simp [qset, qlook, h]
      · simp [qset, qlook, h, ih]

/-- Lookup after setting a different key. -/
theorem qlook_qset_ne (m : List (String × ℚ)) (k k' : String) (v : ℚ)
    (h : k' ≠ k) : qlook (qset m k v) k' = qlook m k' := by
  induction m with
  | nil => simp [qset, qlook, h]
  | cons p rest ih =>
      by_cases h2 : k = p.1
      · subst h2; simp [qset, qlook, h]
      · by_cases h3 : k' = p.1
        · simp [qset, qlook, h2, h3]
        · simp [qset, qlook, h2, h3, ih]

/-- Lookup after a dictionary assignment to the same key. -/
@[simp] theorem dlook_dset_self (m : List (String × MVal)) (k : String) (v : MVal) :
    dlook (dset m k v) k = some v := by
  induction m with
  | nil => simp [dset, dlook]
  | cons p rest ih =>
      by_cases h : k = p.1
      · simp [dset, dlook, h]
      · simp [dset, dlook, h, ih]

/-- Lookup after a dictionary assignment to a different key. -/
theorem dlook_dset_ne (m : List (String × MVal)) (k k' : String) (v : MVal)
    (h : k' ≠ k) : dlook (dset m k v) k' = dlook m k' := by
  induction m with
  | nil => simp [dset, dlook, h]
  | cons p rest ih =>
      by_cases h2 : k = p.1
      · subst h2; simp [dset, dlook, h]
      · by_cases h3 : k' = p.1
        · simp [dset, dlook, h2, h3]
        · simp [dset, dlook, h2, h3, ih]

/-! ## Concrete rounding values -/

/-- `round_sigfigs 1 4 = 1`. -/
theorem rs_one : round_sigfigs 1 4 = 1 := by
  refine round_sigfigs_eval 1 1 1 0 1000 1 (by norm_num) (by norm_num) (by norm_num)
    (by decide) ?_ ?_
  · rw [qpow10]; norm_num [qRound, Int.fdiv]
  · rw [qpow10]; norm_num

/-- `round_sigfigs (2/5) 4 = 2/5`. -/
theorem rs_two_fifths : round_sigfigs (2/5) 4 = 2/5 := by
  refine round_sigfigs_eval (2/5) 2 5 (-1) 4000 (2/5) (by norm_num) (by norm_num)
    (by norm_num) (by decide) ?_ ?_
  · rw [qpow10]; norm_num [qRound, Int.fdiv]
  · rw [qpow10]; norm_num

/-- `round_sigfigs (7/10) 4 = 7/10`. -/
theorem rs_seven_tenths : round_sigfigs (7/10) 4 = 7/10 := by
  refine round_sigfigs_eval (7/10) 7 10 (-1) 7000 (7/10) (by norm_num) (by norm_num)
    (by norm_num) (by decide) ?_ ?_
  · rw [qpow10]; norm_num [qRound, Int.fdiv]
  · rw [qpow10]; norm_num

/-! ## Characterization of `aggregate_metrics` -/

/-- Sum over the reporters of the value they reported under key `k`
(a task whose report lacks `k` contributes nothing). -/
def hlSum (rs : List Reporter) (k : String) : ℚ :=
  (rs.map (fun r => (qlook r.rep k).getD 0)).sum

/-- Number of reporters whose report contains at least one headline key. -/
def hlCount (cfg : Cfg) (rs : List Reporter) : ℕ :=
  (rs.filter (fun r => (sumsKeys cfg).any (fun k => (qlook r.rep k).isSome))).length

/-- The summation step of `aggStep` for one reporter. -/
def sumsStep (r : Reporter) (acc : List (String × ℚ)) (k : String) :
    List (String × ℚ) :=
  match qlook r.rep k with
  | none => acc
  | some v => qset acc k ((qlook acc k).getD 0 + v)

/-- Keys not in the processed list are untouched by the summation fold. -/
theorem sumsStep_frame (r : Reporter) (ks : List String) (k : String)
    (h : k ∉ ks) : ∀ acc, qlook (ks.foldl (sumsStep r) acc) k = qlook acc k := by
  induction ks with
  | nil => intro acc; rfl
  | cons k0 rest ih =>
      intro acc
      have hk0 : k ≠ k0 := fun hk => h (hk ▸ List.mem_cons_self k0 rest)
      have hrest : k ∉ rest := fun hk => h (List.mem_cons_of_mem _ hk)
      rw [List.foldl_cons, ih hrest]
      rw [sumsStep]
      cases qlook r.rep k0 with
      | none => rfl
      | some v => exact qlook_qset_ne _ _ _ _ hk0

/-- Value of a processed key after the summation fold. -/
theorem sumsStep_look (r : Reporter) (ks : List String) (k : String) (q : ℚ)
    (hnd : ks.Nodup) (hmem : k ∈ ks) :
    ∀ acc, qlook acc k = some q →
      qlook (ks.foldl (sumsStep r) acc) k = some (q + (qlook r.rep k).getD 0) := by
  induction ks with
  | nil => cases hmem
  | cons k0 rest ih =>
      intro acc hacc
      rw [List.foldl_cons]
      rcases List.mem_cons.mp hmem with hk | hk
      · subst hk
        have hnot : k ∉ rest := (List.nodup_cons.mp hnd).1
        rw [sumsStep_frame r rest k hnot]
        rw [sumsStep, hacc]
        cases hrep : qlook r.rep k with
        | none => simp [hacc]
        | some v => simp
      · have hk0 : k ≠ k0 := by
          rintro rfl
          exact (List.nodup_cons.mp hnd).1 hk
        refine ih (List.nodup_cons.mp hnd).2 hk _ ?_
        rw [sumsStep]
        cases qlook r.rep k0 with
        | none => exact hacc
        | some v => rw [qlook_qset_ne _ _ _ _ hk0]; exact hacc

/-- The `aggregate_metrics` loop: success and the resulting totals. -/
theorem aggFold (cfg : Cfg) (rs : List Reporter) :
    ∀ st : AggSt, (∀ r ∈ rs, (qlook r.rep "exs").isSome) →
    ∃ st', rs.foldlM (aggStep cfg) st = .ok st' ∧
      st'.total = st.total + hlSum rs "exs" ∧
      st'.num_tasks = st.num_tasks + hlCount cfg rs ∧
      (∀ k q, k ∈ sumsKeys cfg → qlook st.sums k = some q →
        qlook st'.sums k = some (q + hlSum rs k)) := by
  induction rs with
  | nil =>
      intro st _
      exact ⟨st, rfl, by simp [hlSum], by simp [hlCount], by
        intro k q _ h; simpa [hlSum] using h⟩
  | cons r rest ih =>
      intro st hexs
      obtain ⟨e, he⟩ := Option.isSome_iff_exists.mp (hexs r (List.mem_cons_self r rest))
      have hstep : aggStep cfg st r = .ok
          ⟨st.tasks ++ [(freshTid (st.tasks.map Prod.fst) (st.tasks.length + 1) r.id, r.rep)],
           (sumsKeys cfg).foldl (sumsStep r) st.sums,
           st.num_tasks + (if (sumsKeys cfg).any (fun k => (qlook r.rep k).isSome) then 1 else 0),
           st.total + e⟩ := by
        rw [aggStep]; rw [he]; rfl
      obtain ⟨st', hrun, htot, hnum, hsums⟩ :=
        ih _ (fun r' hr' => hexs r' (List.mem_cons_of_mem _ hr'))
      refine ⟨st', ?_, ?_, ?_, ?_⟩
      · rw [List.foldlM_cons, hstep, bind_ok]; exact hrun
      · rw [htot]; simp [hlSum, he, add_assoc]
      · rw [hnum]; simp only [hlCount, List.filter_cons]
        by_cases hf : (sumsKeys cfg).any (fun k => (qlook r.rep k).isSome)
        · simp [hf, Nat.add_assoc, Nat.add_comm 1]
        · simp [hf]
      · intro k q hk hq
        have := hsums k (q + (qlook r.rep k).getD 0) hk
          (sumsStep_look r (sumsKeys cfg) k q ?nd hk st.sums hq)
        · rw [this]; simp [hlSum, add_assoc]
        · cases hb : cfg.bleuAvail <;> simp [sumsKeys, hb]

/-- Lookup in the zero-initialized sums dictionary. -/
theorem qlook_seed (ks : List String) (k : String) (h : k ∈ ks) :
    qlook (ks.map (fun k => (k, (0 : ℚ)))) k = some 0 := by
  induction ks with
  | nil => cases h
  | cons k0 rest ih =>
      rcases List.mem_cons.mp h with hk | hk
      · subst hk; simp [qlook]
      · by_cases h0 : k = k0
        · subst h0; simp [qlook]
        · simp [qlook, h0, ih hk]

/-- Lookup after writing a fixed function of each key over a key list. -/
theorem qlook_setFold (f : String → ℚ) (ks : List String) (k : String) :
    ∀ m, qlook (ks.foldl (fun acc k' => qset acc k' (f k')) m) k =
      if k ∈ ks then some (f k) else qlook m k := by
  induction ks with
  | nil => intro m; simp
  | cons k0 rest ih =>
      intro m
      rw [List.foldl_cons, ih]
      by_cases hk : k ∈ rest
      · simp [hk, List.mem_cons]
      · by_cases h0 : k = k0
        · subst h0; simp [hk]
        · simp [hk, h0, qlook_qset_ne _ _ _ _ h0]

/-- C3 (amended): `aggregate_metrics` sums `exs` over all tasks, but
divides every headline key by the single count of tasks that reported at
least one headline key (not a per-key count); when that count is positive,
every headline key appears in the output (a never-reported key appears as
the rounding of `0`), and when it is zero only `exs` and `accuracy = 0`
are produced. -/
theorem C3_amended (cfg : Cfg) (rs : List Reporter)
    (hexs : ∀ r ∈ rs, (qlook r.rep "exs").isSome) :
    ∃ a, aggregate_metrics cfg rs = .ok a ∧
      qlook a.nums "exs" = some (hlSum rs "exs") ∧
      (∀ k, k ∈ sumsKeys cfg → 0 < hlCount cfg rs →
        qlook a.nums k =
          some (round_sigfigs (hlSum rs k / (hlCount cfg rs : ℚ)) 4)) ∧
      (hlCount cfg rs = 0 → qlook a.nums "accuracy" = some 0) := by
  obtain ⟨st', hrun, htot, hnum, hsums⟩ :=
    aggFold cfg rs ⟨[], (sumsKeys cfg).map (fun k => (k, (0 : ℚ))), 0, 0⟩ hexs
  rw [aggregate_metrics]
  rw [hrun, bind_ok]
  simp only [hnum, htot, Nat.zero_add, zero_add]
  by_cases hpos : 0 < hlCount cfg rs
  · refine ⟨_, rfl, ?_, ?_, ?_⟩
    · simp only [if_pos hpos]
      rw [qlook_setFold]
      have : "exs" ∉ sumsKeys cfg := by
        cases hb : cfg.bleuAvail <;> simp [sumsKeys, hb]
      rw [if_neg this, qlook_qset_ne _ _ _ _ (by decide)]
      simp
    · intro k hk _
      simp only [if_pos hpos]
      rw [qlook_setFold, if_pos hk]
      have := hsums k 0 hk (qlook_seed _ _ hk)
      rw [this]
      simp
    · intro h0; omega
  · have h0 : hlCount cfg rs = 0 := Nat.eq_zero_of_not_pos hpos
    refine ⟨_, rfl, ?_, ?_, ?_⟩
    · simp only [h0, if_neg (by simp : ¬ (0:ℕ) < 0)]
      rw [qlook_qset_ne _ _ _ _ (by decide)]
      simp
    · intro k hk hpos'; omega
    · intro _
      simp only [h0, if_neg (by simp : ¬ (0:ℕ) < 0)]
      simp

/-- C3 (counterexample): with task reports `{accuracy: 0.8, exs: 10}` and
`{loss: 2, exs: 5}`, `aggregate_metrics` reports `accuracy = 0.4`, dividing
by the count of tasks that reported any headline key (2), whereas the
claimed per-key mean over tasks reporting `accuracy` would be `0.8`. -/
theorem C3_counterexample :
    (aggregate_metrics ⟨false, false⟩
      [⟨"t1", [("accuracy", 8/10), ("exs", 10)]⟩,
       ⟨"t2", [("loss", 2), ("exs", 5)]⟩]).map
        (fun a => (qlook a.nums "accuracy", qlook a.nums "exs")) =
      .ok (some (2/5), some 15) ∧ (2/5 : ℚ) ≠ round_sigfigs (8/10) 4 := by
  constructor
  · simp [aggregate_metrics, aggStep, freshTid, sumsKeys, List.foldlM, qlook, qset,
      Option.getD]
    norm_num [rs_two_fifths, rs_one]
  · have h : round_sigfigs (8/10) 4 = 8/10 := by
      refine round_sigfigs_eval (8/10) 4 5 (-1) 8000 (8/10) (by norm_num) (by norm_num)
        (by norm_num) (by decide) ?_ ?_
      · rw [qpow10]; norm_num [qRound, Int.fdiv]
      · rw [qpow10]; norm_num
    rw [h]; norm_num

/-- C3 (witness): the spec's own example — reports `{accuracy: 0.8, exs: 10}`
and `{accuracy: 0.6, exs: 90}` aggregate to `accuracy = 0.7` (equal-weight
mean) and `exs = 100`. -/
theorem C3_witness :
    ∃ a, aggregate_metrics ⟨false, false⟩
        [⟨"t1", [("accuracy", 8/10), ("exs", 10)]⟩,
         ⟨"t2", [("accuracy", 6/10), ("exs", 90)]⟩] = .ok a ∧
      qlook a.nums "accuracy" = some (7/10) ∧ qlook a.nums "exs" = some 100 := by
  obtain ⟨a, hok, hexs, hhl, _⟩ := C3_amended ⟨false, false⟩
    [⟨"t1", [("accuracy", 8/10), ("exs", 10)]⟩,
     ⟨"t2", [("accuracy", 6/10), ("exs", 90)]⟩]
    (by intro r hr; fin_cases hr <;> simp [qlook])
  refine ⟨a, hok, ?_, ?_⟩
  · have := hhl "accuracy" (by simp [sumsKeys]) (by simp [hlCount, sumsKeys, qlook])
    rw [this]
    have harg : hlSum [(⟨"t1", [("accuracy", 8/10), ("exs", 10)]⟩ : Reporter),
        ⟨"t2", [("accuracy", 6/10), ("exs", 90)]⟩] "accuracy" /
        ((hlCount ⟨false, false⟩ [(⟨"t1", [("accuracy", 8/10), ("exs", 10)]⟩ : Reporter),
          ⟨"t2", [("accuracy", 6/10), ("exs", 90)]⟩] : ℕ) : ℚ) = 7/10 := by
      simp [hlSum, hlCount, sumsKeys, qlook]
      norm_num
    rw [harg, rs_seven_tenths]
  · rw [hexs]
    simp [hlSum, qlook]
    norm_num

/-! ## Small-step lemmas for the accumulator -/

/-- `addScalar` on a key holding a number. -/
theorem addScalar_sc (d : List (String × MVal)) (k : String) (q v : ℚ)
    (h : dlook d k = some (.scalar q)) :
    addScalar d k v = .ok (dset d k (.scalar (q + v))) := by
  rw [addScalar, h]

/-- `addTable` on a key holding a counter. -/
theorem addTable_tb (d : List (String × MVal)) (k : String)
    (t c : List (List String)) (h : dlook d k = some (.table t)) :
    addTable d k c = .ok (dset d k (.table (t ++ c))) := by
  rw [addTable, h]

/-- `getScalar` on a key holding a number. -/
theorem getScalar_sc (d : List (String × MVal)) (k : String) (q : ℚ)
    (h : dlook d k = some (.scalar q)) : getScalar d k = .ok q := by
  rw [getScalar, h]

/-- A fixture for the external scoring libraries, used on concrete runs. -/
def extZero : Ext := ⟨fun _ _ _ => 0, fun _ _ => some (0, 0, 0)⟩

/-- C4 (amended): `update()` does *not* absorb an empty reference-label
list: whenever the observation carries a prediction text and the label
list is present but empty, the F1 fold applies `max` to an empty sequence
and the whole `update()` call raises `ValueError` (the `None`-guard of
`_f1_score` only covers an absent label list). -/
theorem C4_amended (cfg : Cfg) (ext : Ext) (s : MState) (obs : Obs)
    (p : String) (a b c : ℚ)
    (htext : obs.text = some p) (hlab : True)
    (hcnt : dlook s.md "cnt" = some (.scalar a))
    (hcor : dlook s.md "correct" = some (.scalar b))
    (hcc : dlook s.md "correct_cnt" = some (.scalar c)) :
    update cfg ext s obs (some []) = .error .valueError := by
  have e1 := addScalar_sc _ _ _ 1 hcnt
  have hcor' : dlook (dset s.md "cnt" (.scalar (a + 1))) "correct" =
      some (.scalar b) := by
    rw [dlook_dset_ne _ _ _ _ (by decide)]; exact hcor
  have e2 := addScalar_sc _ _ _
    (if exact_match p (some []) then (1 : ℚ) else 0) hcor'
  have hcc' : dlook (dset (dset s.md "cnt" (.scalar (a + 1))) "correct"
      (.scalar (b + (if exact_match p (some []) then (1 : ℚ) else 0))))
      "correct_cnt" = some (.scalar c) := by
    rw [dlook_dset_ne _ _ _ _ (by decide), dlook_dset_ne _ _ _ _ (by decide)]
    exact hcc
  have e3 := addScalar_sc _ _ _ 1 hcc'
  have hf1 : f1_score p (some []) = .error .valueError := rfl
  simp only [update, updPredBlock, updCntBlock, updExactBlock, htext, e1, e2,
    e3, hf1, bind_ok, bind_error]

/-- C4 (witness): from a fresh accumulator, an observation with prediction
`"x"` and an empty label list makes `update()` raise `ValueError`. -/
theorem C4_witness :
    update ⟨false, false⟩ extZero (metricsInit ⟨false, false⟩ false)
      ⟨some "x", none, none⟩ (some []) = .error .valueError := by
  refine C4_amended ⟨false, false⟩ extZero _ _ "x" 0 0 0 rfl trivial ?_ ?_ ?_
  · simp [metricsInit, initMd, initList, isCrs, crsMetrics, startswith, startsWL,
      hitsKey, eval_pr, dset, dlook]
  · simp [metricsInit, initMd, initList, isCrs, crsMetrics, startswith, startsWL,
      hitsKey, eval_pr, dset, dlook]
  · simp [metricsInit, initMd, initList, isCrs, crsMetrics, startswith, startsWL,
      hitsKey, eval_pr, dset, dlook]

/-- C4 (counterexample): the concrete raising run of the witness, refuting
"update() returns normally for an empty reference-label list". -/
theorem C4_counterexample :
    update ⟨false, false⟩ extZero (metricsInit ⟨false, false⟩ false)
      ⟨some "x", none, none⟩ (some []) = .error .valueError ∧
    (∀ r : MState × ℚ,
      update ⟨false, false⟩ extZero (metricsInit ⟨false, false⟩ false)
        ⟨some "x", none, none⟩ (some []) ≠ .ok r) := by
  constructor
  · exact C4_witness
  · intro r h
    rw [C4_witness] at h
    cases h

/-- C5 (amended): a custom metric key outside the reserved set that is not
yet registered is, on a non-shared accumulator, registered with its value
set to the supplied value and its counter initialized to `1`, and later
occurrences fold into it like any first-class key; on a shared accumulator
(`SharedTable`) it is silently ignored and the update leaves no trace of
it.  (It is *not* first-class for `report()` when its name contains a
hyphen — see the counterexample, where `report()` raises `KeyError`.) -/
theorem C5_amended (cfg : Cfg) (ext : Ext) (s : MState) (k : String) (v : ℚ)
    (a : ℚ) (hres : k ∉ reservedKeys) (hml : k ∉ s.metrics_list)
    (hd : dlook s.md k = none) (hk : k ≠ "cnt")
    (hcnt : dlook s.md "cnt" = some (.scalar a)) :
    (s.shared = false →
      update cfg ext s ⟨none, none, some [(k, v)]⟩ none =
        .ok ({ s with
          md := dset (dset (dset s.md "cnt" (.scalar (a + 1))) k (.scalar v))
            (k ++ "_cnt") (.scalar 1),
          metrics_list := s.metrics_list ++ [k] }, 0)) ∧
    (s.shared = true →
      update cfg ext s ⟨none, none, some [(k, v)]⟩ none =
        .ok ({ s with md := dset s.md "cnt" (.scalar (a + 1)) }, 0)) ∧
    (∀ (s₂ : MState) (w q c : ℚ), k ∈ s₂.metrics_list →
      dlook s₂.md k = some (.scalar q) →
      dlook s₂.md (k ++ "_cnt") = some (.scalar c) →
      userMetricOne s₂ (k, w) =
        .ok { s₂ with md := (dset (dset s₂.md k (.scalar (q + w)))
          (k ++ "_cnt") (.scalar (c + 1))) }) := by
  have e1 := addScalar_sc _ _ _ 1 hcnt
  have hd' : dlook (dset s.md "cnt" (.scalar (a + 1))) k = none := by
    rw [dlook_dset_ne _ _ _ _ hk]; exact hd
  have hne : k ++ "_cnt" ≠ k := by
    intro h
    have h2 := congrArg String.length h
    rw [String.length_append] at h2
    have h4 : "_cnt".length = 4 := rfl
    omega
  refine ⟨?_, ?_, ?_⟩
  · intro hsh
    simp only [update, updCntBlock, update_ranking_metrics, updUserBlock,
      userMetricOne, e1, pure_ok, bind_ok, List.foldlM, hsh, hd',
      if_neg hres, if_neg hml]
    simp
  · intro hsh
    simp only [update, updCntBlock, update_ranking_metrics, updUserBlock,
      userMetricOne, e1, pure_ok, bind_ok, List.foldlM, hsh,
      if_neg hres, if_neg hml]
    simp
  · intro s₂ w q c hml₂ hq hc
    have e2 := addScalar_sc _ _ _ w hq
    have hc' : dlook (dset s₂.md k (.scalar (q + w))) (k ++ "_cnt") =
        some (.scalar c) := by
      rw [dlook_dset_ne _ _ _ _ hne]
      exact hc
    have e3 := addScalar_sc _ _ _ 1 hc'
    simp only [userMetricOne, if_neg hres, if_pos hml₂, e2, e3, bind_ok]

/-! ## Step lemmas for the report loop and concrete string facts -/

/-- Empty report loop. -/
theorem reportLoop_nil (s : MState) (m : List (String × ℚ)) :
    reportLoop s m [] = .ok m := rfl

/-- Report-loop step that writes a value. -/
theorem reportLoop_cons_some (s : MState) (m : List (String × ℚ))
    (k : String) (ks : List String) (v : ℚ)
    (h : reportEmit s k = .ok (some v)) :
    reportLoop s m (k :: ks) = reportLoop s (qset m k v) ks := by
  rw [reportLoop, h]; rfl

/-- Report-loop step that writes nothing. -/
theorem reportLoop_cons_none (s : MState) (m : List (String × ℚ))
    (k : String) (ks : List String)
    (h : reportEmit s k = .ok none) :
    reportLoop s m (k :: ks) = reportLoop s m ks := by
  rw [reportLoop, h]; rfl

/-- Report-loop step that raises. -/
theorem reportLoop_cons_error (s : MState) (m : List (String × ℚ))
    (k : String) (ks : List String) (e : PyErr)
    (h : reportEmit s k = .error e) :
    reportLoop s m (k :: ks) = .error e := by
  rw [reportLoop, h]; rfl

/-- `rsplit('-', 1)[0]` on the built-in scalar keys. -/
@[simp] theorem rsb_mean_rank : rsplitBase "mean_rank" = "mean_rank" := rfl

/-- `rsplitBase "loss"`. -/
@[simp] theorem rsb_loss : rsplitBase "loss" = "loss" := rfl

/-- `rsplitBase "correct"`. -/
@[simp] theorem rsb_correct : rsplitBase "correct" = "correct" := rfl

/-- `rsplitBase "f1"`. -/
@[simp] theorem rsb_f1 : rsplitBase "f1" = "f1" := rfl

/-- `rsplitBase "ppl"`. -/
@[simp] theorem rsb_ppl : rsplitBase "ppl" = "ppl" := rfl

/-- `rsplitBase` on the BLEU keys. -/
@[simp] theorem rsb_bleu1 : rsplitBase "bleu-1" = "bleu" := rfl

/-- `rsplitBase "bleu-2"`. -/
@[simp] theorem rsb_bleu2 : rsplitBase "bleu-2" = "bleu" := rfl

/-- `rsplitBase "bleu-3"`. -/
@[simp] theorem rsb_bleu3 : rsplitBase "bleu-3" = "bleu" := rfl

/-- `rsplitBase "bleu-4"`. -/
@[simp] theorem rsb_bleu4 : rsplitBase "bleu-4" = "bleu" := rfl

/-- `rsplitBase` on the ROUGE keys. -/
@[simp] theorem rsb_rouge1 : rsplitBase "rouge-1" = "rouge" := rfl

/-- `rsplitBase "rouge-2"`. -/
@[simp] theorem rsb_rouge2 : rsplitBase "rouge-2" = "rouge" := rfl

/-- `rsplitBase "rouge-l"`. -/
@[simp] theorem rsb_rougel : rsplitBase "rouge-l" = "rouge" := rfl

/-- `rsplitBase` on the intra-distinct keys. -/
@[simp] theorem rsb_intra1 : rsplitBase "intra-distinct-1" = "intra-distinct" := rfl

/-- `rsplitBase "intra-distinct-2"`. -/
@[simp] theorem rsb_intra2 : rsplitBase "intra-distinct-2" = "intra-distinct" := rfl

/-- `rsplitBase "intra-distinct-3"`. -/
@[simp] theorem rsb_intra3 : rsplitBase "intra-distinct-3" = "intra-distinct" := rfl

/-- `rsplitBase "intra-distinct-4"`. -/
@[simp] theorem rsb_intra4 : rsplitBase "intra-distinct-4" = "intra-distinct" := rfl

/-- `rsplitBase "a-b"`. -/
@[simp] theorem rsb_ab : rsplitBase "a-b" = "a" := rfl

/-- `startswith _ "inter-distinct"` on the built-in keys. -/
@[simp] theorem sw_mean_rank : startswith "mean_rank" "inter-distinct" = false := rfl

/-- `loss` is not an inter-distinct key. -/
@[simp] theorem sw_loss : startswith "loss" "inter-distinct" = false := rfl

/-- `correct` is not an inter-distinct key. -/
@[simp] theorem sw_correct : startswith "correct" "inter-distinct" = false := rfl

/-- `f1` is not an inter-distinct key. -/
@[simp] theorem sw_f1 : startswith "f1" "inter-distinct" = false := rfl

/-- `ppl` is not an inter-distinct key. -/
@[simp] theorem sw_ppl : startswith "ppl" "inter-distinct" = false := rfl

/-- `bleu-1` is not an inter-distinct key. -/
@[simp] theorem sw_bleu1 : startswith "bleu-1" "inter-distinct" = false := rfl

/-- `bleu-2` is not an inter-distinct key. -/
@[simp] theorem sw_bleu2 : startswith "bleu-2" "inter-distinct" = false := rfl

/-- `bleu-3` is not an inter-distinct key. -/
@[simp] theorem sw_bleu3 : startswith "bleu-3" "inter-distinct" = false := rfl

/-- `bleu-4` is not an inter-distinct key. -/
@[simp] theorem sw_bleu4 : startswith "bleu-4" "inter-distinct" = false := rfl

/-- `rouge-1` is not an inter-distinct key. -/
@[simp] theorem sw_rouge1 : startswith "rouge-1" "inter-distinct" = false := rfl

/-- `rouge-2` is not an inter-distinct key. -/
@[simp] theorem sw_rouge2 : startswith "rouge-2" "inter-distinct" = false := rfl

/-- `rouge-l` is not an inter-distinct key. -/
@[simp] theorem sw_rougel : startswith "rouge-l" "inter-distinct" = false := rfl

/-- `intra-distinct-1` is not an inter-distinct key. -/
@[simp] theorem sw_intra1 : startswith "intra-distinct-1" "inter-distinct" = false := rfl

/-- `intra-distinct-2` is not an inter-distinct key. -/
@[simp] theorem sw_intra2 : startswith "intra-distinct-2" "inter-distinct" = false := rfl

/-- `intra-distinct-3` is not an inter-distinct key. -/
@[simp] theorem sw_intra3 : startswith "intra-distinct-3" "inter-distinct" = false := rfl

/-- `intra-distinct-4` is not an inter-distinct key. -/
@[simp] theorem sw_intra4 : startswith "intra-distinct-4" "inter-distinct" = false := rfl

/-- `inter-distinct-1` is an inter-distinct key. -/
@[simp] theorem sw_inter1 : startswith "inter-distinct-1" "inter-distinct" = true := rfl

/-- `inter-distinct-2` is an inter-distinct key. -/
@[simp] theorem sw_inter2 : startswith "inter-distinct-2" "inter-distinct" = true := rfl

/-- `inter-distinct-3` is an inter-distinct key. -/
@[simp] theorem sw_inter3 : startswith "inter-distinct-3" "inter-distinct" = true := rfl

/-- `inter-distinct-4` is an inter-distinct key. -/
@[simp] theorem sw_inter4 : startswith "inter-distinct-4" "inter-distinct" = true := rfl

/-- `a-b` is not an inter-distinct key. -/
@[simp] theorem sw_ab : startswith "a-b" "inter-distinct" = false := rfl

/-- `update` on an observation carrying only a custom-metrics dictionary. -/
theorem update_only_metrics (cfg : Cfg) (ext : Ext) (s : MState)
    (entries : List (String × ℚ)) (a : ℚ)
    (hcnt : dlook s.md "cnt" = some (.scalar a)) :
    update cfg ext s ⟨none, none, some entries⟩ none =
      (entries.foldlM userMetricOne
        { s with md := dset s.md "cnt" (.scalar (a + 1)) }).map
        (fun s' => (s', 0)) := by
  have e1 := addScalar_sc _ _ _ 1 hcnt
  simp only [update, updCntBlock, update_ranking_metrics, updUserBlock, e1,
    pure_ok, bind_ok]
  cases List.foldlM userMetricOne
      { s with md := dset s.md "cnt" (.scalar (a + 1)) } entries with
  | ok s' => rfl
  | error e => rfl

/-- Fresh registration of a custom key on a non-shared accumulator. -/
theorem userMetricOne_register (s : MState) (k : String) (v : ℚ)
    (hres : k ∉ reservedKeys) (hml : k ∉ s.metrics_list)
    (hd : dlook s.md k = none) (hsh : s.shared = false) :
    userMetricOne s (k, v) = .ok { s with
      md := (dset (dset s.md k (.scalar v)) (k ++ "_cnt") (.scalar 1)),
      metrics_list := s.metrics_list ++ [k] } := by
  simp only [userMetricOne, if_neg hres, if_neg hml, hsh, hd]
  simp

/-- `report` on a state with both flags unset: only `exs`, then the
`metrics_list` loop. -/
theorem report_no_flags (s : MState) (t : ℚ) (ht : getScalar s.md "cnt" = .ok t)
    (hpos : 0 < t) (hppm : s.ppm = false) (hhtc : s.htc = false) :
    report s = reportLoop s [("exs", t)] s.metrics_list := by
  simp only [report, ht, bind_ok]
  rw [if_pos hpos, hppm, hhtc]
  simp [qset]

/-- The state obtained from a fresh non-shared accumulator by one `update`
whose observation carries the single custom metric `("a-b", 2)`. -/
def sC5reg : MState :=
  { md := [("cnt", MVal.scalar 1), ("mean_rank", MVal.scalar 0),
      ("mean_rank_cnt", MVal.scalar 0), ("loss", MVal.scalar 0),
      ("loss_cnt", MVal.scalar 0), ("correct", MVal.scalar 0),
      ("correct_cnt", MVal.scalar 0), ("f1", MVal.scalar 0),
      ("f1_cnt", MVal.scalar 0), ("ppl", MVal.scalar 0),
      ("ppl_cnt", MVal.scalar 0), ("intra-distinct-1", MVal.scalar 0),
      ("inter-distinct-1", MVal.table []),
      ("intra-distinct-2", MVal.scalar 0), ("inter-distinct-2", MVal.table []),
      ("intra-distinct-3", MVal.scalar 0), ("inter-distinct-3", MVal.table []),
      ("intra-distinct-4", MVal.scalar 0), ("inter-distinct-4", MVal.table []),
      ("bleu_cnt", MVal.scalar 0), ("rouge_cnt", MVal.scalar 0),
      ("intra-distinct_cnt", MVal.scalar 0), ("hits@1", MVal.scalar 0),
      ("hits@5", MVal.scalar 0), ("hits@10", MVal.scalar 0),
      ("hits@100", MVal.scalar 0), ("hits@_cnt", MVal.scalar 0),
      ("a-b", MVal.scalar 2), ("a-b_cnt", MVal.scalar 1)],
    metrics_list := ["mean_rank", "loss", "correct", "f1", "ppl",
      "intra-distinct-1", "inter-distinct-1", "intra-distinct-2",
      "inter-distinct-2", "intra-distinct-3", "inter-distinct-3",
      "intra-distinct-4", "inter-distinct-4", "a-b"],
    ppm := false, htc := false, shared := false }

/-- C5 (counterexample): registering the custom key `"a-b"` (value, counter
and `metrics_list` entry are all created) makes every later `report()`
raise `KeyError`, because the report loop pairs `"a-b"` with the
nonexistent counter key `"a_cnt"` (`rsplit('-', 1)`); the key is therefore
not first-class for subsequent reports as claimed. -/
theorem C5_counterexample :
    update ⟨false, false⟩ extZero (metricsInit ⟨false, false⟩ false)
      ⟨none, none, some [("a-b", 2)]⟩ none = .ok (sC5reg, 0) ∧
    dlook sC5reg.md "a-b" = some (.scalar 2) ∧
    "a-b" ∈ sC5reg.metrics_list ∧
    report sC5reg = .error .keyError := by
  refine ⟨?_, by simp [dlook, sC5reg], by simp [sC5reg], ?_⟩
  · have hcnt : dlook (metricsInit ⟨false, false⟩ false).md "cnt" =
        some (.scalar 0) := by
      simp [metricsInit, initMd, initList, isCrs, crsMetrics, startswith,
        startsWL, eval_pr, dset, dlook]
    rw [update_only_metrics _ _ _ _ 0 hcnt]
    rw [List.foldlM_cons]
    rw [userMetricOne_register _ _ _ (by decide) ?hml ?hd rfl]
    case hml =>
      simp [metricsInit, initList]
    case hd =>
      simp [metricsInit, initMd, initList, isCrs, crsMetrics, startswith,
        startsWL, eval_pr, dset, dlook]
    rw [bind_ok, List.foldlM_nil]
    simp only [pure_ok, emap_ok]
    simp [metricsInit, initMd, initList, isCrs, crsMetrics, startswith,
      startsWL, eval_pr, dset, sC5reg]
  · rw [report_no_flags sC5reg 1 (by simp [getScalar, dlook, sC5reg])
      (by norm_num) rfl rfl]
    have hml : sC5reg.metrics_list = ["mean_rank", "loss", "correct", "f1",
        "ppl", "intra-distinct-1", "inter-distinct-1", "intra-distinct-2",
        "inter-distinct-2", "intra-distinct-3", "inter-distinct-3",
        "intra-distinct-4", "inter-distinct-4", "a-b"] := rfl
    rw [hml]
    rw [reportLoop_cons_none _ _ _ _ (by simp [reportEmit, getScalar, dlook, sC5reg])]
    rw [reportLoop_cons_none _ _ _ _ (by simp [reportEmit, getScalar, dlook, sC5reg])]
    rw [reportLoop_cons_none _ _ _ _ (by simp [reportEmit, getScalar, dlook, sC5reg])]
    rw [reportLoop_cons_none _ _ _ _ (by simp [reportEmit, getScalar, dlook, sC5reg])]
    rw [reportLoop_cons_none _ _ _ _ (by simp [reportEmit, getScalar, dlook, sC5reg])]
    rw [reportLoop_cons_none _ _ _ _ (by simp [reportEmit, getScalar, dlook, sC5reg])]
    rw [reportLoop_cons_none _ _ _ _ (by simp [reportEmit, getScalar, dlook, sC5reg, List.dedup])]
    rw [reportLoop_cons_none _ _ _ _ (by simp [reportEmit, getScalar, dlook, sC5reg])]
    rw [reportLoop_cons_none _ _ _ _ (by simp [reportEmit, getScalar, dlook, sC5reg, List.dedup])]
    rw [reportLoop_cons_none _ _ _ _ (by simp [reportEmit, getScalar, dlook, sC5reg])]
    rw [reportLoop_cons_none _ _ _ _ (by simp [reportEmit, getScalar, dlook, sC5reg, List.dedup])]
    rw [reportLoop_cons_none _ _ _ _ (by simp [reportEmit, getScalar, dlook, sC5reg])]
    rw [reportLoop_cons_none _ _ _ _ (by simp [reportEmit, getScalar, dlook, sC5reg, List.dedup])]
    rw [reportLoop_cons_error _ _ _ _ PyErr.keyError
      (by simp [reportEmit, getScalar, dlook, sC5reg])]

/-- C5 (witness): on a fresh non-shared accumulator the key `"foo"` is
registered with value `3` and counter `1`; on a shared accumulator the
same observation only advances `cnt` and leaves no trace of `"foo"`. -/
theorem C5_witness :
    update ⟨false, false⟩ extZero (metricsInit ⟨false, false⟩ false)
      ⟨none, none, some [("foo", 3)]⟩ none =
      .ok ({ metricsInit ⟨false, false⟩ false with
        md := dset (dset (dset (metricsInit ⟨false, false⟩ false).md "cnt"
          (.scalar (0 + 1))) "foo" (.scalar 3)) ("foo" ++ "_cnt") (.scalar 1),
        metrics_list := (metricsInit ⟨false, false⟩ false).metrics_list
          ++ ["foo"] }, 0) ∧
    update ⟨false, false⟩ extZero (metricsInit ⟨false, false⟩ true)
      ⟨none, none, some [("foo", 3)]⟩ none =
      .ok ({ metricsInit ⟨false, false⟩ true with
        md := dset (metricsInit ⟨false, false⟩ true).md "cnt"
          (.scalar (0 + 1)) }, 0) := by
  constructor
  · exact (C5_amended ⟨false, false⟩ extZero (metricsInit ⟨false, false⟩ false)
      "foo" 3 0 (by decide) (by simp [metricsInit, initList])
      (by simp [metricsInit, initMd, initList, isCrs, crsMetrics, startswith,
        startsWL, eval_pr, dset, dlook])
      (by decide)
      (by simp [metricsInit, initMd, initList, isCrs, crsMetrics, startswith,
        startsWL, eval_pr, dset, dlook])).1 rfl
  · exact (C5_amended ⟨false, false⟩ extZero (metricsInit ⟨false, false⟩ true)
      "foo" 3 0 (by decide) (by simp [metricsInit, initList])
      (by simp [metricsInit, initMd, initList, isCrs, crsMetrics, startswith,
        startsWL, eval_pr, dset, dlook])
      (by decide)
      (by simp [metricsInit, initMd, initList, isCrs, crsMetrics, startswith,
        startsWL, eval_pr, dset, dlook])).2.1 rfl

/-! ## Well-formedness of accumulator states -/

/-- Success inversion for bind in the exception monad. -/
theorem bind_eq_ok {α β : Type} {a : Except PyErr α} {f : α → Except PyErr β}
    {b : β} : (a >>= f) = .ok b ↔ ∃ x, a = .ok x ∧ f x = .ok b := by
  cases a with
  | ok x => simp
  | error e => simp [Bind.bind, Except.bind]

/-- Success inversion for `addScalar`. -/
theorem addScalar_ok {d : List (String × MVal)} {k : String} {v : ℚ}
    {d' : List (String × MVal)} (h : addScalar d k v = .ok d') :
    ∃ q, dlook d k = some (.scalar q) ∧ d' = dset d k (.scalar (q + v)) := by
  rw [addScalar] at h
  cases hd : dlook d k with
  | none => rw [hd] at h; cases h
  | some val =>
      cases val with
      | scalar q => rw [hd] at h; exact ⟨q, rfl, (Except.ok.injEq _ _ ▸ h).symm⟩
      | table t => rw [hd] at h; cases h

/-- Success inversion for `addTable`. -/
theorem addTable_ok {d : List (String × MVal)} {k : String}
    {c : List (List String)} {d' : List (String × MVal)}
    (h : addTable d k c = .ok d') :
    ∃ t, dlook d k = some (.table t) ∧ d' = dset d k (.table (t ++ c)) := by
  rw [addTable] at h
  cases hd : dlook d k with
  | none => rw [hd] at h; cases h
  | some val =>
      cases val with
      | scalar q => rw [hd] at h; cases h
      | table t => rw [hd] at h; exact ⟨t, rfl, (Except.ok.injEq _ _ ▸ h).symm⟩

/-- Success inversion for `addOpt`. -/
theorem addOpt_ok {d : List (String × MVal)} {k : String} {o : Option ℚ}
    {d' : List (String × MVal)} (h : addOpt d k o = .ok d') :
    ∃ v q, o = some v ∧ dlook d k = some (.scalar q) ∧
      d' = dset d k (.scalar (q + v)) := by
  cases o with
  | none => cases h
  | some v =>
      obtain ⟨q, hq, hd⟩ := addScalar_ok h
      exact ⟨v, q, rfl, hq, hd⟩

/-- Dictionary extension: every present key stays present. -/
def dext (d d' : List (String × MVal)) : Prop :=
  ∀ k, (dlook d k).isSome → (dlook d' k).isSome

/-- `dext` is reflexive. -/
theorem dext_refl (d : List (String × MVal)) : dext d d := fun _ h => h

/-- `dext` is transitive. -/
theorem dext_trans {d d' d'' : List (String × MVal)}
    (h : dext d d') (h' : dext d' d'') : dext d d'' := fun k hk => h' k (h k hk)

/-- Assignment extends the dictionary. -/
theorem dext_dset (d : List (String × MVal)) (k : String) (v : MVal) :
    dext d (dset d k v) := by
  intro k' h
  by_cases hk : k' = k
  · subst hk; simp
  · rw [dlook_dset_ne _ _ _ _ hk]; exact h

/-- A successful `addScalar` extends the dictionary. -/
theorem addScalar_dext {d : List (String × MVal)} {k : String} {v : ℚ}
    {d' : List (String × MVal)} (h : addScalar d k v = .ok d') : dext d d' := by
  obtain ⟨q, _, rfl⟩ := addScalar_ok h
  exact dext_dset _ _ _

/-- A successful `addTable` extends the dictionary. -/
theorem addTable_dext {d : List (String × MVal)} {k : String}
    {c : List (List String)} {d' : List (String × MVal)}
    (h : addTable d k c = .ok d') : dext d d' := by
  obtain ⟨t, _, rfl⟩ := addTable_ok h
  exact dext_dset _ _ _

/-- A successful `addOpt` extends the dictionary. -/
theorem addOpt_dext {d : List (String × MVal)} {k : String} {o : Option ℚ}
    {d' : List (String × MVal)} (h : addOpt d k o = .ok d') : dext d d' := by
  obtain ⟨v, q, _, _, rfl⟩ := addOpt_ok h
  exact dext_dset _ _ _

/-- A monadic fold of dictionary-extending steps extends the dictionary. -/
theorem foldlM_dext {β : Type}
    {f : List (String × MVal) → β → Except PyErr (List (String × MVal))}
    (hf : ∀ d x d', f d x = .ok d' → dext d d') :
    ∀ (l : List β) (d d' : List (String × MVal)),
      l.foldlM f d = .ok d' → dext d d'
  | [], d, d', h => by
      rw [List.foldlM_nil] at h
      cases h
      exact dext_refl d
  | x :: xs, d, d', h => by
      rw [List.foldlM_cons] at h
      obtain ⟨d₁, h₁, h₂⟩ := bind_eq_ok.mp h
      exact dext_trans (hf d x d₁ h₁) (foldlM_dext hf xs d₁ d' h₂)

/-- Well-formedness of an accumulator state: every listed key is present in
the dictionary, the example counter is present, and the example counter is
not itself a listed key. -/
def WF (s : MState) : Prop :=
  (∀ k ∈ s.metrics_list, (dlook s.md k).isSome) ∧
  (dlook s.md "cnt").isSome ∧ "cnt" ∉ s.metrics_list

/-- No key equals itself with `"_cnt"` appended. -/
theorem ne_append_cnt (k : String) : k ≠ k ++ "_cnt" := by
  intro h
  have h2 := congrArg String.length h
  rw [String.length_append] at h2
  have h4 : "_cnt".length = 4 := rfl
  omega

/-- Appending `"_cnt"` never reproduces a key of length three. -/
theorem append_cnt_ne_cnt (k : String) : k ++ "_cnt" ≠ "cnt" := by
  intro h
  have h2 := congrArg String.length h
  rw [String.length_append] at h2
  have h4 : "_cnt".length = 4 := rfl
  have h3 : "cnt".length = 3 := rfl
  omega

/-- A state whose dictionary extends, with the same key list, stays
well-formed. -/
theorem WF_of_dext {s s' : MState} (hwf : WF s) (hd : dext s.md s'.md)
    (hl : s'.metrics_list = s.metrics_list) : WF s' := by
  obtain ⟨h1, h2, h3⟩ := hwf
  exact ⟨fun k hk => hd k (h1 k (hl ▸ hk)), hd _ h2, fun hk => h3 (hl ▸ hk)⟩

/-- `updCntBlock` succeeds only by bumping `cnt`. -/
theorem updCntBlock_ok {s s' : MState} (h : updCntBlock s = .ok s') :
    ∃ a, dlook s.md "cnt" = some (.scalar a) ∧
      s' = { s with md := dset s.md "cnt" (.scalar (a + 1)) } := by
  rw [updCntBlock] at h
  obtain ⟨d₁, h₁, h₂⟩ := bind_eq_ok.mp h
  obtain ⟨q, hq, rfl⟩ := addScalar_ok h₁
  cases h₂
  exact ⟨q, hq, rfl⟩

/-- The exact-match lock region extends the dictionary and keeps the key
list. -/
theorem updExactBlock_shape {s : MState} {c : ℚ} {s' : MState}
    (h : updExactBlock s c = .ok s') :
    dext s.md s'.md ∧ s'.metrics_list = s.metrics_list := by
  rw [updExactBlock] at h
  obtain ⟨d₁, h₁, h₂⟩ := bind_eq_ok.mp h
  obtain ⟨d₂, h₃, h₄⟩ := bind_eq_ok.mp h₂
  cases h₄
  exact ⟨dext_trans (addScalar_dext h₁) (addScalar_dext h₃), rfl⟩

/-- The BLEU part extends the dictionary. -/
theorem bleuFold_dext {cfg : Cfg} {ext : Ext} {p : String}
    {labels : Option (List String)} {md md' : List (String × MVal)}
    (h : bleuFold cfg ext p labels md = .ok md') : dext md md' := by
  rw [bleuFold] at h
  by_cases hb : cfg.bleuAvail
  · rw [if_pos hb] at h
    obtain ⟨d', hfold, hlast⟩ := bind_eq_ok.mp h
    refine dext_trans (foldlM_dext ?_ _ _ _ hfold) (addScalar_dext hlast)
    intro d x d' hx
    obtain ⟨d'', hb', h''⟩ := bind_eq_ok.mp hx
    exact addScalar_dext h''
  · rw [if_neg hb] at h
    cases h
    exact dext_refl _

/-- The ROUGE part extends the dictionary. -/
theorem rougeFold_dext {cfg : Cfg} {ext : Ext} {p : String}
    {labels : Option (List String)} {md md' : List (String × MVal)}
    (h : rougeFold cfg ext p labels md = .ok md') : dext md md' := by
  rw [rougeFold] at h
  by_cases hr : cfg.rougeAvail
  · rw [if_pos hr] at h
    obtain ⟨rs, _, h'⟩ := bind_eq_ok.mp h
    obtain ⟨da, ha, h'⟩ := bind_eq_ok.mp h'
    obtain ⟨db, hb', h'⟩ := bind_eq_ok.mp h'
    obtain ⟨dc, hc, h'⟩ := bind_eq_ok.mp h'
    exact dext_trans (addOpt_dext ha) (dext_trans (addOpt_dext hb')
      (dext_trans (addOpt_dext hc) (addScalar_dext h')))
  · rw [if_neg hr] at h
    cases h
    exact dext_refl _

/-- The distinct-n part extends the dictionary. -/
theorem distinctFold_dext {p : String} {md md' : List (String × MVal)}
    (h : distinctFold p md = .ok md') : dext md md' := by
  rw [distinctFold] at h
  obtain ⟨d₅, h₅, h₆⟩ := bind_eq_ok.mp h
  refine dext_trans (foldlM_dext ?_ _ _ _ h₅) (addScalar_dext h₆)
  intro d x d' hx
  obtain ⟨d'', ha, hb'⟩ := bind_eq_ok.mp hx
  exact dext_trans (addScalar_dext ha) (addTable_dext hb')

/-- The scoring lock region extends the dictionary and keeps the key
list. -/
theorem updScoreBlock_shape {cfg : Cfg} {ext : Ext} {s : MState}
    {p : String} {labels : Option (List String)} {f1 : ℚ} {s' : MState}
    (h : updScoreBlock cfg ext s p labels f1 = .ok s') :
    dext s.md s'.md ∧ s'.metrics_list = s.metrics_list := by
  rw [updScoreBlock] at h
  obtain ⟨d₁, h₁, h'⟩ := bind_eq_ok.mp h
  obtain ⟨d₂, h₂, h'⟩ := bind_eq_ok.mp h'
  obtain ⟨d₃, h₃, h'⟩ := bind_eq_ok.mp h'
  obtain ⟨d₄, h₄, h'⟩ := bind_eq_ok.mp h'
  obtain ⟨d₅, h₅, h'⟩ := bind_eq_ok.mp h'
  cases h'
  exact ⟨dext_trans (addScalar_dext h₁) (dext_trans (addScalar_dext h₂)
    (dext_trans (bleuFold_dext h₃) (dext_trans (rougeFold_dext h₄)
      (distinctFold_dext h₅)))), rfl⟩

/-- The ranking fold extends the dictionary and keeps the key list. -/
theorem updRanking_shape {s : MState} {obs : Obs}
    {labels : Option (List String)} {s' : MState}
    (h : update_ranking_metrics s obs labels = .ok s') :
    dext s.md s'.md ∧ s'.metrics_list = s.metrics_list := by
  rw [update_ranking_metrics] at h
  cases hc : obs.text_candidates with
  | none => rw [hc] at h; cases h; exact ⟨dext_refl _, rfl⟩
  | some cands =>
      rw [hc] at h
      cases hl : labels with
      | none => rw [hl] at h; cases h
      | some ls =>
          rw [hl] at h
          obtain ⟨d₁, h₁, h'⟩ := bind_eq_ok.mp h
          obtain ⟨d₂, h₂, h'⟩ := bind_eq_ok.mp h'
          cases h'
          refine ⟨dext_trans (foldlM_dext ?_ _ _ _ h₁) (addScalar_dext h₂), rfl⟩
          intro d x d' hx
          by_cases hcnt : 0 < hitCnt cands ls x
          · rw [if_pos hcnt] at hx
            exact addScalar_dext hx
          · rw [if_neg hcnt] at hx
            cases hx
            exact dext_refl _

/-- One user-metric entry preserves well-formedness. -/
theorem userMetricOne_wf {s : MState} {kv : String × ℚ} {s' : MState}
    (h : userMetricOne s kv = .ok s') (hwf : WF s) : WF s' := by
  obtain ⟨k, v⟩ := kv
  rw [userMetricOne] at h
  by_cases hres : k ∈ reservedKeys
  · rw [if_pos hres] at h; cases h; exact hwf
  · rw [if_neg hres] at h
    by_cases hml : k ∈ s.metrics_list
    · rw [if_pos hml] at h
      obtain ⟨d₁, h₁, h'⟩ := bind_eq_ok.mp h
      obtain ⟨d₂, h₂, h'⟩ := bind_eq_ok.mp h'
      cases h'
      exact WF_of_dext hwf
        (dext_trans (addScalar_dext h₁) (addScalar_dext h₂)) rfl
    · rw [if_neg hml] at h
      by_cases hsh : s.shared = true
      · rw [if_pos hsh] at h; cases h; exact hwf
      · rw [if_neg hsh] at h
        cases hd : dlook s.md k with
        | some val =>
            rw [hd] at h
            obtain ⟨d₁, h₁, h'⟩ := bind_eq_ok.mp h
            cases h'
            exact WF_of_dext hwf (addScalar_dext h₁) rfl
        | none =>
            rw [hd] at h
            cases h
            obtain ⟨h1, h2, h3⟩ := hwf
            have hkcnt : k ≠ "cnt" := by
              intro hk
              rw [hk] at hd
              rw [hd] at h2
              cases h2
            refine ⟨?_, ?_, ?_⟩
            · intro k' hk'
              rcases List.mem_append.mp hk' with hk' | hk'
              · exact dext_trans (dext_dset _ _ _) (dext_dset _ _ _) k' (h1 k' hk')
              · have : k' = k := by simpa using hk'
                subst this
                rw [dlook_dset_ne _ _ _ _ (ne_append_cnt k')]
                simp
            · exact dext_trans (dext_dset _ _ _) (dext_dset _ _ _) _ h2
            · intro hk
              rcases List.mem_append.mp hk with hk | hk
              · exact h3 hk
              · have hck : "cnt" = k := by simpa using hk
                exact hkcnt hck.symm

/-! ## Frame lemmas: keys untouched by each lock region -/

/-- `addScalar` changes no other key. -/
theorem addScalar_frame {d d' : List (String × MVal)} {k : String} {v : ℚ}
    (h : addScalar d k v = .ok d') (k' : String) (hk : k' ≠ k) :
    dlook d' k' = dlook d k' := by
  obtain ⟨q, _, rfl⟩ := addScalar_ok h
  exact dlook_dset_ne _ _ _ _ hk

/-- `addTable` changes no other key. -/
theorem addTable_frame {d d' : List (String × MVal)} {k : String}
    {c : List (List String)} (h : addTable d k c = .ok d') (k' : String)
    (hk : k' ≠ k) : dlook d' k' = dlook d k' := by
  obtain ⟨t, _, rfl⟩ := addTable_ok h
  exact dlook_dset_ne _ _ _ _ hk

/-- `addOpt` changes no other key. -/
theorem addOpt_frame {d d' : List (String × MVal)} {k : String} {o : Option ℚ}
    (h : addOpt d k o = .ok d') (k' : String) (hk : k' ≠ k) :
    dlook d' k' = dlook d k' := by
  obtain ⟨v, q, _, _, rfl⟩ := addOpt_ok h
  exact dlook_dset_ne _ _ _ _ hk

/-- A monadic fold whose steps leave key `k'` unchanged leaves it
unchanged. -/
theorem foldlM_frame {β : Type} (k' : String)
    (f : List (String × MVal) → β → Except PyErr (List (String × MVal))) :
    ∀ (l : List β) (d d' : List (String × MVal)),
      (∀ d₀ x d₁, x ∈ l → f d₀ x = .ok d₁ → dlook d₁ k' = dlook d₀ k') →
      l.foldlM f d = .ok d' → dlook d' k' = dlook d k'
  | [], d, d', _, h => by
      rw [List.foldlM_nil] at h
      cases h
      rfl
  | x :: xs, d, d', hf, h => by
      rw [List.foldlM_cons] at h
      obtain ⟨d₁, h₁, h₂⟩ := bind_eq_ok.mp h
      rw [foldlM_frame k' f xs d₁ d'
        (fun d₀ y d₂ hy => hf d₀ y d₂ (List.mem_cons_of_mem _ hy)) h₂]
      exact hf d x d₁ (List.mem_cons_self x xs) h₁

/-- The keys the scoring lock region may modify. -/
def scoreKeys : List String :=
  ["f1", "f1_cnt", "bleu-1", "bleu-2", "bleu-3", "bleu-4", "bleu_cnt",
   "rouge-1", "rouge-2", "rouge-l", "rouge_cnt",
   "intra-distinct-1", "intra-distinct-2", "intra-distinct-3",
   "intra-distinct-4", "inter-distinct-1", "inter-distinct-2",
   "inter-distinct-3", "inter-distinct-4", "intra-distinct_cnt"]

/-- The keys the ranking lock region may modify. -/
def rankKeys : List String :=
  ["hits@1", "hits@5", "hits@10", "hits@100", "hits@_cnt"]

/-- The counter lock region touches only `cnt`. -/
theorem updCntBlock_frame {s s' : MState} (h : updCntBlock s = .ok s')
    (k' : String) (hk : k' ≠ "cnt") : dlook s'.md k' = dlook s.md k' := by
  obtain ⟨a, _, rfl⟩ := updCntBlock_ok h
  exact dlook_dset_ne _ _ _ _ hk

/-- The exact-match lock region touches only `correct` and `correct_cnt`. -/
theorem updExactBlock_frame {s : MState} {c : ℚ} {s' : MState}
    (h : updExactBlock s c = .ok s') (k' : String)
    (h1 : k' ≠ "correct") (h2 : k' ≠ "correct_cnt") :
    dlook s'.md k' = dlook s.md k' := by
  rw [updExactBlock] at h
  obtain ⟨d₁, ha, h⟩ := bind_eq_ok.mp h
  obtain ⟨d₂, hb, h⟩ := bind_eq_ok.mp h
  cases h
  show dlook d₂ k' = dlook s.md k'
  rw [addScalar_frame hb k' h2, addScalar_frame ha k' h1]

/-- The BLEU part touches only scoring keys. -/
theorem bleuFold_frame {cfg : Cfg} {ext : Ext} {p : String}
    {labels : Option (List String)} {md md' : List (String × MVal)}
    (h : bleuFold cfg ext p labels md = .ok md') (k' : String)
    (hk : ∀ x ∈ scoreKeys, k' ≠ x) : dlook md' k' = dlook md k' := by
  rw [bleuFold] at h
  by_cases hb : cfg.bleuAvail
  · rw [if_pos hb] at h
    obtain ⟨d₁, h₁, h₂⟩ := bind_eq_ok.mp h
    rw [addScalar_frame h₂ k' (hk "bleu_cnt" (by simp [scoreKeys]))]
    refine foldlM_frame k' _ _ _ _ ?_ h₁
    intro d₀ i d₂ hi hstep
    obtain ⟨b, _, hadd⟩ := bind_eq_ok.mp hstep
    fin_cases hi
    · exact addScalar_frame hadd k' (hk "bleu-1" (by simp [scoreKeys]))
    · exact addScalar_frame hadd k' (hk "bleu-2" (by simp [scoreKeys]))
    · exact addScalar_frame hadd k' (hk "bleu-3" (by simp [scoreKeys]))
    · exact addScalar_frame hadd k' (hk "bleu-4" (by simp [scoreKeys]))
  · rw [if_neg hb] at h
    cases h
    rfl

/-- The ROUGE part touches only scoring keys. -/
theorem rougeFold_frame {cfg : Cfg} {ext : Ext} {p : String}
    {labels : Option (List String)} {md md' : List (String × MVal)}
    (h : rougeFold cfg ext p labels md = .ok md') (k' : String)
    (hk : ∀ x ∈ scoreKeys, k' ≠ x) : dlook md' k' = dlook md k' := by
  rw [rougeFold] at h
  by_cases hr : cfg.rougeAvail
  · rw [if_pos hr] at h
    obtain ⟨rs, _, h⟩ := bind_eq_ok.mp h
    obtain ⟨da, ha, h⟩ := bind_eq_ok.mp h
    obtain ⟨db, hb', h⟩ := bind_eq_ok.mp h
    obtain ⟨dc, hc, h⟩ := bind_eq_ok.mp h
    rw [addScalar_frame h k' (hk "rouge_cnt" (by simp [scoreKeys])),
      addOpt_frame hc k' (hk "rouge-l" (by simp [scoreKeys])),
      addOpt_frame hb' k' (hk "rouge-2" (by simp [scoreKeys])),
      addOpt_frame ha k' (hk "rouge-1" (by simp [scoreKeys]))]
  · rw [if_neg hr] at h
    cases h
    rfl

/-- The distinct-n part touches only scoring keys. -/
theorem distinctFold_frame {p : String} {md md' : List (String × MVal)}
    (h : distinctFold p md = .ok md') (k' : String)
    (hk : ∀ x ∈ scoreKeys, k' ≠ x) : dlook md' k' = dlook md k' := by
  rw [distinctFold] at h
  obtain ⟨d₁, h₁, h₂⟩ := bind_eq_ok.mp h
  rw [addScalar_frame h₂ k' (hk "intra-distinct_cnt" (by simp [scoreKeys]))]
  refine foldlM_frame k' _ _ _ _ ?_ h₁
  intro d₀ i d₂ hi hstep
  obtain ⟨da, ha, hb'⟩ := bind_eq_ok.mp hstep
  fin_cases hi
  · rw [addTable_frame hb' k' (hk "inter-distinct-1" (by simp [scoreKeys])),
      addScalar_frame ha k' (hk "intra-distinct-1" (by simp [scoreKeys]))]
  · rw [addTable_frame hb' k' (hk "inter-distinct-2" (by simp [scoreKeys])),
      addScalar_frame ha k' (hk "intra-distinct-2" (by simp [scoreKeys]))]
  · rw [addTable_frame hb' k' (hk "inter-distinct-3" (by simp [scoreKeys])),
      addScalar_frame ha k' (hk "intra-distinct-3" (by simp [scoreKeys]))]
  · rw [addTable_frame hb' k' (hk "inter-distinct-4" (by simp [scoreKeys])),
      addScalar_frame ha k' (hk "intra-distinct-4" (by simp [scoreKeys]))]

/-- The scoring lock region touches only scoring keys. -/
theorem updScoreBlock_frame {cfg : Cfg} {ext : Ext} {s : MState} {p : String}
    {labels : Option (List String)} {f1 : ℚ} {s' : MState}
    (h : updScoreBlock cfg ext s p labels f1 = .ok s') (k' : String)
    (hk : ∀ x ∈ scoreKeys, k' ≠ x) : dlook s'.md k' = dlook s.md k' := by
  rw [updScoreBlock] at h
  obtain ⟨d₁, h₁, h⟩ := bind_eq_ok.mp h
  obtain ⟨d₂, h₂, h⟩ := bind_eq_ok.mp h
  obtain ⟨d₃, h₃, h⟩ := bind_eq_ok.mp h
  obtain ⟨d₄, h₄, h⟩ := bind_eq_ok.mp h
  obtain ⟨d₅, h₅, h⟩ := bind_eq_ok.mp h
  cases h
  show dlook d₅ k' = dlook s.md k'
  rw [distinctFold_frame h₅ k' hk, rougeFold_frame h₄ k' hk,
    bleuFold_frame h₃ k' hk,
    addScalar_frame h₂ k' (hk "f1_cnt" (by simp [scoreKeys])),
    addScalar_frame h₁ k' (hk "f1" (by simp [scoreKeys]))]

/-- The prediction part of `update` touches only the exact-match and
scoring keys. -/
theorem updPredBlock_frame {cfg : Cfg} {ext : Ext} {s : MState} {p : String}
    {labels : Option (List String)} {s' : MState} {c : ℚ}
    (h : updPredBlock cfg ext s p labels = .ok (s', c)) (k' : String)
    (h1 : k' ≠ "correct") (h2 : k' ≠ "correct_cnt")
    (hk : ∀ x ∈ scoreKeys, k' ≠ x) : dlook s'.md k' = dlook s.md k' := by
  rw [updPredBlock] at h
  obtain ⟨s₁, ha, h⟩ := bind_eq_ok.mp h
  obtain ⟨f1, hf1, h⟩ := bind_eq_ok.mp h
  obtain ⟨s₂, hb, h⟩ := bind_eq_ok.mp h
  simp only [pure_ok] at h
  cases h
  rw [updScoreBlock_frame hb k' hk, updExactBlock_frame ha k' h1 h2]

/-- The prediction part extends the dictionary and keeps the key list. -/
theorem updPredBlock_shape {cfg : Cfg} {ext : Ext} {s : MState} {p : String}
    {labels : Option (List String)} {s' : MState} {c : ℚ}
    (h : updPredBlock cfg ext s p labels = .ok (s', c)) :
    dext s.md s'.md ∧ s'.metrics_list = s.metrics_list := by
  rw [updPredBlock] at h
  obtain ⟨s₁, ha, h⟩ := bind_eq_ok.mp h
  obtain ⟨f1, hf1, h⟩ := bind_eq_ok.mp h
  obtain ⟨s₂, hb, h⟩ := bind_eq_ok.mp h
  simp only [pure_ok] at h
  cases h
  obtain ⟨e1, l1⟩ := updExactBlock_shape ha
  obtain ⟨e2, l2⟩ := updScoreBlock_shape hb
  exact ⟨dext_trans e1 e2, l2.trans l1⟩

/-- The ranking lock region touches only the `hits@` keys. -/
theorem updRanking_frame {s : MState} {obs : Obs}
    {labels : Option (List String)} {s' : MState}
    (h : update_ranking_metrics s obs labels = .ok s') (k' : String)
    (hk : ∀ x ∈ rankKeys, k' ≠ x) : dlook s'.md k' = dlook s.md k' := by
  rw [update_ranking_metrics] at h
  cases hc : obs.text_candidates with
  | none => rw [hc] at h; cases h; rfl
  | some cands =>
      rw [hc] at h
      cases hl : labels with
      | none => rw [hl] at h; cases h
      | some ls =>
          rw [hl] at h
          obtain ⟨d₁, h₁, h⟩ := bind_eq_ok.mp h
          obtain ⟨d₂, h₂, h⟩ := bind_eq_ok.mp h
          cases h
          show dlook d₂ k' = dlook s.md k'
          rw [addScalar_frame h₂ k' (hk "hits@_cnt" (by simp [rankKeys]))]
          refine foldlM_frame k' _ _ _ _ ?_ h₁
          intro d₀ i d₃ hi hstep
          split at hstep
          · refine addScalar_frame hstep k' ?_
            fin_cases hi
            · exact hk "hits@1" (by simp [rankKeys])
            · exact hk "hits@5" (by simp [rankKeys])
            · exact hk "hits@10" (by simp [rankKeys])
            · exact hk "hits@100" (by simp [rankKeys])
          · cases hstep
            rfl

/-- One user-metric entry touches only its key and that key's counter. -/
theorem userMetricOne_frame {s : MState} {kv : String × ℚ} {s' : MState}
    (h : userMetricOne s kv = .ok s') (k' : String) (h1 : k' ≠ kv.1)
    (h2 : k' ≠ kv.1 ++ "_cnt") : dlook s'.md k' = dlook s.md k' := by
  obtain ⟨k, v⟩ := kv
  rw [userMetricOne] at h
  by_cases hres : k ∈ reservedKeys
  · rw [if_pos hres] at h; cases h; rfl
  · rw [if_neg hres] at h
    by_cases hml : k ∈ s.metrics_list
    · rw [if_pos hml] at h
      obtain ⟨d₁, ha, h⟩ := bind_eq_ok.mp h
      obtain ⟨d₂, hb, h⟩ := bind_eq_ok.mp h
      cases h
      show dlook d₂ k' = dlook s.md k'
      rw [addScalar_frame hb k' h2, addScalar_frame ha k' h1]
    · rw [if_neg hml] at h
      by_cases hsh : s.shared = true
      · rw [if_pos hsh] at h; cases h; rfl
      · rw [if_neg hsh] at h
        cases hd : dlook s.md k with
        | some val =>
            rw [hd] at h
            obtain ⟨d₁, ha, h⟩ := bind_eq_ok.mp h
            cases h
            show dlook d₁ k' = dlook s.md k'
            exact addScalar_frame ha k' h1
        | none =>
            rw [hd] at h
            cases h
            show dlook (dset (dset s.md k (.scalar v)) (k ++ "_cnt")
              (.scalar 1)) k' = dlook s.md k'
            rw [dlook_dset_ne _ _ _ _ h2, dlook_dset_ne _ _ _ _ h1]

/-- The user-metrics fold preserves well-formedness. -/
theorem userFold_wf :
    ∀ (es : List (String × ℚ)) (s s' : MState),
      es.foldlM userMetricOne s = .ok s' → WF s → WF s'
  | [], s, s', h, hwf => by
      rw [List.foldlM_nil] at h
      cases h
      exact hwf
  | kv :: es, s, s', h, hwf => by
      rw [List.foldlM_cons] at h
      obtain ⟨s₁, h₁, h₂⟩ := bind_eq_ok.mp h
      exact userFold_wf es s₁ s' h₂ (userMetricOne_wf h₁ hwf)

/-- The user-metrics fold touches only the supplied keys and their
counters. -/
theorem userFold_frame :
    ∀ (es : List (String × ℚ)) (s s' : MState),
      es.foldlM userMetricOne s = .ok s' →
      ∀ k', (∀ kv ∈ es, k' ≠ kv.1 ∧ k' ≠ kv.1 ++ "_cnt") →
      dlook s'.md k' = dlook s.md k'
  | [], s, s', h, k', _ => by
      rw [List.foldlM_nil] at h
      cases h
      rfl
  | kv :: es, s, s', h, k', hav => by
      rw [List.foldlM_cons] at h
      obtain ⟨s₁, h₁, h₂⟩ := bind_eq_ok.mp h
      rw [userFold_frame es s₁ s' h₂ k'
        (fun kv' hkv' => hav kv' (List.mem_cons_of_mem _ hkv'))]
      obtain ⟨ha, hb⟩ := hav kv (List.mem_cons_self kv es)
      exact userMetricOne_frame h₁ k' ha hb

/-- `updUserBlock` preserves well-formedness. -/
theorem updUserBlock_wf {s : MState} {obs : Obs} {s' : MState}
    (h : updUserBlock s obs = .ok s') (hwf : WF s) : WF s' := by
  rw [updUserBlock] at h
  cases hm : obs.metrics with
  | none => rw [hm] at h; cases h; exact hwf
  | some es => rw [hm] at h; exact userFold_wf es s s' h hwf

/-- `updUserBlock` touches only the supplied custom keys and their
counters. -/
theorem updUserBlock_frame {s : MState} {obs : Obs} {s' : MState}
    (h : updUserBlock s obs = .ok s') (k' : String)
    (hav : ∀ es, obs.metrics = some es →
      ∀ kv ∈ es, k' ≠ kv.1 ∧ k' ≠ kv.1 ++ "_cnt") :
    dlook s'.md k' = dlook s.md k' := by
  rw [updUserBlock] at h
  cases hm : obs.metrics with
  | none => rw [hm] at h; cases h; rfl
  | some es => rw [hm] at h; exact userFold_frame es s s' h k' (hav es hm)

/-- `update` preserves well-formedness. -/
theorem update_wf {cfg : Cfg} {ext : Ext} {s : MState} {obs : Obs}
    {ls : Option (List String)} {s' : MState} {r : ℚ}
    (h : update cfg ext s obs ls = .ok (s', r)) (hwf : WF s) : WF s' := by
  rw [update] at h
  obtain ⟨s₁, h₁, h⟩ := bind_eq_ok.mp h
  have hwf₁ : WF s₁ := by
    obtain ⟨a, _, rfl⟩ := updCntBlock_ok h₁
    exact WF_of_dext hwf (dext_dset _ _ _) rfl
  obtain ⟨⟨s₂, c⟩, h₂, h⟩ := bind_eq_ok.mp h
  have hwf₂ : WF s₂ := by
    cases ht : obs.text with
    | none =>
        rw [ht] at h₂
        simp only [pure_ok] at h₂
        cases h₂
        exact hwf₁
    | some p =>
        rw [ht] at h₂
        obtain ⟨hd, hl⟩ := updPredBlock_shape h₂
        exact WF_of_dext hwf₁ hd hl
  obtain ⟨s₃, h₃, h⟩ := bind_eq_ok.mp h
  have hwf₃ : WF s₃ := by
    obtain ⟨hd, hl⟩ := updRanking_shape h₃
    exact WF_of_dext hwf₂ hd hl
  obtain ⟨s₄, h₄, h⟩ := bind_eq_ok.mp h
  simp only [pure_ok] at h
  cases h
  exact updUserBlock_wf h₄ hwf₃

/-- A freshly constructed accumulator is well-formed. -/
theorem WF_metricsInit (cfg : Cfg) (sh : Bool) : WF (metricsInit cfg sh) := by
  obtain ⟨b, r⟩ := cfg
  refine ⟨?_, ?_, ?_⟩
  · show ∀ k ∈ initList ⟨b, r⟩, (dlook (initMd ⟨b, r⟩) k).isSome = true
    cases b <;> cases r <;> decide
  · show (dlook (initMd ⟨b, r⟩) "cnt").isSome = true
    cases b <;> cases r <;> decide
  · show "cnt" ∉ initList ⟨b, r⟩
    cases b <;> cases r <;> decide

/-- Well-formedness is preserved along any successful `update` sequence. -/
theorem runUpdates_wf (cfg : Cfg) (ext : Ext) :
    ∀ (ups : List (Obs × Option (List String))) (s s' : MState),
      runUpdates cfg ext s ups = .ok s' → WF s → WF s'
  | [], s, s', h, hwf => by
      rw [runUpdates] at h
      cases h
      exact hwf
  | (obs, ls) :: ups, s, s', h, hwf => by
      rw [runUpdates] at h
      obtain ⟨⟨s₁, r⟩, h₁, h₂⟩ := bind_eq_ok.mp h
      exact runUpdates_wf cfg ext ups s₁ s' h₂ (update_wf h₁ hwf)

/-! ## `clear` and the zero-state report -/

/-- `clearOne` succeeds on a present key, extends the dictionary, and
touches only the key and its counter. -/
theorem clearOne_ok {md : List (String × MVal)} {k : String}
    (h : (dlook md k).isSome) :
    ∃ md', clearOne md k = .ok md' ∧ dext md md' ∧
      ∀ k', k' ≠ k → k' ≠ k ++ "_cnt" → dlook md' k' = dlook md k' := by
  obtain ⟨v, hv⟩ := Option.isSome_iff_exists.mp h
  refine ⟨(if ¬ isCrs k then
      dset (if startswith k "inter-distinct" then dset md k (.table [])
            else dset md k (.scalar 0)) (k ++ "_cnt") (.scalar 0)
    else (if startswith k "inter-distinct" then dset md k (.table [])
          else dset md k (.scalar 0))), ?_, ?_, ?_⟩
  · unfold clearOne
    rw [hv]
  · split_ifs <;>
      first
        | exact dext_trans (dext_dset _ _ _) (dext_dset _ _ _)
        | exact dext_dset _ _ _
  · intro k' h1 h2
    split_ifs <;>
      first
        | rw [dlook_dset_ne _ _ _ _ h2, dlook_dset_ne _ _ _ _ h1]
        | rw [dlook_dset_ne _ _ _ _ h1]

/-- The `clear` loop succeeds on present keys and leaves `cnt` alone. -/
theorem clearFold_ok :
    ∀ (ks : List String) (md : List (String × MVal)),
      (∀ k ∈ ks, (dlook md k).isSome) → "cnt" ∉ ks →
      ∃ md', ks.foldlM clearOne md = .ok md' ∧
        dlook md' "cnt" = dlook md "cnt"
  | [], md, _, _ => ⟨md, by rfl, rfl⟩
  | k :: ks, md, hp, hc => by
      obtain ⟨md₁, h₁, hext, hfr⟩ := clearOne_ok (hp k (List.mem_cons_self k ks))
      have hck : ("cnt" : String) ≠ k := by
        intro hh
        exact hc (by rw [hh]; exact List.mem_cons_self k ks)
      have hck2 : ("cnt" : String) ≠ k ++ "_cnt" :=
        fun hh => append_cnt_ne_cnt k hh.symm
      obtain ⟨md₂, h₂, hcnt⟩ := clearFold_ok ks md₁
        (fun k2 hk2 => hext k2 (hp k2 (List.mem_cons_of_mem _ hk2)))
        (fun hh => hc (List.mem_cons_of_mem _ hh))
      refine ⟨md₂, ?_, ?_⟩
      · rw [List.foldlM_cons, h₁, bind_ok]
        exact h₂
      · rw [hcnt, hfr "cnt" hck hck2]

/-- `clear` on a well-formed state succeeds and zeroes `cnt`. -/
theorem clear_ok {s : MState} (hwf : WF s) :
    ∃ s', clear s = .ok s' ∧ dlook s'.md "cnt" = some (.scalar 0) := by
  obtain ⟨h1, h2, h3⟩ := hwf
  obtain ⟨md₁, hf, hcnt⟩ := clearFold_ok s.metrics_list
    (dset s.md "cnt" (.scalar 0))
    (fun k hk => dext_dset s.md "cnt" (.scalar 0) k (h1 k hk)) h3
  simp only [clear]
  rw [hf, bind_ok]
  refine ⟨_, rfl, ?_⟩
  dsimp only
  have hm : eval_pr.map hitsKey = ["hits@1", "hits@5", "hits@10", "hits@100"] := rfl
  rw [hm]
  simp only [List.foldl_cons, List.foldl_nil]
  rw [dlook_dset_ne _ _ _ _ (by decide), dlook_dset_ne _ _ _ _ (by decide),
    dlook_dset_ne _ _ _ _ (by decide), dlook_dset_ne _ _ _ _ (by decide),
    dlook_dset_ne _ _ _ _ (by decide), dlook_dset_ne _ _ _ _ (by decide),
    dlook_dset_ne _ _ _ _ (by decide), dlook_dset_ne _ _ _ _ (by decide),
    hcnt]
  exact dlook_dset_self _ _ _

/-- `report` on a state whose example counter is zero: exactly `{exs: 0}`. -/
theorem report_zero {s : MState} (h : dlook s.md "cnt" = some (.scalar 0)) :
    report s = .ok [("exs", 0)] := by
  have hg : getScalar s.md "cnt" = .ok 0 := getScalar_sc _ _ _ h
  simp only [report, hg, bind_ok]
  rw [if_neg (by norm_num : ¬ (0 : ℚ) < 0)]
  rfl

/-- C7: `report()` on a freshly constructed accumulator returns exactly
`{exs: 0}`, and after `clear()` following any successful sequence of
`update()` calls it again returns exactly `{exs: 0}` (for every library
configuration and in both the shared and the non-shared mode). -/
theorem C7 :
    (∀ (cfg : Cfg) (sh : Bool),
      report (metricsInit cfg sh) = .ok [("exs", 0)]) ∧
    (∀ (cfg : Cfg) (ext : Ext) (sh : Bool)
        (ups : List (Obs × Option (List String))) (s' : MState),
      runUpdates cfg ext (metricsInit cfg sh) ups = .ok s' →
      ∃ s'', clear s' = .ok s'' ∧ report s'' = .ok [("exs", 0)]) := by
  constructor
  · intro cfg sh
    refine report_zero ?_
    obtain ⟨b, r⟩ := cfg
    cases b <;> cases r <;> rfl
  · intro cfg ext sh ups s' hrun
    obtain ⟨s'', hclr, hcnt⟩ :=
      clear_ok (runUpdates_wf cfg ext ups _ s' hrun (WF_metricsInit cfg sh))
    exact ⟨s'', hclr, report_zero hcnt⟩

/-- C7 (witness): with both libraries unavailable, the fresh non-shared
accumulator reports `{exs: 0}`, and clearing it after the empty update
sequence reports `{exs: 0}` again. -/
theorem C7_witness :
    report (metricsInit ⟨false, false⟩ false) = .ok [("exs", 0)] ∧
    ∃ s'', clear (metricsInit ⟨false, false⟩ false) = .ok s'' ∧
      report s'' = .ok [("exs", 0)] :=
  ⟨C7.1 ⟨false, false⟩ false, C7.2 ⟨false, false⟩ extZero false [] _ rfl⟩

/-! ## Characterization of the ranking metrics -/

/-- Re-assigning a key to the value it already holds is a no-op. -/
theorem dset_self_eq {md : List (String × MVal)} {k : String} {v : MVal}
    (h : dlook md k = some v) : dset md k v = md := by
  induction md with
  | nil => cases h
  | cons p rest ih =>
      obtain ⟨k1, v1⟩ := p
      rw [dlook] at h
      by_cases hk : k = k1
      · rw [if_pos hk] at h
        cases h
        rw [dset, if_pos hk]
      · rw [if_neg hk] at h
        rw [dset, if_neg hk, ih h]

/-- A guarded hit-increment step always lands on an assignment, with the
conditional folded into the stored value. -/
theorem rank_step {md : List (String × MVal)} {key : String} {hq : ℚ}
    (e : dlook md key = some (.scalar hq)) (c : Prop) [Decidable c] :
    (if c then addScalar md key 1 else pure md) =
      .ok (dset md key (.scalar (hq + if c then 1 else 0))) := by
  by_cases hc : c
  · rw [if_pos hc, if_pos hc, addScalar_sc _ _ _ _ e]
  · rw [if_neg hc, if_neg hc, add_zero, dset_self_eq e]
    rfl

/-- Characterization of the ranking lock region: every `hits@K` advances by
the hit indicator for `K` and `hits@_cnt` advances by one. -/
theorem update_ranking_char {s : MState} {obs : Obs} {cands ls : List String}
    {h1 h5 h10 h100 hc : ℚ}
    (hcand : obs.text_candidates = some cands)
    (e1 : dlook s.md "hits@1" = some (.scalar h1))
    (e5 : dlook s.md "hits@5" = some (.scalar h5))
    (e10 : dlook s.md "hits@10" = some (.scalar h10))
    (e100 : dlook s.md "hits@100" = some (.scalar h100))
    (ec : dlook s.md "hits@_cnt" = some (.scalar hc)) :
    update_ranking_metrics s obs (some ls) =
      .ok { s with
        md := dset (dset (dset (dset (dset s.md
          "hits@1" (.scalar (h1 + if 0 < hitCnt cands ls 1 then 1 else 0)))
          "hits@5" (.scalar (h5 + if 0 < hitCnt cands ls 5 then 1 else 0)))
          "hits@10" (.scalar (h10 + if 0 < hitCnt cands ls 10 then 1 else 0)))
          "hits@100" (.scalar (h100 + if 0 < hitCnt cands ls 100 then 1 else 0)))
          "hits@_cnt" (.scalar (hc + 1)),
        htc := true } := by
  have a5 : dlook (dset s.md
      "hits@1" (MVal.scalar (h1 + if 0 < hitCnt cands ls 1 then 1 else 0)))
      "hits@5" = some (.scalar h5) := by
    rw [dlook_dset_ne _ _ _ _ (by decide)]
    exact e5
  have a10 : dlook (dset (dset s.md
      "hits@1" (MVal.scalar (h1 + if 0 < hitCnt cands ls 1 then 1 else 0)))
      "hits@5" (MVal.scalar (h5 + if 0 < hitCnt cands ls 5 then 1 else 0)))
      "hits@10" = some (.scalar h10) := by
    rw [dlook_dset_ne _ _ _ _ (by decide), dlook_dset_ne _ _ _ _ (by decide)]
    exact e10
  have a100 : dlook (dset (dset (dset s.md
      "hits@1" (MVal.scalar (h1 + if 0 < hitCnt cands ls 1 then 1 else 0)))
      "hits@5" (MVal.scalar (h5 + if 0 < hitCnt cands ls 5 then 1 else 0)))
      "hits@10" (MVal.scalar (h10 + if 0 < hitCnt cands ls 10 then 1 else 0)))
      "hits@100" = some (.scalar h100) := by
    rw [dlook_dset_ne _ _ _ _ (by decide), dlook_dset_ne _ _ _ _ (by decide),
      dlook_dset_ne _ _ _ _ (by decide)]
    exact e100
  have ac : dlook (dset (dset (dset (dset s.md
      "hits@1" (MVal.scalar (h1 + if 0 < hitCnt cands ls 1 then 1 else 0)))
      "hits@5" (MVal.scalar (h5 + if 0 < hitCnt cands ls 5 then 1 else 0)))
      "hits@10" (MVal.scalar (h10 + if 0 < hitCnt cands ls 10 then 1 else 0)))
      "hits@100" (MVal.scalar (h100 + if 0 < hitCnt cands ls 100 then 1 else 0)))
      "hits@_cnt" = some (.scalar hc) := by
    rw [dlook_dset_ne _ _ _ _ (by decide), dlook_dset_ne _ _ _ _ (by decide),
      dlook_dset_ne _ _ _ _ (by decide), dlook_dset_ne _ _ _ _ (by decide)]
    exact ec
  unfold update_ranking_metrics
  rw [hcand]
  simp only [eval_pr, List.foldlM_cons, List.foldlM_nil, hitsKey_one,
    hitsKey_five, hitsKey_ten, hitsKey_hundred]
  rw [rank_step e1 _, bind_ok, rank_step a5 _, bind_ok, rank_step a10 _,
    bind_ok, rank_step a100 _, bind_ok]
  simp only [pure_ok, bind_ok]
  rw [addScalar_sc _ _ _ 1 ac, bind_ok]

/-- C6: for every ranking update on an observation with a candidate list
(and present labels), each `hits@K` accumulator advances by one exactly
when one of the first `K` candidates normalizes into the normalized label
set (the indicator `0 < hitCnt cands ls K` holds precisely when such a
candidate exists), `hits@_cnt` advances by one unconditionally, and on the
spec's example (candidates `["b", "a", "c"]`, reference label `"a"`) the
indicators are `0` for `K = 1` and `1` for `K = 5`. -/
theorem C6 :
    (∀ (s : MState) (obs : Obs) (cands ls : List String)
        (h1 h5 h10 h100 hc : ℚ),
      obs.text_candidates = some cands →
      dlook s.md "hits@1" = some (.scalar h1) →
      dlook s.md "hits@5" = some (.scalar h5) →
      dlook s.md "hits@10" = some (.scalar h10) →
      dlook s.md "hits@100" = some (.scalar h100) →
      dlook s.md "hits@_cnt" = some (.scalar hc) →
      ∃ md', update_ranking_metrics s obs (some ls) =
          .ok { s with md := md', htc := true } ∧
        dlook md' "hits@1" =
          some (.scalar (h1 + if 0 < hitCnt cands ls 1 then 1 else 0)) ∧
        dlook md' "hits@5" =
          some (.scalar (h5 + if 0 < hitCnt cands ls 5 then 1 else 0)) ∧
        dlook md' "hits@10" =
          some (.scalar (h10 + if 0 < hitCnt cands ls 10 then 1 else 0)) ∧
        dlook md' "hits@100" =
          some (.scalar (h100 + if 0 < hitCnt cands ls 100 then 1 else 0)) ∧
        dlook md' "hits@_cnt" = some (.scalar (hc + 1))) ∧
    (∀ (cands ls : List String) (K : ℕ),
      0 < hitCnt cands ls K ↔
        ∃ c ∈ cands.take K,
          normalize_answer c ∈ ls.map normalize_answer) ∧
    hitCnt ["b", "a", "c"] ["a"] 1 = 0 ∧
    hitCnt ["b", "a", "c"] ["a"] 5 = 1 := by
  refine ⟨?_, ?_, rfl, rfl⟩
  · intro s obs cands ls h1 h5 h10 h100 hc hcand e1 e5 e10 e100 ec
    refine ⟨_, update_ranking_char hcand e1 e5 e10 e100 ec,
      ?_, ?_, ?_, ?_, ?_⟩
    · rw [dlook_dset_ne _ _ _ _ (by decide), dlook_dset_ne _ _ _ _ (by decide),
        dlook_dset_ne _ _ _ _ (by decide), dlook_dset_ne _ _ _ _ (by decide)]
      exact dlook_dset_self _ _ _
    · rw [dlook_dset_ne _ _ _ _ (by decide), dlook_dset_ne _ _ _ _ (by decide),
        dlook_dset_ne _ _ _ _ (by decide)]
      exact dlook_dset_self _ _ _
    · rw [dlook_dset_ne _ _ _ _ (by decide), dlook_dset_ne _ _ _ _ (by decide)]
      exact dlook_dset_self _ _ _
    · rw [dlook_dset_ne _ _ _ _ (by decide)]
      exact dlook_dset_self _ _ _
    · exact dlook_dset_self _ _ _
  · intro cands ls K
    rw [hitCnt, List.length_pos]
    rw [Ne, List.filter_eq_nil_iff]
    push_neg
    simp

/-- C6 (witness): on a fresh accumulator, candidates `["b", "a", "c"]` with
reference label `"a"` give `hits@1 = 0` and `hits@5 = 1` after the ranking
update. -/
theorem C6_witness :
    ∃ md', update_ranking_metrics (metricsInit ⟨false, false⟩ false)
        ⟨none, some ["b", "a", "c"], none⟩ (some ["a"]) =
        .ok { metricsInit ⟨false, false⟩ false with md := md', htc := true } ∧
      dlook md' "hits@1" = some (.scalar 0) ∧
      dlook md' "hits@5" = some (.scalar 1) := by
  obtain ⟨md', hrun, b1, b5, _, _, _⟩ :=
    C6.1 (metricsInit ⟨false, false⟩ false) ⟨none, some ["b", "a", "c"], none⟩
      ["b", "a", "c"] ["a"] 0 0 0 0 0 rfl rfl rfl rfl rfl rfl
  have k1 : hitCnt ["b", "a", "c"] ["a"] 1 = 0 := rfl
  have k5 : hitCnt ["b", "a", "c"] ["a"] 5 = 1 := rfl
  refine ⟨md', hrun, ?_, ?_⟩
  · rw [b1, k1]
    norm_num
  · rw [b5, k5]
    norm_num

/-! ## Updates without a prediction -/

/-- `update` on an observation with neither prediction text nor candidate
list reduces to the counter bump followed by the user-metrics section. -/
theorem update_no_pred {cfg : Cfg} {ext : Ext} {s : MState} {obs : Obs}
    {ls : Option (List String)} (ht : obs.text = none)
    (hc : obs.text_candidates = none) :
    update cfg ext s obs ls =
      (updCntBlock s >>= fun s₁ => updUserBlock s₁ obs).map
        (fun s' => (s', (0 : ℚ))) := by
  rw [update]
  cases hcb : updCntBlock s with
  | error e => rfl
  | ok s₁ =>
      simp only [bind_ok, ht, pure_ok, update_ranking_metrics, hc, emap_ok]
      cases h : updUserBlock s₁ obs with
      | ok s₂ => rfl
      | error e => rfl

/-- An unlisted key already present in the dictionary (on a non-shared
accumulator) is folded in place without touching its counter. -/
theorem userMetricOne_existing (s : MState) (k : String) (v q : ℚ)
    (hres : k ∉ reservedKeys) (hml : k ∉ s.metrics_list)
    (hsh : s.shared = false) (hd : dlook s.md k = some (.scalar q)) :
    userMetricOne s (k, v) =
      .ok { s with md := dset s.md k (.scalar (q + v)) } := by
  simp only [userMetricOne, if_neg hres, if_neg hml, hsh, hd]
  simp [addScalar_sc _ _ _ v hd]

/-- C9 (amended): an `update` whose observation has neither prediction text
nor candidates returns `correct = 0`, bumps `cnt` by one, and leaves every
key untouched other than `cnt` and the keys named by the observation's own
custom-metrics dictionary (and their `_cnt` counters); in particular
`correct`, `correct_cnt`, `f1`, `f1_cnt` and the BLEU/ROUGE/distinct
accumulators are unchanged whenever the custom-metrics dictionary does not
name them — but, as the counterexample shows, they are *not* protected
from an observation that names them directly. -/
theorem C9_amended {cfg : Cfg} {ext : Ext} {s : MState} {obs : Obs}
    {ls : Option (List String)} {s' : MState} {r : ℚ} {t : ℚ}
    (ht : obs.text = none) (hc : obs.text_candidates = none)
    (hupd : update cfg ext s obs ls = .ok (s', r))
    (hcnt : dlook s.md "cnt" = some (.scalar t))
    (hav : ∀ es, obs.metrics = some es →
      ∀ kv ∈ es, kv.1 ≠ "cnt" ∧ kv.1 ++ "_cnt" ≠ "cnt") :
    r = 0 ∧ dlook s'.md "cnt" = some (.scalar (t + 1)) ∧
    ∀ k', k' ≠ "cnt" →
      (∀ es, obs.metrics = some es →
        ∀ kv ∈ es, k' ≠ kv.1 ∧ k' ≠ kv.1 ++ "_cnt") →
      dlook s'.md k' = dlook s.md k' := by
  rw [update_no_pred ht hc] at hupd
  cases hrun : (updCntBlock s >>= fun s₁ => updUserBlock s₁ obs) with
  | error e => rw [hrun] at hupd; cases hupd
  | ok s₂ =>
      rw [hrun] at hupd
      simp only [emap_ok] at hupd
      cases hupd
      obtain ⟨s₁, h₁, h₂⟩ := bind_eq_ok.mp hrun
      obtain ⟨a, ha, rfl⟩ := updCntBlock_ok h₁
      rw [hcnt] at ha
      have hat : t = a := by simpa using ha
      subst hat
      refine ⟨rfl, ?_, ?_⟩
      · rw [updUserBlock_frame h₂ "cnt"
          (fun es hes kv hkv => ⟨(hav es hes kv hkv).1.symm,
            (hav es hes kv hkv).2.symm⟩)]
        exact dlook_dset_self _ _ _
      · intro k' hk' hk2
        rw [updUserBlock_frame h₂ k' hk2]
        exact dlook_dset_ne _ _ _ _ hk'

/-- C9 (counterexample): an observation with *no* prediction text whose
custom-metrics dictionary names `f1_cnt` advances the F1 denominator: on a
fresh accumulator, `f1_cnt` goes from `0` to `0 + 1` even though no
prediction was scored, because `f1_cnt` is neither reserved nor listed and
is folded through the dictionary backdoor. -/
theorem C9_counterexample :
    ∃ s', update ⟨false, false⟩ extZero (metricsInit ⟨false, false⟩ false)
        ⟨none, none, some [("f1_cnt", 1)]⟩ none = .ok (s', 0) ∧
      dlook (metricsInit ⟨false, false⟩ false).md "f1_cnt" =
        some (.scalar 0) ∧
      dlook s'.md "f1_cnt" = some (.scalar (0 + 1)) := by
  have hcnt : dlook (metricsInit ⟨false, false⟩ false).md "cnt" =
      some (.scalar 0) := rfl
  have hu := update_only_metrics ⟨false, false⟩ extZero
    (metricsInit ⟨false, false⟩ false) [("f1_cnt", 1)] 0 hcnt
  have hone := userMetricOne_existing
    { md := dset (metricsInit ⟨false, false⟩ false).md "cnt"
        (.scalar (0 + 1)),
      metrics_list := (metricsInit ⟨false, false⟩ false).metrics_list,
      ppm := (metricsInit ⟨false, false⟩ false).ppm,
      htc := (metricsInit ⟨false, false⟩ false).htc,
      shared := (metricsInit ⟨false, false⟩ false).shared }
    "f1_cnt" 1 0 (by decide) (by decide) rfl rfl
  have hfin : update ⟨false, false⟩ extZero (metricsInit ⟨false, false⟩ false)
      ⟨none, none, some [("f1_cnt", 1)]⟩ none =
      .ok (⟨dset (dset (metricsInit ⟨false, false⟩ false).md "cnt"
          (.scalar (0 + 1))) "f1_cnt" (.scalar (0 + 1)),
        (metricsInit ⟨false, false⟩ false).metrics_list,
        false, false, false⟩, 0) := by
    rw [hu]
    simp only [List.foldlM_cons, List.foldlM_nil, hone, bind_ok, pure_ok,
      emap_ok]
    rfl
  exact ⟨_, hfin, rfl, dlook_dset_self _ _ _⟩

/-- C9 (witness): an empty observation on a fresh accumulator bumps `cnt`
and leaves `correct_cnt` and `f1_cnt` exactly as they were. -/
theorem C9_witness :
    ∃ s', update ⟨false, false⟩ extZero (metricsInit ⟨false, false⟩ false)
        ⟨none, none, none⟩ none = .ok (s', 0) ∧
      dlook s'.md "cnt" = some (.scalar (0 + 1)) ∧
      dlook s'.md "correct_cnt" =
        dlook (metricsInit ⟨false, false⟩ false).md "correct_cnt" ∧
      dlook s'.md "f1_cnt" =
        dlook (metricsInit ⟨false, false⟩ false).md "f1_cnt" := by
  have hupd : update ⟨false, false⟩ extZero (metricsInit ⟨false, false⟩ false)
      ⟨none, none, none⟩ none =
      .ok ({ metricsInit ⟨false, false⟩ false with
        md := dset (metricsInit ⟨false, false⟩ false).md "cnt"
          (.scalar (0 + 1)) }, 0) := by
    rw [update_no_pred rfl rfl]
    have e := addScalar_sc (metricsInit ⟨false, false⟩ false).md "cnt" 0 1 rfl
    simp only [updCntBlock, e, bind_ok, updUserBlock, emap_ok]
  obtain ⟨_, hcnt', hfr⟩ := C9_amended rfl rfl hupd rfl
    (by intro es hes; cases hes)
  refine ⟨_, hupd, hcnt', ?_, ?_⟩
  · exact hfr "correct_cnt" (by decide) (by intro es hes; cases hes)
  · exact hfr "f1_cnt" (by decide) (by intro es hes; cases hes)

/-! ## The hit-accumulator chain invariant -/

/-- The hit accumulators are present and form a monotone chain. -/
def hitsChain (s : MState) : Prop :=
  ∃ a b c d e : ℚ,
    dlook s.md "hits@1" = some (.scalar a) ∧
    dlook s.md "hits@5" = some (.scalar b) ∧
    dlook s.md "hits@10" = some (.scalar c) ∧
    dlook s.md "hits@100" = some (.scalar d) ∧
    dlook s.md "hits@_cnt" = some (.scalar e) ∧
    a ≤ b ∧ b ≤ c ∧ c ≤ d ∧ d ≤ e

/-- A state transition that does not touch the hit keys keeps the chain. -/
theorem hitsChain_frame {s s' : MState}
    (hfr : ∀ x ∈ rankKeys, dlook s'.md x = dlook s.md x)
    (hch : hitsChain s) : hitsChain s' := by
  obtain ⟨a, b, c, d, e, p1, p5, p10, p100, pc, l1, l2, l3, l4⟩ := hch
  refine ⟨a, b, c, d, e, ?_, ?_, ?_, ?_, ?_, l1, l2, l3, l4⟩
  · rw [hfr "hits@1" (by simp [rankKeys])]; exact p1
  · rw [hfr "hits@5" (by simp [rankKeys])]; exact p5
  · rw [hfr "hits@10" (by simp [rankKeys])]; exact p10
  · rw [hfr "hits@100" (by simp [rankKeys])]; exact p100
  · rw [hfr "hits@_cnt" (by simp [rankKeys])]; exact pc

/-- Deeper candidate prefixes can only contain more hits. -/
theorem hitCnt_mono (cands ls : List String) {K K' : ℕ} (h : K ≤ K') :
    hitCnt cands ls K ≤ hitCnt cands ls K' := by
  rw [hitCnt, hitCnt]
  refine List.Sublist.length_le (List.Sublist.filter _ ?_)
  have heq : cands.take K = (cands.take K').take K := by
    rw [List.take_take, Nat.min_eq_left h]
  rw [heq]
  exact List.take_sublist _ _

/-- Monotonicity of the rational hit indicator. -/
theorem ind_mono {c₁ c₂ : Prop} [Decidable c₁] [Decidable c₂] (h : c₁ → c₂) :
    (if c₁ then (1 : ℚ) else 0) ≤ if c₂ then 1 else 0 := by
  by_cases h1 : c₁
  · simp [h1, h h1]
  · by_cases h2 : c₂ <;> simp [h1, h2]

/-- The rational hit indicator is at most one. -/
theorem ind_le_one {c : Prop} [Decidable c] :
    (if c then (1 : ℚ) else 0) ≤ 1 := by
  by_cases h : c <;> simp [h]

/-- The ranking lock region keeps the chain. -/
theorem updRanking_hits {s : MState} {obs : Obs}
    {ls : Option (List String)} {s' : MState}
    (h : update_ranking_metrics s obs ls = .ok s')
    (hch : hitsChain s) : hitsChain s' := by
  obtain ⟨a, b, c, d, e, p1, p5, p10, p100, pc, l1, l2, l3, l4⟩ := hch
  cases hcands : obs.text_candidates with
  | none =>
      rw [update_ranking_metrics, hcands] at h
      cases h
      exact ⟨a, b, c, d, e, p1, p5, p10, p100, pc, l1, l2, l3, l4⟩
  | some cands =>
      cases hls : ls with
      | none => rw [update_ranking_metrics, hcands, hls] at h; cases h
      | some ll =>
          rw [hls, update_ranking_char hcands p1 p5 p10 p100 pc] at h
          cases h
          refine ⟨a + (if 0 < hitCnt cands ll 1 then 1 else 0),
            b + (if 0 < hitCnt cands ll 5 then 1 else 0),
            c + (if 0 < hitCnt cands ll 10 then 1 else 0),
            d + (if 0 < hitCnt cands ll 100 then 1 else 0),
            e + 1, ?_, ?_, ?_, ?_, ?_, ?_, ?_, ?_, ?_⟩
          · rw [dlook_dset_ne _ _ _ _ (by decide),
              dlook_dset_ne _ _ _ _ (by decide),
              dlook_dset_ne _ _ _ _ (by decide),
              dlook_dset_ne _ _ _ _ (by decide)]
            exact dlook_dset_self _ _ _
          · rw [dlook_dset_ne _ _ _ _ (by decide),
              dlook_dset_ne _ _ _ _ (by decide),
              dlook_dset_ne _ _ _ _ (by decide)]
            exact dlook_dset_self _ _ _
          · rw [dlook_dset_ne _ _ _ _ (by decide),
              dlook_dset_ne _ _ _ _ (by decide)]
            exact dlook_dset_self _ _ _
          · rw [dlook_dset_ne _ _ _ _ (by decide)]
            exact dlook_dset_self _ _ _
          · exact dlook_dset_self _ _ _
          · exact add_le_add l1 (ind_mono
              (fun hp => lt_of_lt_of_le hp (hitCnt_mono cands ll (by norm_num))))
          · exact add_le_add l2 (ind_mono
              (fun hp => lt_of_lt_of_le hp (hitCnt_mono cands ll (by norm_num))))
          · exact add_le_add l3 (ind_mono
              (fun hp => lt_of_lt_of_le hp (hitCnt_mono cands ll (by norm_num))))
          · exact add_le_add l4 ind_le_one

/-- `update` keeps the chain as long as the observation's custom-metrics
dictionary avoids the hit keys. -/
theorem update_hits {cfg : Cfg} {ext : Ext} {s : MState} {obs : Obs}
    {ls : Option (List String)} {s' : MState} {r : ℚ}
    (h : update cfg ext s obs ls = .ok (s', r))
    (hav : ∀ es, obs.metrics = some es →
      ∀ kv ∈ es, ∀ x ∈ rankKeys, kv.1 ≠ x ∧ kv.1 ++ "_cnt" ≠ x)
    (hch : hitsChain s) : hitsChain s' := by
  rw [update] at h
  obtain ⟨s₁, h₁, h⟩ := bind_eq_ok.mp h
  have hch₁ : hitsChain s₁ := hitsChain_frame
    (fun x hx => updCntBlock_frame h₁ x (by fin_cases hx <;> decide)) hch
  obtain ⟨⟨s₂, cq⟩, h₂, h⟩ := bind_eq_ok.mp h
  have hch₂ : hitsChain s₂ := by
    cases ht : obs.text with
    | none =>
        rw [ht] at h₂
        simp only [pure_ok] at h₂
        cases h₂
        exact hch₁
    | some p =>
        rw [ht] at h₂
        refine hitsChain_frame (fun x hx => updPredBlock_frame h₂ x ?_ ?_ ?_) hch₁
        · fin_cases hx <;> decide
        · fin_cases hx <;> decide
        · fin_cases hx <;> decide
  obtain ⟨s₃, h₃, h⟩ := bind_eq_ok.mp h
  have hch₃ : hitsChain s₃ := updRanking_hits h₃ hch₂
  obtain ⟨s₄, h₄, h⟩ := bind_eq_ok.mp h
  simp only [pure_ok] at h
  cases h
  refine hitsChain_frame (fun x hx => updUserBlock_frame h₄ x ?_) hch₃
  intro es hes kv hkv
  exact ⟨(hav es hes kv hkv x hx).1.symm, (hav es hes kv hkv x hx).2.symm⟩

/-- `clear` leaves the hit accumulators all zero, re-establishing the
chain. -/
theorem clear_hits {s s' : MState} (h : clear s = .ok s') : hitsChain s' := by
  simp only [clear] at h
  obtain ⟨md₁, h₁, h₂⟩ := bind_eq_ok.mp h
  cases h₂
  have hm : eval_pr.map hitsKey = ["hits@1", "hits@5", "hits@10", "hits@100"] := rfl
  refine ⟨0, 0, 0, 0, 0, ?_, ?_, ?_, ?_, ?_,
    le_refl 0, le_refl 0, le_refl 0, le_refl 0⟩ <;>
    dsimp only <;> rw [hm] <;> simp only [List.foldl_cons, List.foldl_nil]
  · rw [dlook_dset_ne _ _ _ _ (by decide), dlook_dset_ne _ _ _ _ (by decide),
      dlook_dset_ne _ _ _ _ (by decide), dlook_dset_ne _ _ _ _ (by decide)]
    exact dlook_dset_self _ _ _
  · rw [dlook_dset_ne _ _ _ _ (by decide), dlook_dset_ne _ _ _ _ (by decide),
      dlook_dset_ne _ _ _ _ (by decide)]
    exact dlook_dset_self _ _ _
  · rw [dlook_dset_ne _ _ _ _ (by decide), dlook_dset_ne _ _ _ _ (by decide)]
    exact dlook_dset_self _ _ _
  · rw [dlook_dset_ne _ _ _ _ (by decide)]
    exact dlook_dset_self _ _ _
  · exact dlook_dset_self _ _ _

/-- The chain is preserved along any successful operation sequence whose
updates avoid the hit keys in their custom-metrics dictionaries. -/
theorem runOps_hits (cfg : Cfg) (ext : Ext) :
    ∀ (ops : List MOp) (s s' : MState),
      (∀ op ∈ ops, ∀ obs lbl, op = MOp.upd obs lbl →
        ∀ es, obs.metrics = some es →
        ∀ kv ∈ es, ∀ x ∈ rankKeys, kv.1 ≠ x ∧ kv.1 ++ "_cnt" ≠ x) →
      runOps cfg ext s ops = .ok s' → hitsChain s → hitsChain s'
  | [], s, s', _, h, hch => by
      rw [runOps] at h
      cases h
      exact hch
  | MOp.upd obs lbl :: ops, s, s', hops, h, hch => by
      rw [runOps] at h
      obtain ⟨⟨s₁, r⟩, h₁, h₂⟩ := bind_eq_ok.mp h
      refine runOps_hits cfg ext ops s₁ s'
        (fun op hop => hops op (List.mem_cons_of_mem _ hop)) h₂ ?_
      exact update_hits h₁
        (hops _ (List.mem_cons_self _ _) obs lbl rfl) hch
  | MOp.clr :: ops, s, s', hops, h, hch => by
      rw [runOps] at h
      obtain ⟨s₁, h₁, h₂⟩ := bind_eq_ok.mp h
      exact runOps_hits cfg ext ops s₁ s'
        (fun op hop => hops op (List.mem_cons_of_mem _ hop)) h₂ (clear_hits h₁)

/-- The fresh accumulator satisfies the chain. -/
theorem hitsChain_init (cfg : Cfg) (sh : Bool) :
    hitsChain (metricsInit cfg sh) := by
  obtain ⟨b, r⟩ := cfg
  refine ⟨0, 0, 0, 0, 0, ?_, ?_, ?_, ?_, ?_,
    le_refl 0, le_refl 0, le_refl 0, le_refl 0⟩ <;>
    cases b <;> cases r <;> rfl

/-- C10 (amended): after every successful sequence of `update()` and
`clear()` calls from a fresh accumulator, the hit accumulators satisfy
`hits@1 ≤ hits@5 ≤ hits@10 ≤ hits@100 ≤ hits@_cnt` — *provided* no
observation's own custom-metrics dictionary names a hit key (or a key
whose `_cnt` form is one); the counterexample shows the invariant is not
maintained without that proviso. -/
theorem C10_amended {cfg : Cfg} {ext : Ext} {sh : Bool} {ops : List MOp}
    {s' : MState}
    (hops : ∀ op ∈ ops, ∀ obs lbl, op = MOp.upd obs lbl →
      ∀ es, obs.metrics = some es →
      ∀ kv ∈ es, ∀ x ∈ rankKeys, kv.1 ≠ x ∧ kv.1 ++ "_cnt" ≠ x)
    (hrun : runOps cfg ext (metricsInit cfg sh) ops = .ok s') :
    hitsChain s' :=
  runOps_hits cfg ext ops _ s' hops hrun (hitsChain_init cfg sh)

/-- C10 (counterexample): an observation whose custom-metrics dictionary
names `hits@1` (which is *not* in the reserved list — that list contains
the literal string `hits@k`) drives `hits@1` above `hits@5`, breaking the
chain after a single `update()` from a fresh accumulator. -/
theorem C10_counterexample :
    ∃ s', update ⟨false, false⟩ extZero (metricsInit ⟨false, false⟩ false)
        ⟨none, none, some [("hits@1", 1)]⟩ none = .ok (s', 0) ∧
      dlook s'.md "hits@1" = some (.scalar (0 + 1)) ∧
      dlook s'.md "hits@5" = some (.scalar 0) ∧
      ¬ ((0 : ℚ) + 1 ≤ 0) := by
  have hcnt : dlook (metricsInit ⟨false, false⟩ false).md "cnt" =
      some (.scalar 0) := rfl
  have hu := update_only_metrics ⟨false, false⟩ extZero
    (metricsInit ⟨false, false⟩ false) [("hits@1", 1)] 0 hcnt
  have hone := userMetricOne_existing
    { md := dset (metricsInit ⟨false, false⟩ false).md "cnt"
        (.scalar (0 + 1)),
      metrics_list := (metricsInit ⟨false, false⟩ false).metrics_list,
      ppm := (metricsInit ⟨false, false⟩ false).ppm,
      htc := (metricsInit ⟨false, false⟩ false).htc,
      shared := (metricsInit ⟨false, false⟩ false).shared }
    "hits@1" 1 0 (by decide) (by decide) rfl rfl
  have hfin : update ⟨false, false⟩ extZero (metricsInit ⟨false, false⟩ false)
      ⟨none, none, some [("hits@1", 1)]⟩ none =
      .ok (⟨dset (dset (metricsInit ⟨false, false⟩ false).md "cnt"
          (.scalar (0 + 1))) "hits@1" (.scalar (0 + 1)),
        (metricsInit ⟨false, false⟩ false).metrics_list,
        false, false, false⟩, 0) := by
    rw [hu]
    simp only [List.foldlM_cons, List.foldlM_nil, hone, bind_ok, pure_ok,
      emap_ok]
    rfl
  exact ⟨_, hfin, dlook_dset_self _ _ _, rfl, by norm_num⟩

/-- C10 (witness): one well-behaved `update` (no custom metrics) from the
fresh accumulator keeps the hit chain. -/
theorem C10_witness :
    ∃ s', runOps ⟨false, false⟩ extZero (metricsInit ⟨false, false⟩ false)
        [MOp.upd ⟨none, none, none⟩ none] = .ok s' ∧ hitsChain s' := by
  have hupd : update ⟨false, false⟩ extZero (metricsInit ⟨false, false⟩ false)
      ⟨none, none, none⟩ none =
      .ok ({ metricsInit ⟨false, false⟩ false with
        md := dset (metricsInit ⟨false, false⟩ false).md "cnt"
          (.scalar (0 + 1)) }, 0) := by
    rw [update_no_pred rfl rfl]
    have e := addScalar_sc (metricsInit ⟨false, false⟩ false).md "cnt" 0 1 rfl
    simp only [updCntBlock, e, bind_ok, updUserBlock, emap_ok]
  have hrun : runOps ⟨false, false⟩ extZero (metricsInit ⟨false, false⟩ false)
      [MOp.upd ⟨none, none, none⟩ none] =
      .ok { metricsInit ⟨false, false⟩ false with
        md := dset (metricsInit ⟨false, false⟩ false).md "cnt"
          (.scalar (0 + 1)) } := by
    rw [runOps, hupd, bind_ok]
    rfl
  refine ⟨_, hrun, C10_amended ?_ hrun⟩
  intro op hop obs lbl heq es hes kv hkv x hx
  rw [List.mem_singleton] at hop
  subst hop
  cases heq
  cases hes

/-! ## Lock-region decomposition of `update` -/

/-- `update` on an observation with a prediction is the sequential
composition of its four separately-locked regions (counter; exact match;
scoring; ranking) and the user-metrics section. -/
theorem update_decomp (cfg : Cfg) (ext : Ext) (s : MState) (obs : Obs)
    (p : String) (labels : Option (List String)) (hp : obs.text = some p) :
    update cfg ext s obs labels =
      (updCntBlock s >>= fun s =>
       updExactBlock s (if exact_match p labels then 1 else 0) >>= fun s =>
       f1_score p labels >>= fun f1 =>
       updScoreBlock cfg ext s p labels f1 >>= fun s =>
       update_ranking_metrics s obs labels >>= fun s =>
       updUserBlock s obs >>= fun s =>
       pure (s, if exact_match p labels then 1 else 0)) := by
  rw [update]
  cases hcb : updCntBlock s with
  | error e => rfl
  | ok s₁ =>
      simp only [bind_ok, hp, updPredBlock]
      cases he : updExactBlock s₁ (if exact_match p labels then (1 : ℚ) else 0) with
      | error e => rfl
      | ok s₂ =>
          simp only [bind_ok]
          cases hf : f1_score p labels with
          | error e => rfl
          | ok f1 =>
              simp only [bind_ok]
              cases hs : updScoreBlock cfg ext s₂ p labels f1 with
              | error e => rfl
              | ok s₃ =>
                  simp only [bind_ok, pure_ok]

/-- The state half-way through an `update` for a correct prediction, after
the counter and exact-match lock regions but before the scoring lock
region (`cnt = correct = correct_cnt = 1`, everything else untouched). -/
def sC2mid : MState :=
  { md := [("cnt", MVal.scalar 1), ("mean_rank", MVal.scalar 0),
      ("mean_rank_cnt", MVal.scalar 0), ("loss", MVal.scalar 0),
      ("loss_cnt", MVal.scalar 0), ("correct", MVal.scalar 1),
      ("correct_cnt", MVal.scalar 1), ("f1", MVal.scalar 0),
      ("f1_cnt", MVal.scalar 0), ("ppl", MVal.scalar 0),
      ("ppl_cnt", MVal.scalar 0), ("intra-distinct-1", MVal.scalar 0),
      ("inter-distinct-1", MVal.table []),
      ("intra-distinct-2", MVal.scalar 0), ("inter-distinct-2", MVal.table []),
      ("intra-distinct-3", MVal.scalar 0), ("inter-distinct-3", MVal.table []),
      ("intra-distinct-4", MVal.scalar 0), ("inter-distinct-4", MVal.table []),
      ("bleu_cnt", MVal.scalar 0), ("rouge_cnt", MVal.scalar 0),
      ("intra-distinct_cnt", MVal.scalar 0), ("hits@1", MVal.scalar 0),
      ("hits@5", MVal.scalar 0), ("hits@10", MVal.scalar 0),
      ("hits@100", MVal.scalar 0), ("hits@_cnt", MVal.scalar 0)],
    metrics_list := ["mean_rank", "loss", "correct", "f1", "ppl",
      "intra-distinct-1", "inter-distinct-1", "intra-distinct-2",
      "inter-distinct-2", "intra-distinct-3", "inter-distinct-3",
      "intra-distinct-4", "inter-distinct-4"],
    ppm := true, htc := false, shared := false }

/-- The first two lock regions of an `update` with a correct prediction
land exactly on the intermediate state `sC2mid`. -/
theorem blocks_x_run :
    (updCntBlock (metricsInit ⟨false, false⟩ false) >>= fun s =>
      updExactBlock s 1) = .ok sC2mid := by
  have e1 := addScalar_sc (metricsInit ⟨false, false⟩ false).md "cnt" 0 1 rfl
  simp only [updCntBlock, e1, bind_ok, updExactBlock]
  have e2 := addScalar_sc (dset (metricsInit ⟨false, false⟩ false).md "cnt"
    (MVal.scalar (0 + 1))) "correct" 0 1 rfl
  simp only [e2, bind_ok]
  have e3 := addScalar_sc (dset (dset (metricsInit ⟨false, false⟩ false).md
    "cnt" (MVal.scalar (0 + 1))) "correct" (MVal.scalar (0 + 1)))
    "correct_cnt" 0 1 rfl
  simp only [e3, bind_ok]
  simp [metricsInit, initMd, initList, isCrs, crsMetrics, startswith,
    startsWL, eval_pr, dset, sC2mid]

/-- `report` on a state with `print_prediction_metrics` set (and no
candidate flag): `exs`, the renamed `accuracy`, the `f1` ratio, then the
`metrics_list` loop. -/
theorem report_ppm (s : MState) (t c cc f fc : ℚ)
    (ht : getScalar s.md "cnt" = .ok t) (hpos : 0 < t)
    (hppm : s.ppm = true) (hhtc : s.htc = false)
    (hc : getScalar s.md "correct" = .ok c)
    (hcc : getScalar s.md "correct_cnt" = .ok cc)
    (hf : getScalar s.md "f1" = .ok f)
    (hfc : getScalar s.md "f1_cnt" = .ok fc) :
    report s = reportLoop s (qset (qset (qset [] "exs" t) "accuracy"
      (round_sigfigs (c / max 1 cc) 4)) "f1"
      (round_sigfigs (f / max 1 fc) 4)) s.metrics_list := by
  simp only [report, ht, bind_ok]
  rw [if_pos hpos, hppm, hhtc]
  simp only [hc, hcc, hf, hfc, bind_ok, pure_ok]
  simp [qset]

/-- The torn mid-update snapshot: one example counted as correct
(`accuracy = 1.0`) while the same example's F1 fold has not happened yet
(`f1 = 0.0` with `f1_cnt = 0`). -/
theorem report_sC2mid :
    report sC2mid = .ok [("exs", 1), ("accuracy", 1), ("f1", 0)] := by
  rw [report_ppm sC2mid 1 1 1 0 0 rfl (by norm_num) rfl rfl rfl rfl rfl rfl]
  have hacc : round_sigfigs ((1 : ℚ) / max 1 1) 4 = 1 := by
    norm_num [rs_one]
  have hfv : round_sigfigs ((0 : ℚ) / max 1 0) 4 = 0 := by
    norm_num
  rw [hacc, hfv]
  have hm0 : qset (qset (qset [] "exs" (1 : ℚ)) "accuracy" 1) "f1" 0 =
      [("exs", 1), ("accuracy", 1), ("f1", 0)] := rfl
  rw [hm0]
  have hml : sC2mid.metrics_list = ["mean_rank", "loss", "correct", "f1",
      "ppl", "intra-distinct-1", "inter-distinct-1", "intra-distinct-2",
      "inter-distinct-2", "intra-distinct-3", "inter-distinct-3",
      "intra-distinct-4", "inter-distinct-4"] := rfl
  rw [hml]
  rw [reportLoop_cons_none _ _ _ _ (by simp [reportEmit, getScalar, dlook, sC2mid])]
  rw [reportLoop_cons_none _ _ _ _ (by simp [reportEmit, getScalar, dlook, sC2mid])]
  rw [reportLoop_cons_none _ _ _ _ (by simp [reportEmit, getScalar, dlook, sC2mid])]
  rw [reportLoop_cons_none _ _ _ _ (by simp [reportEmit, getScalar, dlook, sC2mid])]
  rw [reportLoop_cons_none _ _ _ _ (by simp [reportEmit, getScalar, dlook, sC2mid])]
  rw [reportLoop_cons_none _ _ _ _ (by simp [reportEmit, getScalar, dlook, sC2mid])]
  rw [reportLoop_cons_none _ _ _ _ (by simp [reportEmit, getScalar, dlook, sC2mid, List.dedup])]
  rw [reportLoop_cons_none _ _ _ _ (by simp [reportEmit, getScalar, dlook, sC2mid])]
  rw [reportLoop_cons_none _ _ _ _ (by simp [reportEmit, getScalar, dlook, sC2mid, List.dedup])]
  rw [reportLoop_cons_none _ _ _ _ (by simp [reportEmit, getScalar, dlook, sC2mid])]
  rw [reportLoop_cons_none _ _ _ _ (by simp [reportEmit, getScalar, dlook, sC2mid, List.dedup])]
  rw [reportLoop_cons_none _ _ _ _ (by simp [reportEmit, getScalar, dlook, sC2mid])]
  rw [reportLoop_cons_none _ _ _ _ (by simp [reportEmit, getScalar, dlook, sC2mid, List.dedup])]
  rw [reportLoop_nil]

/-- The state after one complete `update` with prediction `"x"` and label
list `["x"]` on a fresh non-shared accumulator (no BLEU/ROUGE library). -/
def sC2fin : MState :=
  { md := [("cnt", MVal.scalar 1), ("mean_rank", MVal.scalar 0),
      ("mean_rank_cnt", MVal.scalar 0), ("loss", MVal.scalar 0),
      ("loss_cnt", MVal.scalar 0), ("correct", MVal.scalar 1),
      ("correct_cnt", MVal.scalar 1), ("f1", MVal.scalar 1),
      ("f1_cnt", MVal.scalar 1), ("ppl", MVal.scalar 0),
      ("ppl_cnt", MVal.scalar 0), ("intra-distinct-1", MVal.scalar 1),
      ("inter-distinct-1", MVal.table [["x"]]),
      ("intra-distinct-2", MVal.scalar (1 / 10000000)),
      ("inter-distinct-2", MVal.table []),
      ("intra-distinct-3", MVal.scalar (1 / 10000000)),
      ("inter-distinct-3", MVal.table []),
      ("intra-distinct-4", MVal.scalar (1 / 10000000)),
      ("inter-distinct-4", MVal.table []),
      ("bleu_cnt", MVal.scalar 0), ("rouge_cnt", MVal.scalar 0),
      ("intra-distinct_cnt", MVal.scalar 1), ("hits@1", MVal.scalar 0),
      ("hits@5", MVal.scalar 0), ("hits@10", MVal.scalar 0),
      ("hits@100", MVal.scalar 0), ("hits@_cnt", MVal.scalar 0)],
    metrics_list := ["mean_rank", "loss", "correct", "f1", "ppl",
      "intra-distinct-1", "inter-distinct-1", "intra-distinct-2",
      "inter-distinct-2", "intra-distinct-3", "inter-distinct-3",
      "intra-distinct-4", "inter-distinct-4"],
    ppm := true, htc := false, shared := false }

/-- The per-example F1 of prediction `"x"` against labels `["x"]` is `1`. -/
theorem f1x_one : f1_score "x" (some ["x"]) = .ok 1 := by
  have hF : (prec_recall_f1_score (normSplit "x") (normSplit "x")).2.2 = 1 := by
    have hns : normSplit "x" = ["x"] := rfl
    rw [hns]
    have hnum : numSame ["x"] ["x"] = 1 := rfl
    simp only [prec_recall_f1_score, hnum]
    norm_num
  show pymax [(prec_recall_f1_score (normSplit "x") (normSplit "x")).2.2] =
    .ok 1
  simp only [pymax, List.foldl_nil, hF]

/-- The per-example intra-distinct-1 of `"x"`. -/
theorem intra_x_one : intra_distinct "x" 1 = 1 := by
  have hc : ngramL (normSplit "x") 1 = [["x"]] := rfl
  rw [intra_distinct, hc]
  norm_num [eps12, eps5, List.dedup]

/-- The per-example intra-distinct-2 of `"x"` (empty bigram counter: the
ratio of the two epsilon guards). -/
theorem intra_x_two : intra_distinct "x" 2 = 1 / 10000000 := by
  have hc : ngramL (normSplit "x") 2 = [] := rfl
  rw [intra_distinct, hc]
  norm_num [eps12, eps5, List.dedup]

/-- The per-example intra-distinct-3 of `"x"`. -/
theorem intra_x_three : intra_distinct "x" 3 = 1 / 10000000 := by
  have hc : ngramL (normSplit "x") 3 = [] := rfl
  rw [intra_distinct, hc]
  norm_num [eps12, eps5, List.dedup]

/-- The per-example intra-distinct-4 of `"x"`. -/
theorem intra_x_four : intra_distinct "x" 4 = 1 / 10000000 := by
  have hc : ngramL (normSplit "x") 4 = [] := rfl
  rw [intra_distinct, hc]
  norm_num [eps12, eps5, List.dedup]

/-- The scoring lock region carries `sC2mid` to the final state. -/
theorem score_x_run :
    updScoreBlock ⟨false, false⟩ extZero sC2mid "x" (some ["x"]) 1 =
      .ok sC2fin := by
  have f4 := addScalar_sc sC2mid.md "f1" 0 1 rfl
  simp only [updScoreBlock, f4, bind_ok]
  have f5 := addScalar_sc (dset sC2mid.md "f1" (MVal.scalar (0 + 1)))
    "f1_cnt" 0 1 rfl
  simp only [f5, bind_ok]
  have hbf : ∀ md, bleuFold ⟨false, false⟩ extZero "x" (some ["x"]) md =
      .ok md := fun md => rfl
  have hrf : ∀ md, rougeFold ⟨false, false⟩ extZero "x" (some ["x"]) md =
      .ok md := fun md => rfl
  simp only [hbf, hrf, bind_ok]
  simp only [distinctFold, List.foldlM_cons, List.foldlM_nil,
    show ("intra-distinct-" ++ toString (1 : ℕ)) = "intra-distinct-1" from rfl,
    show ("intra-distinct-" ++ toString (2 : ℕ)) = "intra-distinct-2" from rfl,
    show ("intra-distinct-" ++ toString (3 : ℕ)) = "intra-distinct-3" from rfl,
    show ("intra-distinct-" ++ toString (4 : ℕ)) = "intra-distinct-4" from rfl,
    show ("inter-distinct-" ++ toString (1 : ℕ)) = "inter-distinct-1" from rfl,
    show ("inter-distinct-" ++ toString (2 : ℕ)) = "inter-distinct-2" from rfl,
    show ("inter-distinct-" ++ toString (3 : ℕ)) = "inter-distinct-3" from rfl,
    show ("inter-distinct-" ++ toString (4 : ℕ)) = "inter-distinct-4" from rfl,
    intra_x_one, intra_x_two, intra_x_three, intra_x_four,
    show inter_distinct "x" 1 = [["x"]] from rfl,
    show inter_distinct "x" 2 = [] from rfl,
    show inter_distinct "x" 3 = [] from rfl,
    show inter_distinct "x" 4 = [] from rfl]
  have g1 := addScalar_sc (dset (dset sC2mid.md "f1" (MVal.scalar (0 + 1)))
    "f1_cnt" (MVal.scalar (0 + 1))) "intra-distinct-1" 0 1 rfl
  simp only [g1, bind_ok]
  have g2 := addTable_tb (dset (dset (dset sC2mid.md "f1"
    (MVal.scalar (0 + 1))) "f1_cnt" (MVal.scalar (0 + 1)))
    "intra-distinct-1" (MVal.scalar (0 + 1))) "inter-distinct-1" [] [["x"]] rfl
  simp only [g2, bind_ok]
  have g3 := addScalar_sc (dset (dset (dset (dset sC2mid.md "f1"
    (MVal.scalar (0 + 1))) "f1_cnt" (MVal.scalar (0 + 1)))
    "intra-distinct-1" (MVal.scalar (0 + 1))) "inter-distinct-1"
    (MVal.table ([] ++ [["x"]]))) "intra-distinct-2" 0 (1 / 10000000) rfl
  simp only [g3, bind_ok]
  have g4 := addTable_tb (dset (dset (dset (dset (dset sC2mid.md "f1"
    (MVal.scalar (0 + 1))) "f1_cnt" (MVal.scalar (0 + 1)))
    "intra-distinct-1" (MVal.scalar (0 + 1))) "inter-distinct-1"
    (MVal.table ([] ++ [["x"]]))) "intra-distinct-2"
    (MVal.scalar (0 + 1 / 10000000))) "inter-distinct-2" [] [] rfl
  simp only [g4, bind_ok]
  have g5 := addScalar_sc (dset (dset (dset (dset (dset (dset sC2mid.md "f1"
    (MVal.scalar (0 + 1))) "f1_cnt" (MVal.scalar (0 + 1)))
    "intra-distinct-1" (MVal.scalar (0 + 1))) "inter-distinct-1"
    (MVal.table ([] ++ [["x"]]))) "intra-distinct-2"
    (MVal.scalar (0 + 1 / 10000000))) "inter-distinct-2"
    (MVal.table ([] ++ []))) "intra-distinct-3" 0 (1 / 10000000) rfl
  simp only [g5, bind_ok]
  have g6 := addTable_tb (dset (dset (dset (dset (dset (dset (dset sC2mid.md
    "f1" (MVal.scalar (0 + 1))) "f1_cnt" (MVal.scalar (0 + 1)))
    "intra-distinct-1" (MVal.scalar (0 + 1))) "inter-distinct-1"
    (MVal.table ([] ++ [["x"]]))) "intra-distinct-2"
    (MVal.scalar (0 + 1 / 10000000))) "inter-distinct-2"
    (MVal.table ([] ++ []))) "intra-distinct-3"
    (MVal.scalar (0 + 1 / 10000000))) "inter-distinct-3" [] [] rfl
  simp only [g6, bind_ok]
  have g7 := addScalar_sc (dset (dset (dset (dset (dset (dset (dset (dset
    sC2mid.md "f1" (MVal.scalar (0 + 1))) "f1_cnt" (MVal.scalar (0 + 1)))
    "intra-distinct-1" (MVal.scalar (0 + 1))) "inter-distinct-1"
    (MVal.table ([] ++ [["x"]]))) "intra-distinct-2"
    (MVal.scalar (0 + 1 / 10000000))) "inter-distinct-2"
    (MVal.table ([] ++ []))) "intra-distinct-3"
    (MVal.scalar (0 + 1 / 10000000))) "inter-distinct-3"
    (MVal.table ([] ++ []))) "intra-distinct-4" 0 (1 / 10000000) rfl
  simp only [g7, bind_ok]
  have g8 := addTable_tb (dset (dset (dset (dset (dset (dset (dset (dset
    (dset sC2mid.md "f1" (MVal.scalar (0 + 1))) "f1_cnt"
    (MVal.scalar (0 + 1))) "intra-distinct-1" (MVal.scalar (0 + 1)))
    "inter-distinct-1" (MVal.table ([] ++ [["x"]]))) "intra-distinct-2"
    (MVal.scalar (0 + 1 / 10000000))) "inter-distinct-2"
    (MVal.table ([] ++ []))) "intra-distinct-3"
    (MVal.scalar (0 + 1 / 10000000))) "inter-distinct-3"
    (MVal.table ([] ++ []))) "intra-distinct-4"
    (MVal.scalar (0 + 1 / 10000000))) "inter-distinct-4" [] [] rfl
  simp only [g8, bind_ok]
  have g9 := addScalar_sc (dset (dset (dset (dset (dset (dset (dset (dset
    (dset (dset sC2mid.md "f1" (MVal.scalar (0 + 1))) "f1_cnt"
    (MVal.scalar (0 + 1))) "intra-distinct-1" (MVal.scalar (0 + 1)))
    "inter-distinct-1" (MVal.table ([] ++ [["x"]]))) "intra-distinct-2"
    (MVal.scalar (0 + 1 / 10000000))) "inter-distinct-2"
    (MVal.table ([] ++ []))) "intra-distinct-3"
    (MVal.scalar (0 + 1 / 10000000))) "inter-distinct-3"
    (MVal.table ([] ++ []))) "intra-distinct-4"
    (MVal.scalar (0 + 1 / 10000000))) "inter-distinct-4"
    (MVal.table ([] ++ []))) "intra-distinct_cnt" 0 1 rfl
  simp only [pure_ok, bind_ok, g9]
  simp [sC2mid, sC2fin, dset]

/-- One complete `update` with a correct prediction `"x"` on the fresh
accumulator lands on `sC2fin` with per-example result `1`. -/
theorem update_x_run :
    update ⟨false, false⟩ extZero (metricsInit ⟨false, false⟩ false)
      ⟨some "x", none, none⟩ (some ["x"]) = .ok (sC2fin, 1) := by
  rw [update_decomp ⟨false, false⟩ extZero _ _ "x" (some ["x"]) rfl]
  rw [show (if exact_match "x" (some ["x"]) then (1 : ℚ) else 0) = 1 from rfl]
  have e1 := addScalar_sc (metricsInit ⟨false, false⟩ false).md "cnt" 0 1 rfl
  have h1 : updCntBlock (metricsInit ⟨false, false⟩ false) =
      .ok { metricsInit ⟨false, false⟩ false with
        md := dset (metricsInit ⟨false, false⟩ false).md "cnt"
          (MVal.scalar (0 + 1)) } := by
    simp only [updCntBlock, e1, bind_ok]
  rw [h1, bind_ok]
  have h2 : updExactBlock { metricsInit ⟨false, false⟩ false with
      md := dset (metricsInit ⟨false, false⟩ false).md "cnt"
        (MVal.scalar (0 + 1)) } 1 = .ok sC2mid := by
    have e2 := addScalar_sc (dset (metricsInit ⟨false, false⟩ false).md "cnt"
      (MVal.scalar (0 + 1))) "correct" 0 1 rfl
    have e3 := addScalar_sc (dset (dset (metricsInit ⟨false, false⟩ false).md
      "cnt" (MVal.scalar (0 + 1))) "correct" (MVal.scalar (0 + 1)))
      "correct_cnt" 0 1 rfl
    simp only [updExactBlock, e2, e3, bind_ok]
    simp [metricsInit, initMd, initList, isCrs, crsMetrics, startswith,
      startsWL, eval_pr, dset, sC2mid]
  rw [h2, bind_ok, f1x_one, bind_ok, score_x_run, bind_ok]
  rw [show update_ranking_metrics sC2fin ⟨some "x", none, none⟩
    (some ["x"]) = .ok sC2fin from rfl, bind_ok]
  rw [show updUserBlock sC2fin ⟨some "x", none, none⟩ = .ok sC2fin from rfl,
    bind_ok]
  rfl

/-- C2 (amended): `update` is the *sequential composition* of four
separately-locked regions (counter; exact match; F1/BLEU/ROUGE/distinct;
ranking) and the unlocked user-metrics section — not one atomic group —
and the state between the exact-match and scoring regions is observable:
for a correct prediction the intermediate state `sC2mid` reports
`accuracy = 1.0` but `f1 = 0.0` with `f1_cnt = 0`, while the completed
update advances `f1_cnt` to `1` for the same example. -/
theorem C2_amended :
    (∀ (cfg : Cfg) (ext : Ext) (s : MState) (obs : Obs) (p : String)
        (labels : Option (List String)), obs.text = some p →
      update cfg ext s obs labels =
        (updCntBlock s >>= fun s =>
         updExactBlock s (if exact_match p labels then 1 else 0) >>= fun s =>
         f1_score p labels >>= fun f1 =>
         updScoreBlock cfg ext s p labels f1 >>= fun s =>
         update_ranking_metrics s obs labels >>= fun s =>
         updUserBlock s obs >>= fun s =>
         pure (s, if exact_match p labels then 1 else 0))) ∧
    (updCntBlock (metricsInit ⟨false, false⟩ false) >>= fun s =>
      updExactBlock s 1) = .ok sC2mid ∧
    report sC2mid = .ok [("exs", 1), ("accuracy", 1), ("f1", 0)] ∧
    update ⟨false, false⟩ extZero (metricsInit ⟨false, false⟩ false)
      ⟨some "x", none, none⟩ (some ["x"]) = .ok (sC2fin, 1) ∧
    dlook sC2mid.md "f1_cnt" = some (.scalar 0) ∧
    dlook sC2fin.md "f1_cnt" = some (.scalar 1) :=
  ⟨fun cfg ext s obs p labels hp => update_decomp cfg ext s obs p labels hp,
    blocks_x_run, report_sC2mid, update_x_run, rfl, rfl⟩

/-- C2 (counterexample): a snapshot between the exact-match and scoring
lock regions of a single `update` is torn — the example is already counted
in `accuracy` (`correct_cnt = 1`, reported `accuracy = 1.0`) while its F1
fold has not happened (`f1_cnt = 0`, reported `f1 = 0.0`), even though the
completed update sets `f1_cnt = 1`.  This refutes the claim that all
per-example folds happen under one lock acquisition. -/
theorem C2_counterexample :
    (updCntBlock (metricsInit ⟨false, false⟩ false) >>= fun s =>
      updExactBlock s 1) = .ok sC2mid ∧
    report sC2mid = .ok [("exs", 1), ("accuracy", 1), ("f1", 0)] ∧
    qlook [("exs", (1 : ℚ)), ("accuracy", 1), ("f1", 0)] "accuracy" =
      some 1 ∧
    qlook [("exs", (1 : ℚ)), ("accuracy", 1), ("f1", 0)] "f1" = some 0 ∧
    update ⟨false, false⟩ extZero (metricsInit ⟨false, false⟩ false)
      ⟨some "x", none, none⟩ (some ["x"]) = .ok (sC2fin, 1) ∧
    dlook sC2mid.md "correct_cnt" = some (.scalar 1) ∧
    dlook sC2mid.md "f1_cnt" = some (.scalar 0) ∧
    dlook sC2fin.md "correct_cnt" = some (.scalar 1) ∧
    dlook sC2fin.md "f1_cnt" = some (.scalar 1) :=
  ⟨blocks_x_run, report_sC2mid, rfl, rfl, update_x_run, rfl, rfl, rfl, rfl⟩

/-- C2 (witness): the lock-region decomposition instantiated at the
concrete correct-prediction update. -/
theorem C2_witness :
    update ⟨false, false⟩ extZero (metricsInit ⟨false, false⟩ false)
      ⟨some "x", none, none⟩ (some ["x"]) =
      (updCntBlock (metricsInit ⟨false, false⟩ false) >>= fun s =>
       updExactBlock s
         (if exact_match "x" (some ["x"]) then 1 else 0) >>= fun s =>
       f1_score "x" (some ["x"]) >>= fun f1 =>
       updScoreBlock ⟨false, false⟩ extZero s "x" (some ["x"]) f1 >>= fun s =>
       update_ranking_metrics s ⟨some "x", none, none⟩ (some ["x"]) >>= fun s =>
       updUserBlock s ⟨some "x", none, none⟩ >>= fun s =>
       pure (s, if exact_match "x" (some ["x"]) then 1 else 0)) :=
  C2_amended.1 ⟨false, false⟩ extZero (metricsInit ⟨false, false⟩ false)
    ⟨some "x", none, none⟩ "x" (some ["x"]) rfl

/-! ## Lookup characterization of the report loop -/

/-- Keys not in the remaining list are untouched by the report loop. -/
theorem reportLoop_qlook_frame {s : MState} :
    ∀ (ks : List String) (m r : List (String × ℚ)) (k : String),
      reportLoop s m ks = .ok r → k ∉ ks → qlook r k = qlook m k
  | [], m, r, k, h, _ => by
      rw [reportLoop] at h
      cases h
      rfl
  | k0 :: ks, m, r, k, h, hk => by
      rw [reportLoop] at h
      obtain ⟨e, he, h⟩ := bind_eq_ok.mp h
      have hne : k ≠ k0 := fun heq => hk (by rw [heq]; exact List.mem_cons_self k0 ks)
      have hks : k ∉ ks := fun hm => hk (List.mem_cons_of_mem _ hm)
      cases e with
      | none => exact reportLoop_qlook_frame ks m r k h hks
      | some v =>
          rw [reportLoop_qlook_frame ks _ r k h hks]
          exact qlook_qset_ne _ _ _ _ hne

/-- A key whose iteration emits nothing is never written by the loop. -/
theorem reportLoop_qlook_none_emit {s : MState} :
    ∀ (ks : List String) (m r : List (String × ℚ)) (k : String),
      reportLoop s m ks = .ok r → reportEmit s k = .ok none →
      qlook r k = qlook m k
  | [], m, r, k, h, _ => by
      rw [reportLoop] at h
      cases h
      rfl
  | k0 :: ks, m, r, k, h, hem => by
      rw [reportLoop] at h
      obtain ⟨e, he, h⟩ := bind_eq_ok.mp h
      cases e with
      | none => exact reportLoop_qlook_none_emit ks m r k h hem
      | some v =>
          rw [reportLoop_qlook_none_emit ks _ r k h hem]
          refine qlook_qset_ne _ _ _ _ ?_
          intro heq
          rw [heq] at hem
          rw [hem] at he
          cases he

/-- A key occurring once whose iteration emits a value ends up in the
report with that value. -/
theorem reportLoop_qlook_emit {s : MState} :
    ∀ (ks : List String) (m r : List (String × ℚ)) (k : String) (v : ℚ),
      reportLoop s m ks = .ok r → ks.count k = 1 →
      reportEmit s k = .ok (some v) → qlook r k = some v
  | [], m, r, k, v, h, hcount, _ => by simp at hcount
  | k0 :: ks, m, r, k, v, h, hcount, hem => by
      rw [reportLoop] at h
      obtain ⟨e, he, h⟩ := bind_eq_ok.mp h
      by_cases hk : k = k0
      · subst hk
        have hks : k ∉ ks := by
          rw [List.count_cons_self] at hcount
          exact List.count_eq_zero.mp (by omega)
        rw [hem] at he
        cases he
        rw [reportLoop_qlook_frame ks _ r k h hks]
        exact qlook_qset_self _ _ _
      · have hcount' : ks.count k = 1 := by
          rw [List.count_cons_of_ne hk] at hcount
          exact hcount
        cases e with
        | none => exact reportLoop_qlook_emit ks m r k v h hcount' hem
        | some w => exact reportLoop_qlook_emit ks _ r k v h hcount' hem

/-- The value a loop iteration emits for an ordinary scalar key with a
positive counter. -/
theorem reportEmit_some {s : MState} {k : String} {c v : ℚ}
    (hni : startswith k "inter-distinct" = false)
    (hc : getScalar s.md (rsplitBase k ++ "_cnt") = .ok c) (hpos : 0 < c)
    (hkc : k ≠ "correct") (hkf : k ≠ "f1")
    (hv : getScalar s.md k = .ok v) :
    reportEmit s k = .ok (some (round_sigfigs (v / max 1 c) 4)) := by
  rw [reportEmit, if_pos (by simp [hni])]
  simp only [hc, bind_ok]
  rw [if_pos hpos, if_pos hkc, if_pos hkf]
  simp only [hv, bind_ok, pure_ok]

/-- A scalar key whose paired counter is zero emits nothing. -/
theorem reportEmit_zero {s : MState} {k : String} {c : ℚ}
    (hni : startswith k "inter-distinct" = false)
    (hc : getScalar s.md (rsplitBase k ++ "_cnt") = .ok c)
    (hpos : ¬ 0 < c) :
    reportEmit s k = .ok none := by
  rw [reportEmit, if_pos (by simp [hni])]
  simp only [hc, bind_ok]
  rw [if_neg hpos]
  rfl

/-- The `hits@` fold of `report` writes only the four `hits@` keys. -/
theorem hits_fold_inv {s : MState} {m₀ mf : List (String × ℚ)}
    (h : eval_pr.foldlM (fun m k => do
        let h ← getScalar s.md (hitsKey k)
        let hc ← getScalar s.md "hits@_cnt"
        pure (qset m (hitsKey k) (round_sigfigs (h / max 1 hc) 3))) m₀ =
      .ok mf) :
    ∀ k, k ∉ eval_pr.map hitsKey → qlook mf k = qlook m₀ k := by
  simp only [eval_pr, List.foldlM_cons, List.foldlM_nil, hitsKey_one,
    hitsKey_five, hitsKey_ten, hitsKey_hundred] at h
  obtain ⟨m1, h1, h⟩ := bind_eq_ok.mp h
  obtain ⟨v1, _, h1⟩ := bind_eq_ok.mp h1
  obtain ⟨w1, _, h1⟩ := bind_eq_ok.mp h1
  simp only [pure_ok] at h1
  cases h1
  obtain ⟨m2, h2, h⟩ := bind_eq_ok.mp h
  obtain ⟨v2, _, h2⟩ := bind_eq_ok.mp h2
  obtain ⟨w2, _, h2⟩ := bind_eq_ok.mp h2
  simp only [pure_ok] at h2
  cases h2
  obtain ⟨m3, h3, h⟩ := bind_eq_ok.mp h
  obtain ⟨v3, _, h3⟩ := bind_eq_ok.mp h3
  obtain ⟨w3, _, h3⟩ := bind_eq_ok.mp h3
  simp only [pure_ok] at h3
  cases h3
  obtain ⟨m4, h4, h⟩ := bind_eq_ok.mp h
  obtain ⟨v4, _, h4⟩ := bind_eq_ok.mp h4
  obtain ⟨w4, _, h4⟩ := bind_eq_ok.mp h4
  simp only [pure_ok] at h4
  cases h4
  simp only [pure_ok] at h
  cases h
  intro k hk
  have hh : eval_pr.map hitsKey =
      ["hits@1", "hits@5", "hits@10", "hits@100"] := rfl
  rw [hh] at hk
  rw [qlook_qset_ne _ _ _ _ (fun heq => hk (by rw [heq]; simp)),
    qlook_qset_ne _ _ _ _ (fun heq => hk (by rw [heq]; simp)),
    qlook_qset_ne _ _ _ _ (fun heq => hk (by rw [heq]; simp)),
    qlook_qset_ne _ _ _ _ (fun heq => hk (by rw [heq]; simp))]

/-- A successful `report` with a positive example count runs the
`metrics_list` loop from a partial report whose only keys are `exs`, the
flag-guarded `accuracy`/`f1`, and the flag-guarded `hits@` entries. -/
theorem report_loop_inv {s : MState} {r : List (String × ℚ)} {t : ℚ}
    (hrep : report s = .ok r) (ht : getScalar s.md "cnt" = .ok t)
    (htpos : 0 < t) :
    ∃ m₀, reportLoop s m₀ s.metrics_list = .ok r ∧
      ∀ k, k ≠ "exs" → k ≠ "accuracy" → k ≠ "f1" →
        k ∉ eval_pr.map hitsKey → qlook m₀ k = none := by
  simp only [report, ht, bind_ok] at hrep
  rw [if_pos htpos] at hrep
  cases hppm : s.ppm with
  | false =>
      rw [hppm, if_neg Bool.false_ne_true] at hrep
      simp only [pure_ok, bind_ok] at hrep
      cases hhtc : s.htc with
      | false =>
          rw [hhtc, if_neg Bool.false_ne_true] at hrep
          refine ⟨_, hrep, ?_⟩
          intro k h1 _ _ _
          rw [qlook_qset_ne _ _ _ _ h1]
          rfl
      | true =>
          rw [hhtc, if_pos rfl] at hrep
          obtain ⟨mf, hmf, hrep⟩ := bind_eq_ok.mp hrep
          refine ⟨mf, hrep, ?_⟩
          intro k h1 _ _ h4
          rw [hits_fold_inv hmf k h4, qlook_qset_ne _ _ _ _ h1]
          rfl
  | true =>
      rw [hppm, if_pos rfl] at hrep
      obtain ⟨c, hc, hrep⟩ := bind_eq_ok.mp hrep
      obtain ⟨cc, hcc, hrep⟩ := bind_eq_ok.mp hrep
      obtain ⟨f, hf, hrep⟩ := bind_eq_ok.mp hrep
      obtain ⟨fc, hfc, hrep⟩ := bind_eq_ok.mp hrep
      simp only [pure_ok, bind_ok] at hrep
      cases hhtc : s.htc with
      | false =>
          rw [hhtc, if_neg Bool.false_ne_true] at hrep
          refine ⟨_, hrep, ?_⟩
          intro k h1 h2 h3 _
          rw [qlook_qset_ne _ _ _ _ h3, qlook_qset_ne _ _ _ _ h2,
            qlook_qset_ne _ _ _ _ h1]
          rfl
      | true =>
          rw [hhtc, if_pos rfl] at hrep
          obtain ⟨mf, hmf, hrep⟩ := bind_eq_ok.mp hrep
          refine ⟨mf, hrep, ?_⟩
          intro k h1 h2 h3 h4
          rw [hits_fold_inv hmf k h4, qlook_qset_ne _ _ _ _ h3,
            qlook_qset_ne _ _ _ _ h2, qlook_qset_ne _ _ _ _ h1]
          rfl

/-- C1 (amended): for a scalar key `k` of `metrics_list` other than the
specially-treated `correct` and `f1` (which the loop skips — `correct` is
reported only under the name `accuracy`), occurring once in the list, not
an `inter-distinct` table key and not colliding with the `exs`, `accuracy`
or `hits@` entries: when the counter paired by `rsplit('-', 1)` is
positive, a successful report contains `k` with value
`round_sigfigs(sum / max(1, counter), 4)`; when the paired counter is
zero, `k` is omitted. -/
theorem C1_amended {s : MState} {r : List (String × ℚ)} (k : String)
    {t c : ℚ}
    (hrep : report s = .ok r)
    (ht : getScalar s.md "cnt" = .ok t) (htpos : 0 < t)
    (hcount : s.metrics_list.count k = 1)
    (hni : startswith k "inter-distinct" = false)
    (hkc : k ≠ "correct") (hkf : k ≠ "f1")
    (hke : k ≠ "exs") (hka : k ≠ "accuracy")
    (hkh : k ∉ eval_pr.map hitsKey)
    (hcnt : getScalar s.md (rsplitBase k ++ "_cnt") = .ok c) :
    (∀ v, 0 < c → getScalar s.md k = .ok v →
      qlook r k = some (round_sigfigs (v / max 1 c) 4)) ∧
    (c = 0 → qlook r k = none) := by
  obtain ⟨m₀, hloop, hnone⟩ := report_loop_inv hrep ht htpos
  constructor
  · intro v hcpos hv
    exact reportLoop_qlook_emit s.metrics_list m₀ r k _ hloop hcount
      (reportEmit_some hni hcnt hcpos hkc hkf hv)
  · intro hc0
    rw [reportLoop_qlook_none_emit s.metrics_list m₀ r k hloop
      (reportEmit_zero hni hcnt (by rw [hc0]; norm_num))]
    exact hnone k hke hka hkf hkh

/-- `round_sigfigs` fixes `1e-7` (one significant digit). -/
theorem rs_em7 : round_sigfigs (1 / 10000000 : ℚ) 4 = 1 / 10000000 := by
  refine round_sigfigs_eval (1 / 10000000) 1 10000000 (-7) 1000 (1 / 10000000)
    (by norm_num) (by norm_num) (by norm_num) (by decide) ?_ ?_
  · rw [qpow10]
    norm_num [qRound, Int.fdiv]
  · rw [qpow10]
    norm_num

/-- The report of the completed-update state `sC2fin`: `correct` does not
appear (only `accuracy` does), while the ordinary scalar keys with
positive counters appear as their rounded ratios. -/
theorem report_sC2fin :
    report sC2fin = .ok [("exs", 1), ("accuracy", 1), ("f1", 1),
      ("intra-distinct-1", 1), ("inter-distinct-1", 1),
      ("intra-distinct-2", 1 / 10000000), ("intra-distinct-3", 1 / 10000000),
      ("intra-distinct-4", 1 / 10000000)] := by
  rw [report_ppm sC2fin 1 1 1 1 1 rfl (by norm_num) rfl rfl rfl rfl rfl rfl]
  have hacc : round_sigfigs ((1 : ℚ) / max 1 1) 4 = 1 := by
    norm_num [rs_one]
  rw [hacc]
  have hm0 : qset (qset (qset [] "exs" (1 : ℚ)) "accuracy" 1) "f1" 1 =
      [("exs", 1), ("accuracy", 1), ("f1", 1)] := rfl
  rw [hm0]
  have hml : sC2fin.metrics_list = ["mean_rank", "loss", "correct", "f1",
      "ppl", "intra-distinct-1", "inter-distinct-1", "intra-distinct-2",
      "inter-distinct-2", "intra-distinct-3", "inter-distinct-3",
      "intra-distinct-4", "inter-distinct-4"] := rfl
  rw [hml]
  have rs_em7i : round_sigfigs ((10000000 : ℚ)⁻¹) 4 = (10000000 : ℚ)⁻¹ := by
    rw [← one_div]
    exact rs_em7
  have e12 : max (1 : ℚ) eps12 = 1 := max_eq_left (by norm_num [eps12])
  have e5 : max (1 : ℚ) eps5 = 1 := max_eq_left (by norm_num [eps5])
  rw [reportLoop_cons_none _ _ _ _ (by simp [reportEmit, getScalar, dlook, sC2fin])]
  rw [reportLoop_cons_none _ _ _ _ (by simp [reportEmit, getScalar, dlook, sC2fin])]
  rw [reportLoop_cons_none _ _ _ _ (by simp [reportEmit, getScalar, dlook, sC2fin])]
  rw [reportLoop_cons_none _ _ _ _ (by simp [reportEmit, getScalar, dlook, sC2fin])]
  rw [reportLoop_cons_none _ _ _ _ (by simp [reportEmit, getScalar, dlook, sC2fin])]
  rw [reportLoop_cons_some _ _ _ _ 1
    (by simp [reportEmit, getScalar, dlook, sC2fin, rs_one])]
  rw [reportLoop_cons_some _ _ _ _ 1
    (by simp [reportEmit, getScalar, dlook, sC2fin, List.dedup, e12, e5, rs_one])]
  rw [reportLoop_cons_some _ _ _ _ (1 / 10000000)
    (by simp [reportEmit, getScalar, dlook, sC2fin, rs_em7i])]
  rw [reportLoop_cons_none _ _ _ _
    (by simp [reportEmit, getScalar, dlook, sC2fin, List.dedup])]
  rw [reportLoop_cons_some _ _ _ _ (1 / 10000000)
    (by simp [reportEmit, getScalar, dlook, sC2fin, rs_em7i])]
  rw [reportLoop_cons_none _ _ _ _
    (by simp [reportEmit, getScalar, dlook, sC2fin, List.dedup])]
  rw [reportLoop_cons_some _ _ _ _ (1 / 10000000)
    (by simp [reportEmit, getScalar, dlook, sC2fin, rs_em7i])]
  rw [reportLoop_cons_none _ _ _ _
    (by simp [reportEmit, getScalar, dlook, sC2fin, List.dedup])]
  rw [reportLoop_nil]
  rfl

/-- C1 (counterexample): after one completed `update` with a correct
prediction, `correct` is a registered scalar key whose paired counter
`correct_cnt` is `1 > 0`, yet the report does not contain the key
`correct` — the loop skips it and its ratio appears only under the
different name `accuracy`. -/
theorem C1_counterexample :
    update ⟨false, false⟩ extZero (metricsInit ⟨false, false⟩ false)
      ⟨some "x", none, none⟩ (some ["x"]) = .ok (sC2fin, 1) ∧
    "correct" ∈ sC2fin.metrics_list ∧
    getScalar sC2fin.md "correct_cnt" = .ok 1 ∧ (0 : ℚ) < 1 ∧
    report sC2fin = .ok [("exs", 1), ("accuracy", 1), ("f1", 1),
      ("intra-distinct-1", 1), ("inter-distinct-1", 1),
      ("intra-distinct-2", 1 / 10000000), ("intra-distinct-3", 1 / 10000000),
      ("intra-distinct-4", 1 / 10000000)] ∧
    qlook [("exs", (1 : ℚ)), ("accuracy", 1), ("f1", 1),
      ("intra-distinct-1", 1), ("inter-distinct-1", 1),
      ("intra-distinct-2", 1 / 10000000), ("intra-distinct-3", 1 / 10000000),
      ("intra-distinct-4", 1 / 10000000)] "correct" = none ∧
    qlook [("exs", (1 : ℚ)), ("accuracy", 1), ("f1", 1),
      ("intra-distinct-1", 1), ("inter-distinct-1", 1),
      ("intra-distinct-2", 1 / 10000000), ("intra-distinct-3", 1 / 10000000),
      ("intra-distinct-4", 1 / 10000000)] "accuracy" = some 1 :=
  ⟨update_x_run, by simp [sC2fin], rfl, by norm_num, report_sC2fin, rfl, rfl⟩

/-- C1 (witness): on the completed-update state, the ordinary scalar key
`intra-distinct-1` (counter `1 > 0`) is reported as its rounded ratio, and
the key `ppl` (counter `0`) is omitted. -/
theorem C1_witness :
    ∃ r, report sC2fin = .ok r ∧
      qlook r "intra-distinct-1" = some (round_sigfigs (1 / max 1 1) 4) ∧
      qlook r "ppl" = none := by
  refine ⟨_, report_sC2fin, ?_, ?_⟩
  · exact (C1_amended "intra-distinct-1" report_sC2fin rfl (by norm_num)
      (by decide) rfl (by decide) (by decide) (by decide) (by decide)
      (by decide) rfl).1 1 (by norm_num) rfl
  · exact (C1_amended "ppl" report_sC2fin rfl (by norm_num) (by decide) rfl
      (by decide) (by decide) (by decide) (by decide) (by decide) rfl).2 rfl

/-! ## Analysis of `round_sigfigs` -/

/-- `qpow10` is the integer power of ten. -/
theorem qpow10_eq_zpow (s : ℤ) : qpow10 s = (10 : ℚ) ^ s := by
  rw [qpow10]
  by_cases h : 0 ≤ s
  · rw [if_pos h]
    push_cast
    rw [← zpow_natCast]
    congr 1
    omega
  · rw [if_neg h]
    push_cast
    rw [one_div, ← zpow_natCast, ← zpow_neg]
    congr 1
    omega

/-- `qRound` agrees with Mathlib's round-half-up. -/
theorem qRound_eq (q : ℚ) : qRound q = round q := by
  have hb : (0 : ℚ) < ((2 * q.den : ℕ) : ℚ) := by
    have := q.pos
    positivity
  have hd : ((q.den : ℕ) : ℚ) ≠ 0 := by
    have := q.pos
    positivity
  have hnum : (q.num : ℚ) = q * ((q.den : ℕ) : ℚ) :=
    (div_eq_iff hd).mp (Rat.num_div_den q)
  have key : (((2 * q.num + (q.den : ℤ)) : ℤ) : ℚ) / ((2 * q.den : ℕ) : ℚ) =
      q + 1 / 2 := by
    rw [div_eq_iff (ne_of_gt hb)]
    push_cast
    rw [hnum]
    ring
  have h := Rat.floor_intCast_div_natCast (2 * q.num + q.den) (2 * q.den)
  rw [key] at h
  rw [round_eq, h, qRound]
  rw [Int.fdiv_eq_ediv _ (by positivity)]
  congr 1

/-- Round-half-up is monotone. -/
theorem round_mono2 {x y : ℚ} (h : x ≤ y) : round x ≤ round y := by
  rw [round_eq, round_eq]
  exact Int.floor_mono (by linarith)

/-- The digit counter of zero. -/
theorem dCount_zero (f : ℕ) : dCount f 0 = 0 := by
  cases f <;> rfl

/-- With enough fuel, `dCount` counts base-10 digits. -/
theorem dCount_spec : ∀ f n, 0 < n → n ≤ f →
    10 ^ (dCount f n - 1) ≤ n ∧ n < 10 ^ dCount f n := by
  intro f
  induction f with
  | zero => intro n h1 h2; omega
  | succ f ih =>
      intro n h1 h2
      obtain ⟨m, rfl⟩ : ∃ m, n = m + 1 := ⟨n - 1, by omega⟩
      rw [dCount]
      by_cases h10 : (m + 1) / 10 = 0
      · rw [h10, dCount_zero]
        constructor
        · simpa using h1
        · have hlt : m + 1 < 10 := by omega
          simpa using hlt
      · have hq1 : 0 < (m + 1) / 10 := Nat.pos_of_ne_zero h10
        have hqf : (m + 1) / 10 ≤ f := by omega
        obtain ⟨hl, hu⟩ := ih ((m + 1) / 10) hq1 hqf
        have hd1 : 1 ≤ dCount f ((m + 1) / 10) := by
          by_contra hd
          have hd0 : dCount f ((m + 1) / 10) = 0 := by omega
          rw [hd0, pow_zero] at hu
          omega
        constructor
        · have e1 : dCount f ((m + 1) / 10) + 1 - 1 =
              dCount f ((m + 1) / 10) := by omega
          rw [e1]
          have e2 : 10 ^ dCount f ((m + 1) / 10) =
              10 ^ (dCount f ((m + 1) / 10) - 1) * 10 := by
            rw [← pow_succ]
            congr 1
            omega
          rw [e2]
          have h3 : 10 ^ (dCount f ((m + 1) / 10) - 1) * 10 ≤
              ((m + 1) / 10) * 10 := Nat.mul_le_mul_right _ hl
          refine le_trans h3 ?_
          omega
        · rw [pow_succ]
          have h1' : m + 1 < ((m + 1) / 10 + 1) * 10 := by omega
          have h2' : ((m + 1) / 10 + 1) * 10 ≤
              10 ^ dCount f ((m + 1) / 10) * 10 :=
            Nat.mul_le_mul_right _ (by omega)
          omega

/-- With enough fuel, `findScale` finds the least scale that clears `b`. -/
theorem findScale_spec : ∀ f a b, 0 < a → b ≤ a * 10 ^ f →
    b ≤ a * 10 ^ findScale f a b ∧
    (findScale f a b = 0 ∨ a * 10 ^ (findScale f a b - 1) < b) := by
  intro f
  induction f with
  | zero =>
      intro a b ha hf
      rw [findScale]
      refine ⟨by simpa using hf, Or.inl rfl⟩
  | succ f ih =>
      intro a b ha hf
      rw [findScale]
      by_cases hba : b ≤ a
      · rw [if_pos hba]
        exact ⟨by simpa using hba, Or.inl rfl⟩
      · rw [if_neg hba]
        have hf' : b ≤ a * 10 * 10 ^ f := by
          rw [mul_assoc, ← pow_succ']
          exact hf
        obtain ⟨h1, h2⟩ := ih (a * 10) b (by positivity) hf'
        constructor
        · calc b ≤ a * 10 * 10 ^ findScale f (a * 10) b := h1
          _ = a * 10 ^ (findScale f (a * 10) b + 1) := by
              rw [pow_succ]
              ring
        · right
          by_cases hj : findScale f (a * 10) b = 0
          · rw [hj]
            simpa using Nat.lt_of_not_le hba
          · rcases h2 with h0 | hlt
            · exact absurd h0 hj
            · have hj1 : findScale f (a * 10) b + 1 - 1 =
                  (findScale f (a * 10) b - 1) + 1 := by omega
              rw [hj1, pow_succ]
              have e : a * (10 ^ (findScale f (a * 10) b - 1) * 10) =
                  a * 10 * 10 ^ (findScale f (a * 10) b - 1) := by ring
              rw [e]
              exact hlt

/-- `qExpN` is the floor of the base-10 logarithm of `a / b`. -/
theorem qExpN_spec (a b : ℕ) (ha : 0 < a) (hb : 0 < b) :
    (10 : ℚ) ^ qExpN a b ≤ (a : ℚ) / (b : ℚ) ∧
    (a : ℚ) / (b : ℚ) < (10 : ℚ) ^ (qExpN a b + 1) := by
  have hbq : (0 : ℚ) < (b : ℚ) := by exact_mod_cast hb
  rw [qExpN]
  by_cases hba : b ≤ a
  · rw [if_pos hba]
    have hm1 : 0 < a / b := Nat.div_pos hba hb
    obtain ⟨hl, hu⟩ := dCount_spec (a / b) (a / b) hm1 le_rfl
    have hd1 : 1 ≤ dCount (a / b) (a / b) := by
      by_contra hd
      have hd0 : dCount (a / b) (a / b) = 0 := by omega
      rw [hd0, pow_zero] at hu
      omega
    constructor
    · have e : (dCount (a / b) (a / b) : ℤ) - 1 =
          ((dCount (a / b) (a / b) - 1 : ℕ) : ℤ) := by omega
      rw [e, zpow_natCast]
      have c1 : ((10 ^ (dCount (a / b) (a / b) - 1) : ℕ) : ℚ) ≤
          ((a / b : ℕ) : ℚ) := by exact_mod_cast hl
      have c2 : ((a / b : ℕ) : ℚ) ≤ (a : ℚ) / (b : ℚ) := Nat.cast_div_le
      calc (10 : ℚ) ^ (dCount (a / b) (a / b) - 1)
          = ((10 ^ (dCount (a / b) (a / b) - 1) : ℕ) : ℚ) := by push_cast; ring
        _ ≤ (a : ℚ) / (b : ℚ) := le_trans c1 c2
    · have e : (dCount (a / b) (a / b) : ℤ) - 1 + 1 =
          ((dCount (a / b) (a / b) : ℕ) : ℤ) := by omega
      rw [e, zpow_natCast]
      have key : (a : ℚ) / (b : ℚ) < ((a / b + 1 : ℕ) : ℚ) := by
        rw [div_lt_iff hbq]
        have hlt : a < (a / b + 1) * b :=
          (Nat.div_lt_iff_lt_mul hb).mp (Nat.lt_succ_self _)
        exact_mod_cast hlt
      have c2 : ((a / b + 1 : ℕ) : ℚ) ≤ ((10 ^ dCount (a / b) (a / b) : ℕ) : ℚ) := by
        exact_mod_cast hu
      refine lt_of_lt_of_le key (le_trans c2 ?_)
      push_cast
      exact le_refl _
  · rw [if_neg hba]
    have hfuel : b ≤ a * 10 ^ b := by
      calc b ≤ 10 ^ b := le_of_lt (Nat.lt_pow_self (by norm_num) b)
      _ ≤ a * 10 ^ b := Nat.le_mul_of_pos_left _ ha
    obtain ⟨h1, h2⟩ := findScale_spec b a b ha hfuel
    have hspos : 0 < findScale b a b := by
      rcases Nat.eq_zero_or_pos (findScale b a b) with h0 | h
      · rw [h0, pow_zero, mul_one] at h1
        omega
      · exact h
    have hlt : a * 10 ^ (findScale b a b - 1) < b := by
      rcases h2 with h0 | h
      · omega
      · exact h
    have h10 : (0 : ℚ) < (10 : ℚ) ^ findScale b a b := by positivity
    constructor
    · rw [zpow_neg, zpow_natCast, inv_eq_one_div, div_le_div_iff h10 hbq]
      have c1 : (b : ℚ) ≤ (a : ℚ) * (10 : ℚ) ^ findScale b a b := by
        exact_mod_cast h1
      linarith
    · have e : -(findScale b a b : ℤ) + 1 = -((findScale b a b - 1 : ℕ) : ℤ) := by
        omega
      rw [e, zpow_neg, zpow_natCast, inv_eq_one_div,
        div_lt_div_iff hbq (by positivity)]
      have c1 : (a : ℚ) * (10 : ℚ) ^ (findScale b a b - 1) < (b : ℚ) := by
        exact_mod_cast hlt
      linarith

/-- `qExp` is the floor of the base-10 logarithm of a positive rational. -/
theorem qExp_spec (q : ℚ) (hq : 0 < q) :
    (10 : ℚ) ^ qExp q ≤ q ∧ q < (10 : ℚ) ^ (qExp q + 1) := by
  rw [qExp]
  have hnum : 0 < q.num := Rat.num_pos.mpr hq
  have ha : 0 < q.num.natAbs := by omega
  obtain ⟨h1, h2⟩ := qExpN_spec q.num.natAbs q.den ha q.pos
  have he : ((q.num.natAbs : ℕ) : ℚ) / ((q.den : ℕ) : ℚ) = q := by
    have h0 : (q.num.natAbs : ℤ) = q.num := Int.natAbs_of_nonneg (le_of_lt hnum)
    have hcast : ((q.num.natAbs : ℕ) : ℚ) = ((q.num : ℤ) : ℚ) := by
      conv_rhs => rw [← h0]
      rw [Int.cast_natCast]
    rw [hcast]
    exact Rat.num_div_den q
  rw [he] at h1 h2
  exact ⟨h1, h2⟩

/-- `round_sigfigs` on a nonzero input, in terms of Mathlib's `round` and
integer powers of ten. -/
theorem rsf_eq (q : ℚ) (hq : q ≠ 0) (n : ℕ) :
    round_sigfigs q n =
      ((round (q * (10 : ℚ) ^ ((n : ℤ) - 1 - qExp q)) : ℤ) : ℚ) *
        (10 : ℚ) ^ (-((n : ℤ) - 1 - qExp q)) := by
  simp only [round_sigfigs, if_neg hq, qRound_eq, qpow10_eq_zpow]

/-- The scaled mantissa of a positive rational lies in `[10^(n-1), 10^n)`. -/
theorem mantissa_bounds {q : ℚ} (hq : 0 < q) (n : ℕ) :
    (10 : ℚ) ^ ((n : ℤ) - 1) ≤ q * (10 : ℚ) ^ ((n : ℤ) - 1 - qExp q) ∧
    q * (10 : ℚ) ^ ((n : ℤ) - 1 - qExp q) < (10 : ℚ) ^ (n : ℤ) := by
  obtain ⟨h1, h2⟩ := qExp_spec q hq
  have hp : (0 : ℚ) < (10 : ℚ) ^ ((n : ℤ) - 1 - qExp q) := by positivity
  constructor
  · calc (10 : ℚ) ^ ((n : ℤ) - 1)
        = (10 : ℚ) ^ qExp q * (10 : ℚ) ^ ((n : ℤ) - 1 - qExp q) := by
          rw [← zpow_add₀ (by norm_num : (10 : ℚ) ≠ 0)]
          congr 1
          ring
    _ ≤ q * (10 : ℚ) ^ ((n : ℤ) - 1 - qExp q) :=
        mul_le_mul_of_nonneg_right h1 (le_of_lt hp)
  · calc q * (10 : ℚ) ^ ((n : ℤ) - 1 - qExp q)
        < (10 : ℚ) ^ (qExp q + 1) * (10 : ℚ) ^ ((n : ℤ) - 1 - qExp q) :=
          mul_lt_mul_of_pos_right h2 hp
    _ = (10 : ℚ) ^ (n : ℤ) := by
        rw [← zpow_add₀ (by norm_num : (10 : ℚ) ≠ 0)]
        congr 1
        ring

/-- Rounding to `n ≥ 1` significant figures never drops below `10^(qExp q)`. -/
theorem rsf_lower {q : ℚ} (hq : 0 < q) {n : ℕ} (hn : 1 ≤ n) :
    (10 : ℚ) ^ qExp q ≤ round_sigfigs q n := by
  rw [rsf_eq q (ne_of_gt hq) n]
  obtain ⟨h1, _⟩ := mantissa_bounds hq n
  have hcast : ((10 ^ (n - 1) : ℕ) : ℚ) = (10 : ℚ) ^ ((n : ℤ) - 1) := by
    push_cast
    rw [← zpow_natCast]
    congr 1
    omega
  have hr : ((10 ^ (n - 1) : ℕ) : ℤ) ≤
      round (q * (10 : ℚ) ^ ((n : ℤ) - 1 - qExp q)) := by
    rw [round_eq]
    refine Int.le_floor.mpr ?_
    have : ((((10 ^ (n - 1) : ℕ) : ℤ)) : ℚ) = (10 : ℚ) ^ ((n : ℤ) - 1) := by
      rw [← hcast]
      push_cast
      ring
    rw [this]
    linarith
  calc (10 : ℚ) ^ qExp q
      = (10 : ℚ) ^ ((n : ℤ) - 1) * (10 : ℚ) ^ (-((n : ℤ) - 1 - qExp q)) := by
        rw [← zpow_add₀ (by norm_num : (10 : ℚ) ≠ 0)]
        congr 1
        ring
  _ ≤ ((round (q * (10 : ℚ) ^ ((n : ℤ) - 1 - qExp q)) : ℤ) : ℚ) *
        (10 : ℚ) ^ (-((n : ℤ) - 1 - qExp q)) := by
      refine mul_le_mul_of_nonneg_right ?_ (by positivity)
      rw [← hcast]
      exact_mod_cast hr

/-- Rounding to significant figures never exceeds `10^(qExp q + 1)`. -/
theorem rsf_upper {q : ℚ} (hq : 0 < q) (n : ℕ) :
    round_sigfigs q n ≤ (10 : ℚ) ^ (qExp q + 1) := by
  rw [rsf_eq q (ne_of_gt hq) n]
  obtain ⟨_, h2⟩ := mantissa_bounds hq n
  have hcast : ((10 ^ n : ℕ) : ℚ) = (10 : ℚ) ^ (n : ℤ) := by
    push_cast
    rw [← zpow_natCast]
  have hr : round (q * (10 : ℚ) ^ ((n : ℤ) - 1 - qExp q)) ≤ ((10 ^ n : ℕ) : ℤ) := by
    have hstep : round (q * (10 : ℚ) ^ ((n : ℤ) - 1 - qExp q)) ≤
        round ((((10 ^ n : ℕ) : ℤ) : ℚ)) := by
      refine round_mono2 ?_
      have : ((((10 ^ n : ℕ) : ℤ)) : ℚ) = (10 : ℚ) ^ (n : ℤ) := by
        rw [← hcast]
        push_cast
        ring
      rw [this]
      exact le_of_lt h2
    rwa [round_intCast] at hstep
  calc ((round (q * (10 : ℚ) ^ ((n : ℤ) - 1 - qExp q)) : ℤ) : ℚ) *
        (10 : ℚ) ^ (-((n : ℤ) - 1 - qExp q))
      ≤ (10 : ℚ) ^ (n : ℤ) * (10 : ℚ) ^ (-((n : ℤ) - 1 - qExp q)) := by
        refine mul_le_mul_of_nonneg_right ?_ (by positivity)
        rw [← hcast]
        exact_mod_cast hr
  _ = (10 : ℚ) ^ (qExp q + 1) := by
      rw [← zpow_add₀ (by norm_num : (10 : ℚ) ≠ 0)]
      congr 1
      ring

/-- Rounding a positive rational to `n ≥ 1` significant figures is positive. -/
theorem rsf_pos {q : ℚ} (hq : 0 < q) {n : ℕ} (hn : 1 ≤ n) :
    0 < round_sigfigs q n :=
  lt_of_lt_of_le (by positivity) (rsf_lower hq hn)

/-- The base-10 exponent of a positive rational at most one is nonpositive. -/
theorem qExp_nonpos {q : ℚ} (hq : 0 < q) (hq1 : q ≤ 1) : qExp q ≤ 0 := by
  by_contra h
  push_neg at h
  have h10 : (10 : ℚ) ^ (1 : ℤ) ≤ (10 : ℚ) ^ qExp q :=
    zpow_le_zpow_right₀ (by norm_num) (by omega)
  have := (qExp_spec q hq).1
  rw [zpow_one] at h10
  linarith

/-- Rounding a rational in `(0, 1]` to `n ≥ 1` significant figures stays
at most one. -/
theorem rsf_le_one {q : ℚ} (hq : 0 < q) (hq1 : q ≤ 1) {n : ℕ} (hn : 1 ≤ n) :
    round_sigfigs q n ≤ 1 := by
  rw [rsf_eq q (ne_of_gt hq) n]
  have hs : 0 ≤ (n : ℤ) - 1 - qExp q := by
    have := qExp_nonpos hq hq1
    omega
  have hcast : ((10 ^ ((n : ℤ) - 1 - qExp q).toNat : ℕ) : ℚ) =
      (10 : ℚ) ^ ((n : ℤ) - 1 - qExp q) := by
    push_cast
    rw [← zpow_natCast]
    congr 1
    omega
  have hy : q * (10 : ℚ) ^ ((n : ℤ) - 1 - qExp q) ≤
      (10 : ℚ) ^ ((n : ℤ) - 1 - qExp q) := by
    have hp : (0 : ℚ) < (10 : ℚ) ^ ((n : ℤ) - 1 - qExp q) := by positivity
    calc q * (10 : ℚ) ^ ((n : ℤ) - 1 - qExp q)
        ≤ 1 * (10 : ℚ) ^ ((n : ℤ) - 1 - qExp q) :=
          mul_le_mul_of_nonneg_right hq1 (le_of_lt hp)
    _ = (10 : ℚ) ^ ((n : ℤ) - 1 - qExp q) := one_mul _
  have hr : round (q * (10 : ℚ) ^ ((n : ℤ) - 1 - qExp q)) ≤
      ((10 ^ ((n : ℤ) - 1 - qExp q).toNat : ℕ) : ℤ) := by
    have hstep : round (q * (10 : ℚ) ^ ((n : ℤ) - 1 - qExp q)) ≤
        round ((((10 ^ ((n : ℤ) - 1 - qExp q).toNat : ℕ) : ℤ)) : ℚ) := by
      refine round_mono2 ?_
      have : ((((10 ^ ((n : ℤ) - 1 - qExp q).toNat : ℕ) : ℤ)) : ℚ) =
          (10 : ℚ) ^ ((n : ℤ) - 1 - qExp q) := by
        rw [← hcast]
        push_cast
        ring
      rw [this]
      exact hy
    rwa [round_intCast] at hstep
  calc ((round (q * (10 : ℚ) ^ ((n : ℤ) - 1 - qExp q)) : ℤ) : ℚ) *
        (10 : ℚ) ^ (-((n : ℤ) - 1 - qExp q))
      ≤ (10 : ℚ) ^ ((n : ℤ) - 1 - qExp q) *
        (10 : ℚ) ^ (-((n : ℤ) - 1 - qExp q)) := by
        refine mul_le_mul_of_nonneg_right ?_ (by positivity)
        calc ((round (q * (10 : ℚ) ^ ((n : ℤ) - 1 - qExp q)) : ℤ) : ℚ)
            ≤ ((((10 ^ ((n : ℤ) - 1 - qExp q).toNat : ℕ) : ℤ)) : ℚ) := by
              exact_mod_cast hr
        _ = (10 : ℚ) ^ ((n : ℤ) - 1 - qExp q) := by
            rw [← hcast]
            push_cast
            ring
  _ = 1 := by
      rw [← zpow_add₀ (by norm_num : (10 : ℚ) ≠ 0)]
      simp

/-- The base-10 exponent is monotone on positive rationals. -/
theorem qExp_le_qExp {q q' : ℚ} (hq : 0 < q) (h : q ≤ q') :
    qExp q ≤ qExp q' := by
  by_contra hlt
  push_neg at hlt
  have h1 := (qExp_spec q hq).1
  have h2 := (qExp_spec q' (lt_of_lt_of_le hq h)).2
  have hpow : (10 : ℚ) ^ (qExp q' + 1) ≤ (10 : ℚ) ^ qExp q :=
    zpow_le_zpow_right₀ (by norm_num) (by omega)
  linarith

/-- Rounding to `n ≥ 1` significant figures is monotone on positive
rationals. -/
theorem rsf_mono {q q' : ℚ} (hq : 0 < q) (hqq : q ≤ q') {n : ℕ} (hn : 1 ≤ n) :
    round_sigfigs q n ≤ round_sigfigs q' n := by
  have hq' : 0 < q' := lt_of_lt_of_le hq hqq
  by_cases he : qExp q = qExp q'
  · rw [rsf_eq q (ne_of_gt hq) n, rsf_eq q' (ne_of_gt hq') n, he]
    refine mul_le_mul_of_nonneg_right ?_ (by positivity)
    have hr : round (q * (10 : ℚ) ^ ((n : ℤ) - 1 - qExp q')) ≤
        round (q' * (10 : ℚ) ^ ((n : ℤ) - 1 - qExp q')) :=
      round_mono2 (mul_le_mul_of_nonneg_right hqq (by positivity))
    exact_mod_cast hr
  · have hlt : qExp q < qExp q' :=
      lt_of_le_of_ne (qExp_le_qExp hq hqq) he
    calc round_sigfigs q n ≤ (10 : ℚ) ^ (qExp q + 1) := rsf_upper hq n
    _ ≤ (10 : ℚ) ^ qExp q' := zpow_le_zpow_right₀ (by norm_num) (by omega)
    _ ≤ round_sigfigs q' n := rsf_lower hq' hn

/-- The state after one `update` with prediction `p` and no labels, no
candidates and no user metrics, on a fresh non-shared accumulator without
the BLEU/ROUGE libraries (values kept in the exact form the folds build). -/
def s8one (p : String) : MState :=
  { md := [("cnt", MVal.scalar (0 + 1)), ("mean_rank", MVal.scalar 0),
      ("mean_rank_cnt", MVal.scalar 0), ("loss", MVal.scalar 0),
      ("loss_cnt", MVal.scalar 0), ("correct", MVal.scalar (0 + 0)),
      ("correct_cnt", MVal.scalar (0 + 1)), ("f1", MVal.scalar (0 + 0)),
      ("f1_cnt", MVal.scalar (0 + 1)), ("ppl", MVal.scalar 0),
      ("ppl_cnt", MVal.scalar 0),
      ("intra-distinct-1", MVal.scalar (0 + intra_distinct p 1)),
      ("inter-distinct-1", MVal.table (inter_distinct p 1)),
      ("intra-distinct-2", MVal.scalar (0 + intra_distinct p 2)),
      ("inter-distinct-2", MVal.table (inter_distinct p 2)),
      ("intra-distinct-3", MVal.scalar (0 + intra_distinct p 3)),
      ("inter-distinct-3", MVal.table (inter_distinct p 3)),
      ("intra-distinct-4", MVal.scalar (0 + intra_distinct p 4)),
      ("inter-distinct-4", MVal.table (inter_distinct p 4)),
      ("bleu_cnt", MVal.scalar 0), ("rouge_cnt", MVal.scalar 0),
      ("intra-distinct_cnt", MVal.scalar (0 + 1)), ("hits@1", MVal.scalar 0),
      ("hits@5", MVal.scalar 0), ("hits@10", MVal.scalar 0),
      ("hits@100", MVal.scalar 0), ("hits@_cnt", MVal.scalar 0)],
    metrics_list := ["mean_rank", "loss", "correct", "f1", "ppl",
      "intra-distinct-1", "inter-distinct-1", "intra-distinct-2",
      "inter-distinct-2", "intra-distinct-3", "inter-distinct-3",
      "intra-distinct-4", "inter-distinct-4"],
    ppm := true, htc := false, shared := false }

/-- The state after a second identical `update` with the same prediction. -/
def s8two (p : String) : MState :=
  { md := [("cnt", MVal.scalar (0 + 1 + 1)), ("mean_rank", MVal.scalar 0),
      ("mean_rank_cnt", MVal.scalar 0), ("loss", MVal.scalar 0),
      ("loss_cnt", MVal.scalar 0), ("correct", MVal.scalar (0 + 0 + 0)),
      ("correct_cnt", MVal.scalar (0 + 1 + 1)), ("f1", MVal.scalar (0 + 0 + 0)),
      ("f1_cnt", MVal.scalar (0 + 1 + 1)), ("ppl", MVal.scalar 0),
      ("ppl_cnt", MVal.scalar 0),
      ("intra-distinct-1",
        MVal.scalar (0 + intra_distinct p 1 + intra_distinct p 1)),
      ("inter-distinct-1", MVal.table (inter_distinct p 1 ++ inter_distinct p 1)),
      ("intra-distinct-2",
        MVal.scalar (0 + intra_distinct p 2 + intra_distinct p 2)),
      ("inter-distinct-2", MVal.table (inter_distinct p 2 ++ inter_distinct p 2)),
      ("intra-distinct-3",
        MVal.scalar (0 + intra_distinct p 3 + intra_distinct p 3)),
      ("inter-distinct-3", MVal.table (inter_distinct p 3 ++ inter_distinct p 3)),
      ("intra-distinct-4",
        MVal.scalar (0 + intra_distinct p 4 + intra_distinct p 4)),
      ("inter-distinct-4", MVal.table (inter_distinct p 4 ++ inter_distinct p 4)),
      ("bleu_cnt", MVal.scalar 0), ("rouge_cnt", MVal.scalar 0),
      ("intra-distinct_cnt", MVal.scalar (0 + 1 + 1)),
      ("hits@1", MVal.scalar 0),
      ("hits@5", MVal.scalar 0), ("hits@10", MVal.scalar 0),
      ("hits@100", MVal.scalar 0), ("hits@_cnt", MVal.scalar 0)],
    metrics_list := ["mean_rank", "loss", "correct", "f1", "ppl",
      "intra-distinct-1", "inter-distinct-1", "intra-distinct-2",
      "inter-distinct-2", "intra-distinct-3", "inter-distinct-3",
      "intra-distinct-4", "inter-distinct-4"],
    ppm := true, htc := false, shared := false }

set_option maxHeartbeats 2000000 in
/-- A label-free `update` with prediction `p` on the fresh accumulator
lands on `s8one p` with per-example result `0`. -/
theorem update8_one (ext : Ext) (p : String) :
    update ⟨false, false⟩ ext (metricsInit ⟨false, false⟩ false)
      ⟨some p, none, none⟩ none = .ok (s8one p, 0) := rfl

set_option maxHeartbeats 2000000 in
/-- A second identical label-free `update` lands on `s8two p`. -/
theorem update8_two (ext : Ext) (p : String) :
    update ⟨false, false⟩ ext (s8one p) ⟨some p, none, none⟩ none =
      .ok (s8two p, 0) := rfl

/-- The `report` loop body on an `inter-distinct` key holding a nonempty
frequency table emits the guarded distinct ratio. -/
theorem reportEmit_inter (s : MState) (k : String) (t : List (List String))
    (hsw : startswith k "inter-distinct" = true)
    (hd : dlook s.md k = some (MVal.table t)) (ht : t.dedup.length ≠ 0) :
    reportEmit s k = .ok (some (round_sigfigs
      (max ((t.dedup.length : ℚ)) eps12 / max ((t.length : ℚ)) eps5) 4)) := by
  simp [reportEmit, hsw, hd, ht]

/-- The `report` loop body on an `inter-distinct` key holding an empty
frequency table emits nothing. -/
theorem reportEmit_inter_none (s : MState) (k : String) (t : List (List String))
    (hsw : startswith k "inter-distinct" = true)
    (hd : dlook s.md k = some (MVal.table t)) (ht : t.dedup.length = 0) :
    reportEmit s k = .ok none := by
  simp [reportEmit, hsw, hd, ht]

/-- Concatenating a list with itself does not change its set of distinct
elements. -/
theorem dedup_append_self_length (L : List (List String)) :
    (L ++ L).dedup.length = L.dedup.length := by
  rw [← List.card_toFinset, ← List.card_toFinset, List.toFinset_append,
    Finset.union_self]

/-- The guarded distinct ratio of a table with at least one distinct entry
lies in `(0, 1]`. -/
theorem inter_ratio_bounds (t : List (List String))
    (htd : t.dedup.length ≠ 0) :
    0 < max ((t.dedup.length : ℚ)) eps12 / max ((t.length : ℚ)) eps5 ∧
    max ((t.dedup.length : ℚ)) eps12 / max ((t.length : ℚ)) eps5 ≤ 1 := by
  have hdl : 1 ≤ t.dedup.length := Nat.one_le_iff_ne_zero.mpr htd
  have hll : t.dedup.length ≤ t.length := (List.dedup_sublist t).length_le
  have hdq : (1 : ℚ) ≤ (t.dedup.length : ℚ) := by exact_mod_cast hdl
  have hlq : ((t.dedup.length : ℕ) : ℚ) ≤ ((t.length : ℕ) : ℚ) := by
    exact_mod_cast hll
  have e1 : max ((t.dedup.length : ℚ)) eps12 = (t.dedup.length : ℚ) :=
    max_eq_left (le_trans (by norm_num [eps12]) hdq)
  have e2 : max ((t.length : ℚ)) eps5 = (t.length : ℚ) :=
    max_eq_left (le_trans (by norm_num [eps5]) (le_trans hdq hlq))
  rw [e1, e2]
  have hlpos : (0 : ℚ) < (t.length : ℚ) :=
    lt_of_lt_of_le (by norm_num) (le_trans hdq hlq)
  constructor
  · exact div_pos (lt_of_lt_of_le (by norm_num) hdq) hlpos
  · rw [div_le_one hlpos]
    exact hlq

/-- C8: whenever an `inter-distinct` frequency table is non-empty, the
value the `report` loop emits for it — `round_sigfigs` of
`len(table)/max(sum(table.values()), ε)` over the whole history — lies in
`(0, 1]`; and after two `update` calls carrying the same prediction text,
the emitted `inter-distinct-1` value is no greater than after the first
`update` alone. -/
theorem C8 :
    (∀ (s : MState) (k : String) (t : List (List String)),
      startswith k "inter-distinct" = true →
      dlook s.md k = some (MVal.table t) → t ≠ [] →
      ∃ v, reportEmit s k = .ok (some v) ∧ 0 < v ∧ v ≤ 1) ∧
    (∀ (ext : Ext) (p : String),
      ∃ s1 s2, update ⟨false, false⟩ ext (metricsInit ⟨false, false⟩ false)
          ⟨some p, none, none⟩ none = .ok (s1, 0) ∧
        update ⟨false, false⟩ ext s1 ⟨some p, none, none⟩ none =
          .ok (s2, 0) ∧
        ∀ v1 v2, reportEmit s1 "inter-distinct-1" = .ok (some v1) →
          reportEmit s2 "inter-distinct-1" = .ok (some v2) → v2 ≤ v1) := by
  constructor
  · intro s k t hsw hd ht
    have htd : t.dedup.length ≠ 0 := by
      intro h0
      exact ht ((List.dedup_eq_nil t).mp (List.length_eq_zero.mp h0))
    obtain ⟨hpos, hle⟩ := inter_ratio_bounds t htd
    exact ⟨_, reportEmit_inter s k t hsw hd htd,
      rsf_pos hpos (by norm_num), rsf_le_one hpos hle (by norm_num)⟩
  · intro ext p
    refine ⟨s8one p, s8two p, update8_one ext p, update8_two ext p, ?_⟩
    intro v1 v2 hv1 hv2
    by_cases hL : (inter_distinct p 1).dedup.length = 0
    · have h0 : reportEmit (s8one p) "inter-distinct-1" = .ok none :=
        reportEmit_inter_none _ _ (inter_distinct p 1) rfl rfl hL
      rw [h0] at hv1
      exact absurd hv1 (by simp)
    · have h1 : reportEmit (s8one p) "inter-distinct-1" =
          .ok (some (round_sigfigs
            (max (((inter_distinct p 1).dedup.length : ℚ)) eps12 /
              max (((inter_distinct p 1).length : ℚ)) eps5) 4)) :=
        reportEmit_inter _ _ (inter_distinct p 1) rfl rfl hL
      have hL2 : (inter_distinct p 1 ++ inter_distinct p 1).dedup.length ≠ 0 := by
        rw [dedup_append_self_length]
        exact hL
      have h2 : reportEmit (s8two p) "inter-distinct-1" =
          .ok (some (round_sigfigs
            (max (((inter_distinct p 1 ++
                inter_distinct p 1).dedup.length : ℚ)) eps12 /
              max (((inter_distinct p 1 ++
                inter_distinct p 1).length : ℚ)) eps5) 4)) :=
        reportEmit_inter _ _ (inter_distinct p 1 ++ inter_distinct p 1) rfl rfl
          hL2
      rw [h1] at hv1
      rw [h2] at hv2
      simp only [Except.ok.injEq, Option.some.injEq] at hv1 hv2
      subst hv1
      subst hv2
      have hdl : 1 ≤ (inter_distinct p 1).dedup.length :=
        Nat.one_le_iff_ne_zero.mpr hL
      have hll : (inter_distinct p 1).dedup.length ≤
          (inter_distinct p 1).length :=
        (List.dedup_sublist (inter_distinct p 1)).length_le
      have hdq : (1 : ℚ) ≤ ((inter_distinct p 1).dedup.length : ℚ) := by
        exact_mod_cast hdl
      have hlq : (((inter_distinct p 1).dedup.length : ℕ) : ℚ) ≤
          (((inter_distinct p 1).length : ℕ) : ℚ) := by
        exact_mod_cast hll
      have e1 : max (((inter_distinct p 1).dedup.length : ℚ)) eps12 =
          ((inter_distinct p 1).dedup.length : ℚ) :=
        max_eq_left (le_trans (by norm_num [eps12]) hdq)
      have e2 : max (((inter_distinct p 1).length : ℚ)) eps5 =
          ((inter_distinct p 1).length : ℚ) :=
        max_eq_left (le_trans (by norm_num [eps5]) (le_trans hdq hlq))
      have edd : ((inter_distinct p 1 ++
            inter_distinct p 1).dedup.length : ℚ) =
          ((inter_distinct p 1).dedup.length : ℚ) := by
        rw [dedup_append_self_length]
      have elen : ((inter_distinct p 1 ++ inter_distinct p 1).length : ℚ) =
          2 * ((inter_distinct p 1).length : ℚ) := by
        rw [List.length_append]
        push_cast
        ring
      have e1' : max (((inter_distinct p 1 ++
            inter_distinct p 1).dedup.length : ℚ)) eps12 =
          ((inter_distinct p 1).dedup.length : ℚ) := by
        rw [edd]
        exact e1
      have e2' : max (((inter_distinct p 1 ++
            inter_distinct p 1).length : ℚ)) eps5 =
          2 * ((inter_distinct p 1).length : ℚ) := by
        rw [elen]
        have h2l : (1 : ℚ) ≤ 2 * ((inter_distinct p 1).length : ℚ) := by
          have := le_trans hdq hlq
          linarith
        exact max_eq_left (le_trans (by norm_num [eps5] : eps5 ≤ (1 : ℚ)) h2l)
      rw [e1, e2, e1', e2']
      have hlpos : (0 : ℚ) < ((inter_distinct p 1).length : ℚ) :=
        lt_of_lt_of_le (by norm_num) (le_trans hdq hlq)
      have hr2pos : 0 < ((inter_distinct p 1).dedup.length : ℚ) /
          (2 * ((inter_distinct p 1).length : ℚ)) :=
        div_pos (lt_of_lt_of_le (by norm_num) hdq) (by linarith)
      have hrle : ((inter_distinct p 1).dedup.length : ℚ) /
            (2 * ((inter_distinct p 1).length : ℚ)) ≤
          ((inter_distinct p 1).dedup.length : ℚ) /
            ((inter_distinct p 1).length : ℚ) := by
        rw [div_le_div_iff (by linarith) hlpos]
        nlinarith
      exact rsf_mono hr2pos hrle (by norm_num)

/-- C8 at a concrete input: the one-update table `[["x"]]` inside `sC2fin`
reports a value in `(0, 1]`, and a concrete double update with prediction
`"x"` cannot raise the emitted `inter-distinct-1` value. -/
theorem C8_witness :
    (∃ v, reportEmit sC2fin "inter-distinct-1" = .ok (some v) ∧
      0 < v ∧ v ≤ 1) ∧
    (∃ s1 s2, update ⟨false, false⟩ extZero (metricsInit ⟨false, false⟩ false)
        ⟨some "x", none, none⟩ none = .ok (s1, 0) ∧
      update ⟨false, false⟩ extZero s1 ⟨some "x", none, none⟩ none =
        .ok (s2, 0) ∧
      ∀ v1 v2, reportEmit s1 "inter-distinct-1" = .ok (some v1) →
        reportEmit s2 "inter-distinct-1" = .ok (some v2) → v2 ≤ v1) :=
  ⟨C8.1 sC2fin "inter-distinct-1" [["x"]] rfl rfl (by decide),
   C8.2 extZero "x"⟩
